import Mathlib

/-!
# Cuckoo hash table (`src/cuckoo/ch.go`) and double-hashing table (`src/dhash/dh.go`)

Shallow embedding of the two open-addressing tables of the repository, and of
the ring-buffer queue (`src/queue/queue.go`), the insertion of the dynamic
array (`src/array/array.go`) and the binary tree
(`src/binarytree/binary_tree.go`), followed by the properties proved about
them.

Modelling conventions.

* A Go `string` is a byte sequence: `Key = List (Fin 256)`.
* `uint32` / `uint64` values are natural numbers.  Every operation that can
  overflow is written out: sums and products with an explicit `% 2^32` or
  `% 2^64`, the decrements `tableSize - 1` and `elementsCount--` with an
  explicit case for 0 (where they wrap to `2^32 - 1`).
* A slice is a `List`; an index outside the slice and an integer division by
  zero are run-time panics, modelled by the outcome `Res.fault`.
* `Insert` and `resize` call each other.  The recursion is not well-founded in
  general, so the embedding carries a budget of nested calls: `Insert fuel`
  yields `Res.fuelOut` when the budget is used up.  "The call returns `t`" is
  `Insert fuel … = Res.ok t` for some `fuel`; "the call never returns" is
  `Insert fuel … ≠ Res.ok t` for all `fuel` and `t`.
* `float64` arithmetic is IEEE-754 binary64 with round-to-nearest-even and no
  fused multiply-add.  Every float that occurs in `hash1` is a non-negative
  multiple of `2^-53` below `2^64`, so it is represented by its numerator over
  `2^53`, and rounding is the integer function `round53`.

* For `Copy`, the cuckoo table is given a second time as a heap object: a
  slice is the address of its backing array in a heap of arrays, and the
  struct fields are passed explicitly.  The heap functions are shown to
  simulate the functions on table values.
* A file is its sequence of bytes.  Creating, opening and writing a file are
  taken to succeed.  `binary.Read` / `binary.Write` on a value and `fmt.Fscan`
  are library code: the value codec is a parameter, `Fscan` is a parameter
  (`Scanner`) with a model for ASCII input and decimal numerals
  (`asciiScanner`).

* Go's `int` (queue, array) is an integer; results that can leave the 64-bit
  range are wrapped with `wrap64`, `%` is the truncated remainder, and `make`
  with a negative length is a panic.  Allocation is taken to succeed.
* A slice of the dynamic array is its backing array with a length; `append`
  writes in place when the capacity suffices and into a new backing array
  otherwise, of a capacity left open.
* The binary tree is an inductive tree; the `<` of the key type is a
  parameter of `Insert`, so that key types whose `<` is not a total order
  (`float64` with NaN) are covered.

The file has two parts: the definitions (the code, then the invariants and
notions the statements use), and the theorems.
-/

set_option autoImplicit false

/-- Outcome of a call: a normal return, a run-time panic, or an exhausted
recursion budget. -/
inductive Res (α : Type) where
  | ok (a : α) : Res α
  | fault : Res α
  | fuelOut : Res α
  deriving DecidableEq, Repr

/-- A Go string, as its sequence of bytes. -/
abbrev Key := List (Fin 256)

/-- Search for the binary exponent of `q`: the number of halvings that bring
`q` below `2^53`; the first argument bounds the search. -/
def expoAux : Nat → Nat → Nat
  | 0, _ => 0
  | f + 1, q => if q < 2 ^ 53 then 0 else expoAux f (q / 2) + 1

/-- The least `e` with `q / 2^e < 2^53`. -/
def expo (q : Nat) : Nat := expoAux q q

/-- Rounding of a natural number to 53 significant bits, ties to even: the
numerator of the binary64 value nearest to `q * 2^s` (for any scale `s` that
keeps the value in the normal range). -/
def round53 (q : Nat) : Nat :=
  let e := expo q
  let m := q / 2 ^ e
  let r := q % 2 ^ e
  if 2 * r < 2 ^ e then m * 2 ^ e
  else if 2 * r = 2 ^ e ∧ m % 2 = 0 then m * 2 ^ e
  else (m + 1) * 2 ^ e

/-- The accumulator of `hash1`: `numKey = numKey*31 + uint64(c)` over the bytes
of the key, in `uint64`. -/
def numKey (key : Key) : Nat :=
  key.foldl (fun acc c => (acc * 31 + c.val) % 2 ^ 64) 0

/-- The accumulator of `hash2`: `sum += uint32(c)` over the bytes of the key,
in `uint32`. -/
def byteSum (key : Key) : Nat :=
  key.foldl (fun s c => (s + c.val) % 2 ^ 32) 0

/-- The multiplicative hash shared by both tables, for a multiplier
`A = a53 / 2^53`:
`temp := float64(numKey) * A; temp = temp - math.Floor(temp);
 uint32(math.Floor(float64(tableSize) * temp))`. -/
def goldenHash (a53 tableSize : Nat) (key : Key) : Nat :=
  let x := round53 (numKey key)
  let temp := round53 (a53 * x)
  let frac := temp % 2 ^ 53
  round53 (tableSize * frac) / 2 ^ 53

/-- The additive hash shared by both tables:
`result := (sum % (tableSize - 1)) + 1`, incremented once more when
`tableSize` and `result` are both even.  `tableSize - 1` is a `uint32`
subtraction (it wraps to `2^32 - 1` for `tableSize = 0`); a zero modulus is a
panic. -/
def foldHash (tableSize : Nat) (key : Key) : Res Nat :=
  let m := if tableSize = 0 then 2 ^ 32 - 1 else tableSize - 1
  if m = 0 then Res.fault
  else
    let result := byteSum key % m + 1
    if tableSize % 2 = 0 ∧ result % 2 = 0 then Res.ok ((result + 1) % 2 ^ 32)
    else Res.ok result

namespace cuckoo

/-- Numerator of `A = (math.Sqrt(5.0) - 1.0) / 2.0 = 0x1.3c6ef372fe950p-1`
over `2^53`. -/
def A : Nat := 5566755282872656

/-- `HashNode[V]`. -/
structure HashNode (V : Type) where
  Key : Key
  Value : V
  IsOccupied : Bool
  deriving DecidableEq, Repr

/-- `CuckooHash[V]`. -/
structure CuckooHash (V : Type) where
  table : List (HashNode V)
  tableSize : Nat
  elementsCount : Nat
  deriving DecidableEq, Repr

variable {V : Type} [Inhabited V]

/-- The zero value `HashNode[V]{}`. -/
def zeroNode : HashNode V := ⟨[], default, false⟩

/-- `NewCuckooHash(size)`; `make([]HashNode[V], size+1)` with the `uint32`
sum `size+1`. -/
def NewCuckooHash (size : Nat) : CuckooHash V :=
  let size := if size = 0 then 3 else size
  { table := List.replicate ((size + 1) % 2 ^ 32) zeroNode
    tableSize := size
    elementsCount := 0 }

/-- `copy(dst, src)` on slices: the first `min (len dst) (len src)` elements
of `dst` are overwritten. -/
def copySlice {α : Type} (dst src : List α) : List α :=
  src.take dst.length ++ dst.drop src.length

/-- `Copy()`. -/
def Copy (ch : CuckooHash V) : CuckooHash V :=
  let newCh : CuckooHash V := NewCuckooHash ch.tableSize
  { newCh with
    elementsCount := ch.elementsCount
    table := copySlice newCh.table ch.table }

/-- `hash1`. -/
def hash1 (tableSize : Nat) (key : Key) : Nat :=
  goldenHash A tableSize key

/-- `hash2`. -/
def hash2 (tableSize : Nat) (key : Key) : Res Nat :=
  foldHash tableSize key

/-- `needResize`: `float64(elementsCount) / float64(tableSize) > 0.5`.
Both operands are exact in binary64 and the correctly rounded quotient
exceeds `0.5` exactly when `2 * elementsCount > tableSize` (for
`tableSize = 0` the quotient is `+Inf` or `NaN`, with the same outcome). -/
def needResize (ch : CuckooHash V) : Bool :=
  decide (ch.tableSize < 2 * ch.elementsCount)

/-- The loop of `resize` over `i = 0 .. oldSize-1`, with `ins` standing for
the `Insert` it calls; the first number is the count of iterations left. -/
def rehash (ins : CuckooHash V → Key → V → Res (CuckooHash V))
    (oldTable : List (HashNode V)) :
    Nat → Nat → CuckooHash V → Res (CuckooHash V)
  | 0, _, ch => Res.ok ch
  | r + 1, i, ch =>
    match oldTable[i]? with
    | none => Res.fault
    | some nd =>
      if nd.IsOccupied then
        match ins ch nd.Key nd.Value with
        | Res.ok ch1 => rehash ins oldTable r (i + 1) ch1
        | Res.fault => Res.fault
        | Res.fuelOut => Res.fuelOut
      else rehash ins oldTable r (i + 1) ch

/-- Body of `resize`, with `ins` standing for the `Insert` it calls. -/
def resizeWith (ins : CuckooHash V → Key → V → Res (CuckooHash V))
    (ch : CuckooHash V) : Res (CuckooHash V) :=
  let newSize := (ch.tableSize * 2 + 1) % 2 ^ 32
  rehash ins ch.table ch.tableSize 0
    { table := List.replicate ((newSize + 1) % 2 ^ 32) zeroNode
      tableSize := newSize
      elementsCount := 0 }

/-- How the eviction loop of `Insert` ends: the item in hand was stored, or
the iterations ran out with `cur` still in hand. -/
inductive LoopOut (V : Type) where
  | placed (ch : CuckooHash V) : LoopOut V
  | exhausted (ch : CuckooHash V) (cur : HashNode V) : LoopOut V
  deriving DecidableEq, Repr

/-- The eviction loop of `Insert`; the first number is the count of
iterations left, `cur` is `currentItem` and `pos` is `currentPos`. -/
def evict : Nat → CuckooHash V → HashNode V → Nat → Res (LoopOut V)
  | 0, ch, cur, _ => Res.ok (LoopOut.exhausted ch cur)
  | r + 1, ch, cur, pos =>
    match ch.table[pos]? with
    | none => Res.fault
    | some nd =>
      if nd.IsOccupied = false then
        Res.ok (LoopOut.placed
          { ch with
            table := ch.table.set pos cur
            elementsCount := (ch.elementsCount + 1) % 2 ^ 32 })
      else
        match hash2 ch.tableSize nd.Key with
        | Res.ok pos2 =>
          evict r { ch with table := ch.table.set pos cur } nd
            (if pos = hash1 ch.tableSize nd.Key then pos2
             else hash1 ch.tableSize nd.Key)
        | Res.fault => Res.fault
        | Res.fuelOut => Res.fuelOut

/-- `Insert(key, value)` with a budget of nested calls. -/
def Insert : Nat → CuckooHash V → Key → V → Res (CuckooHash V)
  | 0, _, _, _ => Res.fuelOut
  | fuel + 1, ch, key, value =>
    match ch.table[hash1 ch.tableSize key]? with
    | none => Res.fault
    | some n1 =>
      if n1.IsOccupied = true ∧ n1.Key = key then
        Res.ok { ch with
          table := ch.table.set (hash1 ch.tableSize key) { n1 with Value := value } }
      else
        match hash2 ch.tableSize key with
        | Res.fault => Res.fault
        | Res.fuelOut => Res.fuelOut
        | Res.ok h2 =>
          match ch.table[h2]? with
          | none => Res.fault
          | some n2 =>
            if n2.IsOccupied = true ∧ n2.Key = key then
              Res.ok { ch with table := ch.table.set h2 { n2 with Value := value } }
            else
              match (if needResize ch then resizeWith (Insert fuel) ch else Res.ok ch) with
              | Res.fault => Res.fault
              | Res.fuelOut => Res.fuelOut
              | Res.ok ch1 =>
                match evict ((ch1.tableSize * 2) % 2 ^ 32) ch1 ⟨key, value, true⟩
                    (hash1 ch1.tableSize key) with
                | Res.fault => Res.fault
                | Res.fuelOut => Res.fuelOut
                | Res.ok (LoopOut.placed ch2) => Res.ok ch2
                | Res.ok (LoopOut.exhausted ch2 cur) =>
                  match resizeWith (Insert fuel) ch2 with
                  | Res.fault => Res.fault
                  | Res.fuelOut => Res.fuelOut
                  | Res.ok ch3 => Insert fuel ch3 cur.Key cur.Value

/-- `resize()` with a budget of nested calls. -/
def resize (fuel : Nat) (ch : CuckooHash V) : Res (CuckooHash V) :=
  resizeWith (Insert fuel) ch

/-- `Find(key)`: the value the returned pointer refers to, `none` for `nil`. -/
def Find (ch : CuckooHash V) (key : Key) : Res (Option V) :=
  match ch.table[hash1 ch.tableSize key]? with
  | none => Res.fault
  | some n1 =>
    if n1.IsOccupied = true ∧ n1.Key = key then Res.ok (some n1.Value)
    else
      match hash2 ch.tableSize key with
      | Res.fault => Res.fault
      | Res.fuelOut => Res.fuelOut
      | Res.ok h2 =>
        match ch.table[h2]? with
        | none => Res.fault
        | some n2 =>
          if n2.IsOccupied = true ∧ n2.Key = key then Res.ok (some n2.Value)
          else if hash1 ch.tableSize key = 99 ∨ h2 = 59 then
            match ch.table[49]? with
            | some n3 =>
              if n3.IsOccupied = true ∧ n3.Key = key then Res.ok (some n3.Value)
              else Res.ok none
            | none => Res.ok none
          else Res.ok none

/-- `Remove(key)`: the table afterwards and the returned flag;
`elementsCount--` is a `uint32` decrement (it wraps to `2^32 - 1` at 0). -/
def Remove (ch : CuckooHash V) (key : Key) : Res (CuckooHash V × Bool) :=
  match ch.table[hash1 ch.tableSize key]? with
  | none => Res.fault
  | some n1 =>
    if n1.IsOccupied = true ∧ n1.Key = key then
      Res.ok ({ ch with
        table := ch.table.set (hash1 ch.tableSize key) { n1 with IsOccupied := false }
        elementsCount := if ch.elementsCount = 0 then 2 ^ 32 - 1 else ch.elementsCount - 1 }, true)
    else
      match hash2 ch.tableSize key with
      | Res.fault => Res.fault
      | Res.fuelOut => Res.fuelOut
      | Res.ok h2 =>
        match ch.table[h2]? with
        | none => Res.fault
        | some n2 =>
          if n2.IsOccupied = true ∧ n2.Key = key then
            Res.ok ({ ch with
              table := ch.table.set h2 { n2 with IsOccupied := false }
              elementsCount := if ch.elementsCount = 0 then 2 ^ 32 - 1 else ch.elementsCount - 1 }, true)
          else Res.ok (ch, false)

/-- `Size()`. -/
def Size (ch : CuckooHash V) : Nat := ch.elementsCount

/-- `Empty()`. -/
def Empty (ch : CuckooHash V) : Bool := decide (ch.elementsCount = 0)

/-- `Clear()`. -/
def Clear (ch : CuckooHash V) : CuckooHash V :=
  { ch with table := ch.table.map (fun _ => zeroNode), elementsCount := 0 }

end cuckoo

namespace cuckoo

variable {V : Type} [Inhabited V]

/-- Slot `i` is one of the two homes of key `k` in a table of size `n`. -/
def IsHome (n : Nat) (k : Key) (i : Nat) : Prop :=
  hash1 n k = i ∨ hash2 n k = Res.ok i

/-- The pair `(k, v)` is held by an occupied slot of the table. -/
def Stored (t : CuckooHash V) (k : Key) (v : V) : Prop :=
  ∃ (i : Nat) (nd : HashNode V),
    t.table[i]? = some nd ∧ nd.IsOccupied = true ∧ nd.Key = k ∧ nd.Value = v

/-- The representation invariant of the cuckoo table. -/
structure WF (t : CuckooHash V) : Prop where
  size_pos : 1 ≤ t.tableSize
  size_lt : t.tableSize < 2 ^ 32
  len : t.table.length = (t.tableSize + 1) % 2 ^ 32
  size_two : ∀ (i : Nat) (nd : HashNode V), t.table[i]? = some nd → nd.IsOccupied = true →
    2 ≤ t.tableSize
  homes : ∀ (i : Nat) (nd : HashNode V), t.table[i]? = some nd → nd.IsOccupied = true →
    IsHome t.tableSize nd.Key i
  uniq : ∀ (i j : Nat) (a b : HashNode V), t.table[i]? = some a → t.table[j]? = some b →
    a.IsOccupied = true → b.IsOccupied = true → a.Key = b.Key → i = j
  count : t.elementsCount = t.table.countP (fun nd => nd.IsOccupied)

/-- The pair `(k, v)` is held by an occupied slot other than `pos`. -/
def StoredOff (t : CuckooHash V) (pos : Nat) (k : Key) (v : V) : Prop :=
  ∃ (j : Nat) (nd : HashNode V),
    j ≠ pos ∧ t.table[j]? = some nd ∧ nd.IsOccupied = true ∧ nd.Key = k ∧ nd.Value = v

/-- The pair `(k, v)` is held by an occupied slot of `l` with index below `i`. -/
def StoredBelow (l : List (HashNode V)) (i : Nat) (k : Key) (v : V) : Prop :=
  ∃ (j : Nat) (nd : HashNode V),
    j < i ∧ l[j]? = some nd ∧ nd.IsOccupied = true ∧ nd.Key = k ∧ nd.Value = v

/-- The pair `(k, v)` is either the item in hand `cur` or held by the table. -/
def Holds (t : CuckooHash V) (cur : HashNode V) (k : Key) (v : V) : Prop :=
  (k = cur.Key ∧ v = cur.Value) ∨ Stored t k v

/-- What a returning `Insert(k, v)` establishes, from table `t` to table `t1`. -/
structure InsertPost (t : CuckooHash V) (k : Key) (v : V) (t1 : CuckooHash V) : Prop where
  wf : WF t1
  stored : ∀ (k1 : Key) (v1 : V),
    Stored t1 k1 v1 ↔ (k1 = k ∧ v1 = v) ∨ (k1 ≠ k ∧ Stored t k1 v1)
  count_old : (∃ v0, Stored t k v0) → t1.elementsCount = t.elementsCount
  count_new : (∀ v0, ¬ Stored t k v0) → t1.elementsCount = t.elementsCount + 1

/-- The function `ins` meets the contract of `Insert` on well-formed tables. -/
def InsSpec (ins : CuckooHash V → Key → V → Res (CuckooHash V)) : Prop :=
  ∀ (t : CuckooHash V) (k : Key) (v : V) (t1 : CuckooHash V),
    WF t → ins t k v = Res.ok t1 → InsertPost t k v t1

/-- What the eviction loop establishes, started on table `s` with `cur` in hand. -/
def EvictPost (s : CuckooHash V) (cur : HashNode V) : LoopOut V → Prop
  | LoopOut.placed s1 =>
    WF s1 ∧ s1.tableSize = s.tableSize ∧ s1.elementsCount = s.elementsCount + 1 ∧
      ∀ (k : Key) (v : V), Stored s1 k v ↔ Holds s cur k v
  | LoopOut.exhausted s1 cur1 =>
    WF s1 ∧ s1.tableSize = s.tableSize ∧ s1.elementsCount = s.elementsCount ∧
      cur1.IsOccupied = true ∧ (∀ v, ¬ Stored s1 cur1.Key v) ∧
      ∀ (k : Key) (v : V), Holds s1 cur1 k v ↔ Holds s cur k v

/-- The tables that `NewCuckooHash(n0)` followed by any sequence of returning
`Insert`, `Remove`, `Clear` and `Copy` calls can produce. -/
inductive Reachable (n0 : Nat) : CuckooHash V → Prop where
  | new : Reachable n0 (NewCuckooHash n0)
  | insert (fuel : Nat) (t t1 : CuckooHash V) (k : Key) (v : V) :
      Reachable n0 t → Insert fuel t k v = Res.ok t1 → Reachable n0 t1
  | remove (t t1 : CuckooHash V) (k : Key) (b : Bool) :
      Reachable n0 t → Remove t k = Res.ok (t1, b) → Reachable n0 t1
  | clear (t : CuckooHash V) : Reachable n0 t → Reachable n0 (Clear t)
  | copy (t : CuckooHash V) : Reachable n0 t → Reachable n0 (Copy t)

end cuckoo

namespace cuckoo

variable {V : Type} [Inhabited V]

/-- `Insert` of the pairs of a list, one after another, from left to right. -/
def InsertAll (fuel : Nat) : CuckooHash V → List (Key × V) → Res (CuckooHash V)
  | t, [] => Res.ok t
  | t, kv :: rest =>
    match Insert fuel t kv.1 kv.2 with
    | Res.ok t1 => InsertAll fuel t1 rest
    | Res.fault => Res.fault
    | Res.fuelOut => Res.fuelOut

/-- The table after `NewCuckooHash[int](2)` and `Insert("a", 1)`. -/
def tabA : CuckooHash Nat :=
  { table := [⟨[], 0, false⟩, ⟨[97], 1, true⟩, ⟨[], 0, false⟩]
    tableSize := 2
    elementsCount := 1 }

/-- The table `tabA` after `Insert("b", 2)`: the eviction loop runs out and
the table grows to size 5. -/
def tabAB : CuckooHash Nat :=
  { table := [⟨[], 0, false⟩, ⟨[], 0, false⟩, ⟨[98], 2, true⟩, ⟨[], 0, false⟩,
      ⟨[97], 1, true⟩, ⟨[], 0, false⟩]
    tableSize := 5
    elementsCount := 2 }

end cuckoo

namespace dhash

/-- Numerator over `2^53` of the constant `A = (2.2360679775 - 1.0) / 2.0`,
evaluated exactly and rounded once to binary64: `0x1.3c6ef372fed03p-1`. -/
def A : Nat := 5566755282873603

/-- `HashNode[T]`. -/
structure HashNode (V : Type) where
  Key : Key
  Value : V
  IsOccupied : Bool
  deriving DecidableEq, Repr

/-- `DoubleHash[T]`. -/
structure DoubleHash (V : Type) where
  table : List (HashNode V)
  tableSize : Nat
  elementsCount : Nat
  deriving DecidableEq, Repr

variable {V : Type} [Inhabited V]

/-- The zero value `HashNode[T]{}`. -/
def zeroNode : HashNode V := ⟨[], default, false⟩

/-- `NewDoubleHash(size)`: `none` stands for the error return. -/
def NewDoubleHash (size : Nat) : Option (DoubleHash V) :=
  if size = 0 then none
  else some
    { table := List.replicate ((size + 1) % 2 ^ 32) zeroNode
      tableSize := size
      elementsCount := 0 }

/-- `hash1`. -/
def hash1 (tableSize : Nat) (key : Key) : Nat :=
  goldenHash A tableSize key

/-- `hash2`. -/
def hash2 (tableSize : Nat) (key : Key) : Res Nat :=
  foldHash tableSize key

/-- `needResize`: `true` for `tableSize == 0`, else
`float64(elementsCount) / float64(tableSize) > 0.7`.  Both operands are exact
in binary64, the constant is the binary64 nearest to `7/10`, and the correctly
rounded quotient exceeds it exactly when `10 * elementsCount > 7 * tableSize`
(a quotient above `7/10` exceeds it by at least `1 / (10 * 2^32)`). -/
def needResize (dh : DoubleHash V) : Bool :=
  if dh.tableSize = 0 then true
  else decide (7 * dh.tableSize < 10 * dh.elementsCount)

/-- `index := (h1 + i*h2) % tableSize`, in `uint32`. -/
def probeIndex (h1 h2 i tableSize : Nat) : Nat :=
  ((h1 + (i * h2) % 2 ^ 32) % 2 ^ 32) % tableSize

/-- The probe loop of `Insert`; the first number is the count of iterations
left, the second is `i`.  The flag of the result is `true` when the call
returns the error "Hash table is full". -/
def insertLoop (key : Key) (value : V) (h1 h2 : Nat) :
    Nat → Nat → DoubleHash V → Res (DoubleHash V × Bool)
  | 0, _, dh => Res.ok (dh, true)
  | r + 1, i, dh =>
    match dh.table[probeIndex h1 h2 i dh.tableSize]? with
    | none => Res.fault
    | some nd =>
      if nd.IsOccupied = false then
        Res.ok ({ dh with
          table := dh.table.set (probeIndex h1 h2 i dh.tableSize) ⟨key, value, true⟩
          elementsCount := (dh.elementsCount + 1) % 2 ^ 32 }, false)
      else if nd.Key = key then
        Res.ok ({ dh with
          table := dh.table.set (probeIndex h1 h2 i dh.tableSize)
            { nd with Value := value } }, false)
      else insertLoop key value h1 h2 r (i + 1) dh

/-- The loop of `resize` over `i = 0 .. oldSize-1`, with `ins` standing for
the `Insert` it calls (whose error is discarded); the first number is the
count of iterations left. -/
def rehash (ins : DoubleHash V → Key → V → Res (DoubleHash V × Bool))
    (oldTable : List (HashNode V)) :
    Nat → Nat → DoubleHash V → Res (DoubleHash V)
  | 0, _, dh => Res.ok dh
  | r + 1, i, dh =>
    match oldTable[i]? with
    | none => Res.fault
    | some nd =>
      if nd.IsOccupied then
        match ins dh nd.Key nd.Value with
        | Res.ok (dh1, _) => rehash ins oldTable r (i + 1) dh1
        | Res.fault => Res.fault
        | Res.fuelOut => Res.fuelOut
      else rehash ins oldTable r (i + 1) dh

/-- Body of `resize`, with `ins` standing for the `Insert` it calls. -/
def resizeWith (ins : DoubleHash V → Key → V → Res (DoubleHash V × Bool))
    (dh : DoubleHash V) : Res (DoubleHash V) :=
  let newSize := (dh.tableSize * 2 + 1) % 2 ^ 32
  rehash ins dh.table dh.tableSize 0
    { table := List.replicate ((newSize + 1) % 2 ^ 32) zeroNode
      tableSize := newSize
      elementsCount := 0 }

/-- `Insert(key, value)` with a budget of nested calls; the flag of the result
is `true` when the error "Hash table is full" is returned. -/
def Insert : Nat → DoubleHash V → Key → V → Res (DoubleHash V × Bool)
  | 0, _, _, _ => Res.fuelOut
  | fuel + 1, dh, key, value =>
    match (if needResize dh then resizeWith (Insert fuel) dh else Res.ok dh) with
    | Res.fault => Res.fault
    | Res.fuelOut => Res.fuelOut
    | Res.ok dh1 =>
      match hash2 dh1.tableSize key with
      | Res.fault => Res.fault
      | Res.fuelOut => Res.fuelOut
      | Res.ok h2 =>
        insertLoop key value (hash1 dh1.tableSize key) h2 dh1.tableSize 0 dh1

/-- `resize()` with a budget of nested calls. -/
def resize (fuel : Nat) (dh : DoubleHash V) : Res (DoubleHash V) :=
  resizeWith (Insert fuel) dh

/-- The probe loop of `Find`. -/
def findLoop (key : Key) (h1 h2 : Nat) : Nat → Nat → DoubleHash V → Res (Option V)
  | 0, _, _ => Res.ok none
  | r + 1, i, dh =>
    match dh.table[probeIndex h1 h2 i dh.tableSize]? with
    | none => Res.fault
    | some nd =>
      if nd.IsOccupied = false then Res.ok none
      else if nd.Key = key then Res.ok (some nd.Value)
      else findLoop key h1 h2 r (i + 1) dh

/-- `Find(key)`: the value the returned pointer refers to, `none` for `nil`. -/
def Find (dh : DoubleHash V) (key : Key) : Res (Option V) :=
  if dh.elementsCount = 0 then Res.ok none
  else
    match hash2 dh.tableSize key with
    | Res.fault => Res.fault
    | Res.fuelOut => Res.fuelOut
    | Res.ok h2 => findLoop key (hash1 dh.tableSize key) h2 dh.tableSize 0 dh

/-- The probe loop of `Remove`. -/
def removeLoop (key : Key) (h1 h2 : Nat) :
    Nat → Nat → DoubleHash V → Res (DoubleHash V × Bool)
  | 0, _, dh => Res.ok (dh, false)
  | r + 1, i, dh =>
    match dh.table[probeIndex h1 h2 i dh.tableSize]? with
    | none => Res.fault
    | some nd =>
      if nd.IsOccupied = false then Res.ok (dh, false)
      else if nd.Key = key then
        Res.ok ({ dh with
          table := dh.table.set (probeIndex h1 h2 i dh.tableSize) zeroNode
          elementsCount :=
            if dh.elementsCount = 0 then 2 ^ 32 - 1 else dh.elementsCount - 1 }, true)
      else removeLoop key h1 h2 r (i + 1) dh

/-- `Remove(key)`: the table afterwards and the returned flag. -/
def Remove (dh : DoubleHash V) (key : Key) : Res (DoubleHash V × Bool) :=
  if dh.elementsCount = 0 then Res.ok (dh, false)
  else
    match hash2 dh.tableSize key with
    | Res.fault => Res.fault
    | Res.fuelOut => Res.fuelOut
    | Res.ok h2 => removeLoop key (hash1 dh.tableSize key) h2 dh.tableSize 0 dh

/-- `Size()`. -/
def Size (dh : DoubleHash V) : Nat := dh.elementsCount

/-- `Empty()`. -/
def Empty (dh : DoubleHash V) : Bool := decide (dh.elementsCount = 0)

/-- `Clear()`. -/
def Clear (dh : DoubleHash V) : DoubleHash V :=
  { dh with
    table := List.replicate ((dh.tableSize + 1) % 2 ^ 32) zeroNode
    elementsCount := 0 }

/-- The representation invariant of the double-hashing table used here: the
sizes are consistent and `elementsCount` counts the occupied slots. -/
structure WF (dh : DoubleHash V) : Prop where
  size_pos : 1 ≤ dh.tableSize
  size_lt : dh.tableSize < 2 ^ 32
  len : dh.table.length = (dh.tableSize + 1) % 2 ^ 32
  count : dh.elementsCount = dh.table.countP (fun nd => nd.IsOccupied)

/-- The function `ins` keeps the invariant and adds at most one element. -/
def InsSpec (ins : DoubleHash V → Key → V → Res (DoubleHash V × Bool)) : Prop :=
  ∀ (dh : DoubleHash V) (k : Key) (v : V) (dh1 : DoubleHash V) (e : Bool),
    WF dh → ins dh k v = Res.ok (dh1, e) →
      WF dh1 ∧ dh1.elementsCount ≤ dh.elementsCount + 1 ∧
        (needResize dh = false → dh1.tableSize = dh.tableSize)

/-- The tables that a successful `NewDoubleHash(n0)` followed by any sequence
of returning `Insert`, `Remove` and `Clear` calls can produce. -/
inductive Reachable (n0 : Nat) : DoubleHash V → Prop where
  | new (dh : DoubleHash V) : NewDoubleHash n0 = some dh → Reachable n0 dh
  | insert (fuel : Nat) (dh dh1 : DoubleHash V) (k : Key) (v : V) (e : Bool) :
      Reachable n0 dh → Insert fuel dh k v = Res.ok (dh1, e) → Reachable n0 dh1
  | remove (dh dh1 : DoubleHash V) (k : Key) (b : Bool) :
      Reachable n0 dh → Remove dh k = Res.ok (dh1, b) → Reachable n0 dh1
  | clear (dh : DoubleHash V) : Reachable n0 dh → Reachable n0 (Clear dh)

end dhash

namespace dhash

end dhash

namespace cuckoo

/-- The key `"az0"`. -/
def keyX : Key := [97, 122, 48]

/-- The key `"bZO"`: the same `numKey` and the same byte sum as `"az0"`. -/
def keyY : Key := [98, 90, 79]

/-- The key `"c:n"`: the same `numKey` and the same byte sum as `"az0"`. -/
def keyZ : Key := [99, 58, 110]

/-- The table after `NewCuckooHash[int](2)` and `Insert("az0", 1)`. -/
def tabX : CuckooHash Nat :=
  { table := [⟨keyX, 1, true⟩, ⟨[], 0, false⟩, ⟨[], 0, false⟩]
    tableSize := 2
    elementsCount := 1 }

/-- The table `tabX` after `Insert("bZO", 2)`. -/
def tabXY : CuckooHash Nat :=
  { table := [⟨keyY, 2, true⟩, ⟨keyX, 1, true⟩, ⟨[], 0, false⟩]
    tableSize := 2
    elementsCount := 2 }

end cuckoo

namespace cuckoo

variable {V : Type} [Inhabited V]

/-- Slot `i` of the table is occupied and holds key `k` (the test
`table[i].IsOccupied && table[i].Key == k`; `false` outside the slice). -/
def slotHolds (t : CuckooHash V) (i : Nat) (k : Key) : Bool :=
  match t.table[i]? with
  | some nd => nd.IsOccupied && decide (nd.Key = k)
  | none => false

/-- The table of `TestMagicFindLogic`: `NewCuckooHash[int](120)` with slot 49
overwritten by the key `":"` (`hash1 = 101`, `hash2 = 59`) and value 777. -/
def magicTab : CuckooHash Nat :=
  { table := (List.replicate 121 ⟨[], 0, false⟩).set 49 ⟨[58], 777, true⟩
    tableSize := 120
    elementsCount := 0 }

/-- The table after `NewCuckooHash[int](2)` and the inserts of `"a"`..`"e"`
with the values 1..5. -/
def tabAE : CuckooHash Nat :=
  { table := [⟨[], 0, false⟩, ⟨[], 0, false⟩, ⟨[99], 3, true⟩, ⟨[], 0, false⟩,
      ⟨[101], 5, true⟩, ⟨[], 0, false⟩, ⟨[98], 2, true⟩, ⟨[], 0, false⟩,
      ⟨[100], 4, true⟩, ⟨[], 0, false⟩, ⟨[97], 1, true⟩, ⟨[], 0, false⟩]
    tableSize := 11
    elementsCount := 5 }

/-- The table size that `resize` sets: `tableSize*2 + 1` in `uint32`. -/
def grow (n : Nat) : Nat := (n * 2 + 1) % 2 ^ 32

/-- The function `ins` changes the table size only by repeated `grow`. -/
def SizeSpec (ins : CuckooHash V → Key → V → Res (CuckooHash V)) : Prop :=
  ∀ (t : CuckooHash V) (k : Key) (v : V) (t1 : CuckooHash V),
    ins t k v = Res.ok t1 → ∃ j, t1.tableSize = grow^[j] t.tableSize

end cuckoo

namespace dhash

/-- The table returned by `NewDoubleHash[int](5)`. -/
def tab5 : DoubleHash Nat :=
  { table := [⟨[], 0, false⟩, ⟨[], 0, false⟩, ⟨[], 0, false⟩, ⟨[], 0, false⟩,
      ⟨[], 0, false⟩, ⟨[], 0, false⟩]
    tableSize := 5
    elementsCount := 0 }

/-- The table `tab5` after `Insert("a", 1)` (`hash1 = 4`). -/
def tab5a : DoubleHash Nat :=
  { table := [⟨[], 0, false⟩, ⟨[], 0, false⟩, ⟨[], 0, false⟩, ⟨[], 0, false⟩,
      ⟨[97], 1, true⟩, ⟨[], 0, false⟩]
    tableSize := 5
    elementsCount := 1 }

/-- The table `tab5a` after `Insert("d", 2)` (`hash1 = 4`, `hash2 = 1`): slot 4
is taken, the key lands in slot 0. -/
def tab5ad : DoubleHash Nat :=
  { table := [⟨[100], 2, true⟩, ⟨[], 0, false⟩, ⟨[], 0, false⟩, ⟨[], 0, false⟩,
      ⟨[97], 1, true⟩, ⟨[], 0, false⟩]
    tableSize := 5
    elementsCount := 2 }

/-- The table `tab5ad` after `Remove("a")`. -/
def tab5d : DoubleHash Nat :=
  { table := [⟨[100], 2, true⟩, ⟨[], 0, false⟩, ⟨[], 0, false⟩, ⟨[], 0, false⟩,
      ⟨[], 0, false⟩, ⟨[], 0, false⟩]
    tableSize := 5
    elementsCount := 1 }

/-- The table `tab5d` after `Insert("d", 9)`: a second copy of `"d"`. -/
def tab5dd : DoubleHash Nat :=
  { table := [⟨[100], 2, true⟩, ⟨[], 0, false⟩, ⟨[], 0, false⟩, ⟨[], 0, false⟩,
      ⟨[100], 9, true⟩, ⟨[], 0, false⟩]
    tableSize := 5
    elementsCount := 2 }

/-- The table returned by `NewDoubleHash[int](9)`. -/
def tab9 : DoubleHash Nat :=
  { table := [⟨[], 0, false⟩, ⟨[], 0, false⟩, ⟨[], 0, false⟩, ⟨[], 0, false⟩,
      ⟨[], 0, false⟩, ⟨[], 0, false⟩, ⟨[], 0, false⟩, ⟨[], 0, false⟩, ⟨[], 0, false⟩,
      ⟨[], 0, false⟩]
    tableSize := 9
    elementsCount := 0 }

/-- The table `tab9` after `Insert("D", 1)`, `Insert("C", 2)`, `Insert("J", 3)`
(`hash1` = 0, 3, 6): slots 0, 3 and 6 are occupied, six slots are free. -/
def tab9DCJ : DoubleHash Nat :=
  { table := [⟨[68], 1, true⟩, ⟨[], 0, false⟩, ⟨[], 0, false⟩, ⟨[67], 2, true⟩,
      ⟨[], 0, false⟩, ⟨[], 0, false⟩, ⟨[74], 3, true⟩, ⟨[], 0, false⟩, ⟨[], 0, false⟩,
      ⟨[], 0, false⟩]
    tableSize := 9
    elementsCount := 3 }

/-- `Insert` of the pairs of a list, one after another, dropping the errors. -/
def InsertAll (fuel : Nat) : DoubleHash Nat → List (Key × Nat) → Res (DoubleHash Nat)
  | t, [] => Res.ok t
  | t, kv :: rest =>
    match Insert fuel t kv.1 kv.2 with
    | Res.ok (t1, _) => InsertAll fuel t1 rest
    | Res.fault => Res.fault
    | Res.fuelOut => Res.fuelOut

end dhash

namespace cuckoo

variable {V : Type}

/-- The table that the eviction loop leaves behind. -/
def LoopOut.tab : LoopOut V → CuckooHash V
  | LoopOut.placed ch => ch
  | LoopOut.exhausted ch _ => ch

end cuckoo

namespace dhash

/-- `Insert` of the pairs of a list, one after another; the flag of the result
tells whether one of the calls returned the error "Hash table is full". -/
def InsertSeq (fuel : Nat) : DoubleHash Nat → List (Key × Nat) → Res (DoubleHash Nat × Bool)
  | t, [] => Res.ok (t, false)
  | t, kv :: rest =>
    match Insert fuel t kv.1 kv.2 with
    | Res.ok (t1, e) =>
      match InsertSeq fuel t1 rest with
      | Res.ok (t2, e2) => Res.ok (t2, e || e2)
      | Res.fault => Res.fault
      | Res.fuelOut => Res.fuelOut
    | Res.fault => Res.fault
    | Res.fuelOut => Res.fuelOut

/-- The table returned by `NewDoubleHash[int](7)`. -/
def tab7 : DoubleHash Nat :=
  { table := [⟨[], 0, false⟩, ⟨[], 0, false⟩, ⟨[], 0, false⟩, ⟨[], 0, false⟩,
      ⟨[], 0, false⟩, ⟨[], 0, false⟩, ⟨[], 0, false⟩, ⟨[], 0, false⟩]
    tableSize := 7
    elementsCount := 0 }

/-- The table `tab7` after `Insert("s", 1)`, `Insert("e", 2)`, `Insert("k", 3)`,
`Insert("T", 4)`, `Insert("W", 5)`: no resize so far. -/
def tab7five : DoubleHash Nat :=
  { table := [⟨[115], 1, true⟩, ⟨[84], 4, true⟩, ⟨[101], 2, true⟩, ⟨[], 0, false⟩,
      ⟨[], 0, false⟩, ⟨[87], 5, true⟩, ⟨[107], 3, true⟩, ⟨[], 0, false⟩]
    tableSize := 7
    elementsCount := 5 }

/-- The table `tab7five` after `Insert("w", 6)`: the table grew to size 15 and
the key `"k"` is gone. -/
def tab15 : DoubleHash Nat :=
  { table := [⟨[], 0, false⟩, ⟨[115], 1, true⟩, ⟨[], 0, false⟩, ⟨[], 0, false⟩,
      ⟨[], 0, false⟩, ⟨[], 0, false⟩, ⟨[101], 2, true⟩, ⟨[], 0, false⟩,
      ⟨[119], 6, true⟩, ⟨[], 0, false⟩, ⟨[], 0, false⟩, ⟨[87], 5, true⟩,
      ⟨[], 0, false⟩, ⟨[84], 4, true⟩, ⟨[], 0, false⟩, ⟨[], 0, false⟩]
    tableSize := 15
    elementsCount := 5 }

end dhash

/-! ## The tables as heap objects (for `Copy`) -/

namespace cuckoo

variable {V : Type} [Inhabited V]

/-- The heap of slot arrays: the backing array of every slice that `make`
returned, by address.  All slices of the program span their whole array, so a
slice is given by the address of its array. -/
abbrev Heap (V : Type) := List (List (HashNode V))

/-- The fields of a `CuckooHash[V]` struct; `table` is the address of the
backing array of the slice. -/
structure Obj where
  table : Nat
  tableSize : Nat
  elementsCount : Nat
  deriving DecidableEq, Repr

/-- `make([]HashNode[V], n)`: a new zeroed array at a fresh address. -/
def alloc (h : Heap V) (n : Nat) : Heap V × Nat :=
  (h ++ [List.replicate n zeroNode], h.length)

/-- The read `a[i]` of the array at address `r`; `none` outside the array. -/
def load (h : Heap V) (r i : Nat) : Option (HashNode V) :=
  match h[r]? with
  | some a => a[i]?
  | none => none

/-- The write `a[i] = nd` into the array at address `r`. -/
def store (h : Heap V) (r i : Nat) (nd : HashNode V) : Heap V :=
  match h[r]? with
  | some a => h.set r (a.set i nd)
  | none => h

/-- The table value that the struct `o` denotes in heap `h`. -/
def view (h : Heap V) (o : Obj) : Option (CuckooHash V) :=
  match h[o.table]? with
  | some a => some { table := a, tableSize := o.tableSize, elementsCount := o.elementsCount }
  | none => none

/-- `NewCuckooHash(size)` on the heap. -/
def hNewCuckooHash (h : Heap V) (size : Nat) : Heap V × Obj :=
  let size := if size = 0 then 3 else size
  let m := alloc h ((size + 1) % 2 ^ 32)
  (m.1, { table := m.2, tableSize := size, elementsCount := 0 })

/-- `Copy()` on the heap: the new struct gets its own array, into which
`copy(newCh.table, ch.table)` copies the slots. -/
def hCopy (h : Heap V) (ch : Obj) : Heap V × Obj :=
  let m := hNewCuckooHash h ch.tableSize
  let dst := (m.1[m.2.table]?).getD []
  let src := (m.1[ch.table]?).getD []
  (m.1.set m.2.table (copySlice dst src), { m.2 with elementsCount := ch.elementsCount })

/-- `needResize` on the struct. -/
def hNeedResize (ch : Obj) : Bool :=
  decide (ch.tableSize < 2 * ch.elementsCount)

/-- The loop of `resize` on the heap; `old` is the address of `oldTable`. -/
def hRehash (ins : Heap V → Obj → Key → V → Res (Heap V × Obj)) (old : Nat) :
    Nat → Nat → Heap V → Obj → Res (Heap V × Obj)
  | 0, _, h, ch => Res.ok (h, ch)
  | r + 1, i, h, ch =>
    match load h old i with
    | none => Res.fault
    | some nd =>
      if nd.IsOccupied then
        match ins h ch nd.Key nd.Value with
        | Res.ok (h1, ch1) => hRehash ins old r (i + 1) h1 ch1
        | Res.fault => Res.fault
        | Res.fuelOut => Res.fuelOut
      else hRehash ins old r (i + 1) h ch

/-- Body of `resize` on the heap: `ch.table` is bound to a new array. -/
def hResizeWith (ins : Heap V → Obj → Key → V → Res (Heap V × Obj))
    (h : Heap V) (ch : Obj) : Res (Heap V × Obj) :=
  let newSize := (ch.tableSize * 2 + 1) % 2 ^ 32
  let m := alloc h ((newSize + 1) % 2 ^ 32)
  hRehash ins ch.table ch.tableSize 0 m.1
    { table := m.2, tableSize := newSize, elementsCount := 0 }

/-- The eviction loop of `Insert` on the heap; the last component of the
result is `currentItem` when the iterations ran out. -/
def hEvict : Nat → Heap V → Obj → HashNode V → Nat →
    Res (Heap V × Obj × Option (HashNode V))
  | 0, h, ch, cur, _ => Res.ok (h, ch, some cur)
  | r + 1, h, ch, cur, pos =>
    match load h ch.table pos with
    | none => Res.fault
    | some nd =>
      if nd.IsOccupied = false then
        Res.ok (store h ch.table pos cur,
          { ch with elementsCount := (ch.elementsCount + 1) % 2 ^ 32 }, none)
      else
        match hash2 ch.tableSize nd.Key with
        | Res.ok pos2 =>
          hEvict r (store h ch.table pos cur) ch nd
            (if pos = hash1 ch.tableSize nd.Key then pos2
             else hash1 ch.tableSize nd.Key)
        | Res.fault => Res.fault
        | Res.fuelOut => Res.fuelOut

/-- `Insert(key, value)` on the heap, with a budget of nested calls. -/
def hInsert : Nat → Heap V → Obj → Key → V → Res (Heap V × Obj)
  | 0, _, _, _, _ => Res.fuelOut
  | fuel + 1, h, ch, key, value =>
    match load h ch.table (hash1 ch.tableSize key) with
    | none => Res.fault
    | some n1 =>
      if n1.IsOccupied = true ∧ n1.Key = key then
        Res.ok (store h ch.table (hash1 ch.tableSize key) { n1 with Value := value }, ch)
      else
        match hash2 ch.tableSize key with
        | Res.fault => Res.fault
        | Res.fuelOut => Res.fuelOut
        | Res.ok h2 =>
          match load h ch.table h2 with
          | none => Res.fault
          | some n2 =>
            if n2.IsOccupied = true ∧ n2.Key = key then
              Res.ok (store h ch.table h2 { n2 with Value := value }, ch)
            else
              match (if hNeedResize ch then hResizeWith (hInsert fuel) h ch
                     else Res.ok (h, ch)) with
              | Res.fault => Res.fault
              | Res.fuelOut => Res.fuelOut
              | Res.ok (hp1, ch1) =>
                match hEvict ((ch1.tableSize * 2) % 2 ^ 32) hp1 ch1 ⟨key, value, true⟩
                    (hash1 ch1.tableSize key) with
                | Res.fault => Res.fault
                | Res.fuelOut => Res.fuelOut
                | Res.ok (hp2, ch2, none) => Res.ok (hp2, ch2)
                | Res.ok (hp2, ch2, some cur) =>
                  match hResizeWith (hInsert fuel) hp2 ch2 with
                  | Res.fault => Res.fault
                  | Res.fuelOut => Res.fuelOut
                  | Res.ok (hp3, ch3) => hInsert fuel hp3 ch3 cur.Key cur.Value

/-- `Remove(key)` on the heap. -/
def hRemove (h : Heap V) (ch : Obj) (key : Key) : Res (Heap V × Obj × Bool) :=
  match load h ch.table (hash1 ch.tableSize key) with
  | none => Res.fault
  | some n1 =>
    if n1.IsOccupied = true ∧ n1.Key = key then
      Res.ok (store h ch.table (hash1 ch.tableSize key) { n1 with IsOccupied := false },
        { ch with
          elementsCount := if ch.elementsCount = 0 then 2 ^ 32 - 1 else ch.elementsCount - 1 },
        true)
    else
      match hash2 ch.tableSize key with
      | Res.fault => Res.fault
      | Res.fuelOut => Res.fuelOut
      | Res.ok h2 =>
        match load h ch.table h2 with
        | none => Res.fault
        | some n2 =>
          if n2.IsOccupied = true ∧ n2.Key = key then
            Res.ok (store h ch.table h2 { n2 with IsOccupied := false },
              { ch with
                elementsCount :=
                  if ch.elementsCount = 0 then 2 ^ 32 - 1 else ch.elementsCount - 1 },
              true)
          else Res.ok (h, ch, false)

/-- `Find(key)` on the heap. -/
def hFind (h : Heap V) (ch : Obj) (key : Key) : Res (Option V) :=
  match load h ch.table (hash1 ch.tableSize key) with
  | none => Res.fault
  | some n1 =>
    if n1.IsOccupied = true ∧ n1.Key = key then Res.ok (some n1.Value)
    else
      match hash2 ch.tableSize key with
      | Res.fault => Res.fault
      | Res.fuelOut => Res.fuelOut
      | Res.ok h2 =>
        match load h ch.table h2 with
        | none => Res.fault
        | some n2 =>
          if n2.IsOccupied = true ∧ n2.Key = key then Res.ok (some n2.Value)
          else if hash1 ch.tableSize key = 99 ∨ h2 = 59 then
            match load h ch.table 49 with
            | some n3 =>
              if n3.IsOccupied = true ∧ n3.Key = key then Res.ok (some n3.Value)
              else Res.ok none
            | none => Res.ok none
          else Res.ok none

/-- `Size()` on the struct. -/
def hSize (ch : Obj) : Nat := ch.elementsCount

end cuckoo

namespace cuckoo

variable {V : Type}

/-- What a call on the struct `o` may change in the heap: arrays are only
added, the arrays of other structs are left alone, and `o.table` keeps its
array or is bound to a new one. -/
structure Frame (h : Heap V) (o : Obj) (h1 : Heap V) (o1 : Obj) : Prop where
  len : h.length ≤ h1.length
  keep : ∀ r, r < h.length → r ≠ o.table → h1[r]? = h[r]?
  own : o1.table = o.table ∨ h.length ≤ o1.table

/-- The heap call simulates the call on table values, within the frame. -/
def Sim (h : Heap V) (o : Obj) : Res (Heap V × Obj) → Res (CuckooHash V) → Prop
  | Res.ok (h1, o1), Res.ok t1 => view h1 o1 = some t1 ∧ Frame h o h1 o1
  | Res.fault, Res.fault => True
  | Res.fuelOut, Res.fuelOut => True
  | _, _ => False

/-- The same for the eviction loop. -/
def SimE (h : Heap V) (o : Obj) :
    Res (Heap V × Obj × Option (HashNode V)) → Res (LoopOut V) → Prop
  | Res.ok (h1, o1, none), Res.ok (LoopOut.placed t1) => view h1 o1 = some t1 ∧ Frame h o h1 o1
  | Res.ok (h1, o1, some c), Res.ok (LoopOut.exhausted t1 c1) =>
    c = c1 ∧ view h1 o1 = some t1 ∧ Frame h o h1 o1
  | Res.fault, Res.fault => True
  | Res.fuelOut, Res.fuelOut => True
  | _, _ => False

/-- The heap function `ins` simulates `insp`. -/
def SimIns (ins : Heap V → Obj → Key → V → Res (Heap V × Obj))
    (insp : CuckooHash V → Key → V → Res (CuckooHash V)) : Prop :=
  ∀ (h : Heap V) (o : Obj) (t : CuckooHash V) (k : Key) (v : V),
    view h o = some t → Sim h o (ins h o k v) (insp t k v)

end cuckoo

namespace cuckoo

variable {V : Type} [Inhabited V]

/-- A mutating call on a table: `Insert(key, value)` or `Remove(key)`. -/
inductive Op (V : Type) where
  | ins (k : Key) (v : V) : Op V
  | rem (k : Key) : Op V

/-- The call `op` on the struct `o` in heap `h`. -/
def hApply (fuel : Nat) (h : Heap V) (o : Obj) : Op V → Res (Heap V × Obj)
  | Op.ins k v => hInsert fuel h o k v
  | Op.rem k =>
    match hRemove h o k with
    | Res.ok (h1, o1, _) => Res.ok (h1, o1)
    | Res.fault => Res.fault
    | Res.fuelOut => Res.fuelOut

/-- The call `op` on a table value. -/
def applyOp (fuel : Nat) (t : CuckooHash V) : Op V → Res (CuckooHash V)
  | Op.ins k v => Insert fuel t k v
  | Op.rem k =>
    match Remove t k with
    | Res.ok (t1, _) => Res.ok t1
    | Res.fault => Res.fault
    | Res.fuelOut => Res.fuelOut

/-- A sequence of calls on a table value. -/
def runOps (fuel : Nat) : CuckooHash V → List (Op V) → Res (CuckooHash V)
  | t, [] => Res.ok t
  | t, op :: rest =>
    match applyOp fuel t op with
    | Res.ok t1 => runOps fuel t1 rest
    | Res.fault => Res.fault
    | Res.fuelOut => Res.fuelOut

/-- A sequence of calls on two structs `a` and `b` of one heap, in any
interleaving: the flag `false` sends the call to `a`, `true` sends it to `b`. -/
def hRun (fuel : Nat) : Heap V → Obj → Obj → List (Bool × Op V) → Res (Heap V × Obj × Obj)
  | h, a, b, [] => Res.ok (h, a, b)
  | h, a, b, (false, op) :: rest =>
    match hApply fuel h a op with
    | Res.ok (h1, a1) => hRun fuel h1 a1 b rest
    | Res.fault => Res.fault
    | Res.fuelOut => Res.fuelOut
  | h, a, b, (true, op) :: rest =>
    match hApply fuel h b op with
    | Res.ok (h1, b1) => hRun fuel h1 a b1 rest
    | Res.fault => Res.fault
    | Res.fuelOut => Res.fuelOut

/-- The calls of an interleaving that go to the struct with flag `b`. -/
def opsOf (b : Bool) : List (Bool × Op V) → List (Op V)
  | [] => []
  | (c, op) :: rest => if c = b then op :: opsOf b rest else opsOf b rest

end cuckoo

namespace cuckoo

/-- A heap that holds the slot array of `tabAB` at address 0. -/
def heapAB : Heap Nat := [tabAB.table]

/-- The struct of `tabAB` in `heapAB`. -/
def objAB : Obj := { table := 0, tableSize := 5, elementsCount := 2 }

end cuckoo

/-! ## The binary file format of the cuckoo table -/

/-- The contents of a file, as its sequence of bytes. -/
abbrev Bytes := List (Fin 256)

/-- The low byte of a number. -/
def byte (n : Nat) : Fin 256 := ⟨n % 256, Nat.mod_lt n (by decide)⟩

/-- `binary.Write(file, binary.LittleEndian, x)` for a `uint32`: the four
bytes written. -/
def le32 (n : Nat) : Bytes :=
  [byte n, byte (n / 256), byte (n / 65536), byte (n / 16777216)]

/-- `binary.Read(file, binary.LittleEndian, &x)` for a `uint32`: the value and
the rest of the input; `none` (an error) when fewer than four bytes are left. -/
def readU32 : Bytes → Option (Nat × Bytes)
  | a :: b :: c :: d :: rest =>
    some (a.val + 256 * b.val + 65536 * c.val + 16777216 * d.val, rest)
  | _ => none

namespace cuckoo

variable {V : Type} [Inhabited V]

/-- What a reader sees of a slot: the pair it holds, if it is occupied. -/
def live (nd : HashNode V) : Option (Key × V) :=
  if nd.IsOccupied then some (nd.Key, nd.Value) else none

/-- The loop of `SerializeBin` over `i = 0 .. tableSize-1`: the bytes written;
`enc` is `binary.Write` on a value, which yields a fixed number of bytes.  The
first number is the count of iterations left. -/
def serSlots (enc : V → Bytes) (table : List (HashNode V)) : Nat → Nat → Res Bytes
  | 0, _ => Res.ok []
  | r + 1, i =>
    match table[i]? with
    | none => Res.fault
    | some nd =>
      match serSlots enc table r (i + 1) with
      | Res.ok rest =>
        if nd.IsOccupied then
          Res.ok (byte 1 :: (le32 (nd.Key.length % 2 ^ 32) ++ (nd.Key ++ (enc nd.Value ++ rest))))
        else Res.ok (byte 0 :: rest)
      | Res.fault => Res.fault
      | Res.fuelOut => Res.fuelOut

/-- `SerializeBin(filename)`: the bytes written to the file (creating the file
and writing to it are taken to succeed). -/
def SerializeBin (enc : V → Bytes) (ch : CuckooHash V) : Res Bytes :=
  match serSlots enc ch.table ch.tableSize 0 with
  | Res.ok body => Res.ok (le32 ch.tableSize ++ (le32 ch.elementsCount ++ body))
  | Res.fault => Res.fault
  | Res.fuelOut => Res.fuelOut

/-- The loop of `DeserializeBin` over `i = 0 .. tableSize-1`; `dec` is
`binary.Read` on a value.  The flag of the result is `true` when an error is
returned; the table is the state the receiver is left in. -/
def desSlots (dec : Bytes → Option (V × Bytes)) :
    Nat → Nat → Bytes → CuckooHash V → Res (CuckooHash V × Bool)
  | 0, _, _, ch => Res.ok (ch, false)
  | r + 1, i, inp, ch =>
    match inp with
    | [] => Res.ok (ch, true)
    | b :: inp1 =>
      if b.val ≠ 0 then
        match readU32 inp1 with
        | none => Res.ok (ch, true)
        | some (keyLen, inp2) =>
          if inp2.length < keyLen then Res.ok (ch, true)
          else
            match dec (inp2.drop keyLen) with
            | none => Res.ok (ch, true)
            | some (v, inp3) =>
              if i < ch.table.length then
                desSlots dec r (i + 1) inp3
                  { ch with table := ch.table.set i ⟨inp2.take keyLen, v, true⟩ }
              else Res.fault
      else
        match ch.table[i]? with
        | none => Res.fault
        | some nd =>
          desSlots dec r (i + 1) inp1
            { ch with table := ch.table.set i { nd with IsOccupied := false } }

/-- `DeserializeBin(filename)` on the receiver `ch`, for a file with the
contents `inp` (opening the file is taken to succeed). -/
def DeserializeBin (dec : Bytes → Option (V × Bytes)) (ch : CuckooHash V) (inp : Bytes) :
    Res (CuckooHash V × Bool) :=
  match readU32 inp with
  | none => Res.ok (ch, true)
  | some (newTableSize, inp1) =>
    match readU32 inp1 with
    | none => Res.ok (ch, true)
    | some (newElementsCount, inp2) =>
      desSlots dec newTableSize 0 inp2
        { table := List.replicate ((newTableSize + 1) % 2 ^ 32) zeroNode
          tableSize := newTableSize
          elementsCount := newElementsCount }

end cuckoo

/-! ## The text file format -/

/-- Outcome of one `fmt.Fscan(file, &idx, &key, &value)`: `err == io.EOF`,
another error, or the three values read and the rest of the input. -/
inductive ScanOut (V : Type) where
  | eof : ScanOut V
  | err : ScanOut V
  | item (idx : Nat) (key : Key) (value : V) (rest : Bytes) : ScanOut V
  deriving DecidableEq, Repr

/-- What `fmt.Fscan` does on the contents of the file: `header` is
`Fscan(file, &newTableSize, &newElementsCount)` (`none` for an error),
`record` is `Fscan(file, &idx, &key, &value)`. -/
structure Scanner (V : Type) where
  header : Bytes → Option (Nat × Nat × Bytes)
  record : Bytes → ScanOut V

/-- The bytes that `fmt` treats as space among the ASCII characters: space,
`\t`, `\n`, `\v`, `\f`, `\r`. -/
def isSpace (b : Fin 256) : Bool := decide (b.val = 32 ∨ (9 ≤ b.val ∧ b.val ≤ 13))

/-- A decimal digit. -/
def isDigit (b : Fin 256) : Bool := decide (48 ≤ b.val ∧ b.val ≤ 57)

/-- `SkipSpace`: newlines count as space for `Fscan`. -/
def skipSpace : Bytes → Bytes
  | [] => []
  | b :: rest => if isSpace b then skipSpace rest else b :: rest

/-- The run of decimal digits at the head of the input: its value on top of
`acc`, and the rest. -/
def scanNum (acc : Nat) : Bytes → Nat × Bytes
  | [] => (acc, [])
  | b :: rest => if isDigit b then scanNum (acc * 10 + (b.val - 48)) rest else (acc, b :: rest)

/-- Scanning a `uint32` operand with the verb `%v`, for a decimal numeral:
space is skipped, at least one digit is required, a value of `2^32` or more is
an error.  (`fmt` also accepts a base prefix and underscores and reads a
numeral with a leading zero as octal; such input does not occur in the
statements below.) -/
def scanU32 (inp : Bytes) : Option (Nat × Bytes) :=
  match skipSpace inp with
  | [] => none
  | b :: rest =>
    if isDigit b then
      if (scanNum 0 (b :: rest)).1 < 2 ^ 32 then some (scanNum 0 (b :: rest)) else none
    else none

/-- The run of bytes other than space at the head of the input, and the rest. -/
def scanWord : Bytes → Bytes × Bytes
  | [] => ([], [])
  | b :: rest =>
    if isSpace b then ([], b :: rest)
    else ((b :: (scanWord rest).1), (scanWord rest).2)

/-- Scanning a `string` operand with the verb `%v`, on ASCII input: space is
skipped, the token runs up to the next space; the end of the input is an
error. -/
def scanToken (inp : Bytes) : Option (Key × Bytes) :=
  match skipSpace inp with
  | [] => none
  | b :: rest => some (scanWord (b :: rest))

/-- `Fscan(file, &newTableSize, &newElementsCount)` on ASCII input. -/
def scanHeader (inp : Bytes) : Option (Nat × Nat × Bytes) :=
  match scanU32 inp with
  | none => none
  | some (ts, r1) =>
    match scanU32 r1 with
    | none => none
    | some (ec, r2) => some (ts, ec, r2)

/-- `Fscan(file, &idx, &key, &value)` on ASCII input; `scanV` scans the value
(skipping space first).  When only space is left before the first operand the
error is `io.EOF`.  An input that ends inside a record is reported as an error
here; no statement below depends on that case. -/
def scanRecord {V : Type} (scanV : Bytes → Option (V × Bytes)) (inp : Bytes) : ScanOut V :=
  match skipSpace inp with
  | [] => ScanOut.eof
  | b :: rest =>
    match scanU32 (b :: rest) with
    | none => ScanOut.err
    | some (idx, r1) =>
      match scanToken r1 with
      | none => ScanOut.err
      | some (key, r2) =>
        match scanV r2 with
        | none => ScanOut.err
        | some (v, r3) => ScanOut.item idx key v r3

/-- The scanner for ASCII input with the value scanner `scanV`. -/
def asciiScanner {V : Type} (scanV : Bytes → Option (V × Bytes)) : Scanner V :=
  { header := scanHeader, record := scanRecord scanV }

namespace cuckoo

variable {V : Type} [Inhabited V]

/-- The loop of `DeserializeText`; the first number bounds the count of
iterations.  The flag of the result is `true` when an error is returned. -/
def textLoop (sc : Scanner V) : Nat → Bytes → CuckooHash V → Res (CuckooHash V × Bool)
  | 0, _, _ => Res.fuelOut
  | f + 1, inp, ch =>
    match sc.record inp with
    | ScanOut.eof => Res.ok (ch, false)
    | ScanOut.err => Res.ok (ch, true)
    | ScanOut.item idx key value rest =>
      if idx < ch.tableSize then
        if idx < ch.table.length then
          textLoop sc f rest { ch with table := ch.table.set idx ⟨key, value, true⟩ }
        else Res.fault
      else Res.ok (ch, true)

/-- `DeserializeText(filename)` on the receiver `ch`, for a file with the
contents `inp` (opening the file is taken to succeed).  Every successful
`Fscan` of a record consumes input, so one iteration per byte and one more
are enough. -/
def DeserializeText (sc : Scanner V) (ch : CuckooHash V) (inp : Bytes) :
    Res (CuckooHash V × Bool) :=
  match sc.header inp with
  | none => Res.ok (ch, true)
  | some (newTableSize, newElementsCount, rest) =>
    textLoop sc (rest.length + 1) rest
      { table := List.replicate ((newTableSize + 1) % 2 ^ 32) zeroNode
        tableSize := newTableSize
        elementsCount := newElementsCount }

end cuckoo

namespace dhash

variable {V : Type} [Inhabited V]

/-- The loop of `DeserializeText`; the first number bounds the count of
iterations.  The flag of the result is `true` when an error is returned. -/
def textLoop (sc : Scanner V) : Nat → Bytes → DoubleHash V → Res (DoubleHash V × Bool)
  | 0, _, _ => Res.fuelOut
  | f + 1, inp, dh =>
    match sc.record inp with
    | ScanOut.eof => Res.ok (dh, false)
    | ScanOut.err => Res.ok (dh, true)
    | ScanOut.item idx key value rest =>
      if dh.tableSize ≤ idx then Res.ok (dh, true)
      else if idx < dh.table.length then
        textLoop sc f rest { dh with table := dh.table.set idx ⟨key, value, true⟩ }
      else Res.fault

/-- `DeserializeText(filename)` on the receiver `dh`, for a file with the
contents `inp`. -/
def DeserializeText (sc : Scanner V) (dh : DoubleHash V) (inp : Bytes) :
    Res (DoubleHash V × Bool) :=
  match sc.header inp with
  | none => Res.ok (dh, true)
  | some (newTableSize, newElementsCount, rest) =>
    if newTableSize = 0 then Res.ok (dh, true)
    else
      textLoop sc (rest.length + 1) rest
        { table := List.replicate ((newTableSize + 1) % 2 ^ 32) zeroNode
          tableSize := newTableSize
          elementsCount := newElementsCount }

end dhash

namespace cuckoo

/-- The text `"4294967295 0\n0 a 1\n4294967295 b 2\n"`: the header gives the
largest `uint32` as table size, the first record has index 0, the second has
an index that is not below the table size. -/
def textWrap : Bytes :=
  [52, 50, 57, 52, 57, 54, 55, 50, 57, 53, 32, 48, 10, 48, 32, 97, 32, 49, 10,
   52, 50, 57, 52, 57, 54, 55, 50, 57, 53, 32, 98, 32, 50, 10]

end cuckoo

/-- The scan of the records of `inp` meets, after `n` well-formed records, a
well-formed record whose index is not below `ts`. -/
def BadWithin {V : Type} (sc : Scanner V) (ts : Nat) : Nat → Bytes → Prop
  | 0, inp => ∃ idx key v rest, sc.record inp = ScanOut.item idx key v rest ∧ ts ≤ idx
  | n + 1, inp => ∃ idx key v rest, sc.record inp = ScanOut.item idx key v rest ∧
      BadWithin sc ts n rest

namespace cuckoo

variable {V : Type} [Inhabited V]

/-- The key `"magic_36"`: the first key `magic_<i>` with `hash1 == 99` in a
table of size 120, the one `TestMagicFindLogic` finds. -/
def keyMagic : Key := [109, 97, 103, 105, 99, 95, 51, 54]

/-- The table of `TestMagicFindLogic`: `NewCuckooHash[int](120)` with slot 49
overwritten by the key `"magic_36"` and value 777. -/
def magicTab99 : CuckooHash Nat :=
  { table := (List.replicate 121 ⟨[], 0, false⟩).set 49 ⟨keyMagic, 777, true⟩
    tableSize := 120
    elementsCount := 0 }

/-- The slot that the occupant evicted from `pos` is sent to:
`pos1 := hash1(currentItem.Key); pos2 := hash2(currentItem.Key);
 if currentPos == pos1 { currentPos = pos2 } else { currentPos = pos1 }`. -/
def retarget (tableSize : Nat) (key : Key) (pos : Nat) : Res Nat :=
  match hash2 tableSize key with
  | Res.ok pos2 => Res.ok (if pos = hash1 tableSize key then pos2 else hash1 tableSize key)
  | Res.fault => Res.fault
  | Res.fuelOut => Res.fuelOut

/-- The plain two-slot lookup of the specification: slot `hash1(key)` first,
then slot `hash2(key)`, otherwise not found. -/
def FindTwoSlot (ch : CuckooHash V) (key : Key) : Res (Option V) :=
  match ch.table[hash1 ch.tableSize key]? with
  | none => Res.fault
  | some n1 =>
    if n1.IsOccupied = true ∧ n1.Key = key then Res.ok (some n1.Value)
    else
      match hash2 ch.tableSize key with
      | Res.fault => Res.fault
      | Res.fuelOut => Res.fuelOut
      | Res.ok h2 =>
        match ch.table[h2]? with
        | none => Res.fault
        | some n2 =>
          if n2.IsOccupied = true ∧ n2.Key = key then Res.ok (some n2.Value)
          else Res.ok none

/-- The table after `NewCuckooHash[int](4)`, `Insert("8", 1)`,
`Insert("L", 2)`: `"8"` has the homes 2 and 3, `"L"` has the home 3 twice. -/
def tab8L : CuckooHash Nat :=
  { table := [⟨[], 0, false⟩, ⟨[], 0, false⟩, ⟨[56], 1, true⟩, ⟨[76], 2, true⟩,
      ⟨[], 0, false⟩]
    tableSize := 4
    elementsCount := 2 }

/-- The table `tab8L` when the eviction loop of `Insert("M", 3)` has used its
eight iterations: `"M"` and `"8"` are stored, `"L"` is in hand. -/
def tabM8 : CuckooHash Nat :=
  { table := [⟨[], 0, false⟩, ⟨[], 0, false⟩, ⟨[77], 3, true⟩, ⟨[56], 1, true⟩,
      ⟨[], 0, false⟩]
    tableSize := 4
    elementsCount := 2 }

/-- The table `tabM8` after `resize()`. -/
def tabM8r : CuckooHash Nat :=
  { table := [⟨[], 0, false⟩, ⟨[], 0, false⟩, ⟨[], 0, false⟩, ⟨[], 0, false⟩,
      ⟨[], 0, false⟩, ⟨[56], 1, true⟩, ⟨[77], 3, true⟩, ⟨[], 0, false⟩, ⟨[], 0, false⟩,
      ⟨[], 0, false⟩]
    tableSize := 9
    elementsCount := 2 }

/-- The table `tab8L` after `Insert("M", 3)`. -/
def tabM8L : CuckooHash Nat :=
  { table := [⟨[], 0, false⟩, ⟨[], 0, false⟩, ⟨[], 0, false⟩, ⟨[], 0, false⟩,
      ⟨[], 0, false⟩, ⟨[56], 1, true⟩, ⟨[77], 3, true⟩, ⟨[], 0, false⟩, ⟨[76], 2, true⟩,
      ⟨[], 0, false⟩]
    tableSize := 9
    elementsCount := 3 }

end cuckoo

/-- Two results of the same kind (both returned, both panicked, both out of
budget) whose returned values are related by `R`. -/
def ResRel {α : Type} (R : α → α → Prop) : Res α → Res α → Prop
  | Res.ok a, Res.ok b => R a b
  | Res.fault, Res.fault => True
  | Res.fuelOut, Res.fuelOut => True
  | _, _ => False

namespace cuckoo

variable {V : Type} [Inhabited V]

/-- Two slot lists have the same number of slots, the same `IsOccupied` flag
in every slot and the same key and value in every occupied slot. -/
def SlotsAgree (l1 l2 : List (HashNode V)) : Prop :=
  ∀ (i : Nat), (l1[i]?).map live = (l2[i]?).map live

/-- Two tables agree on `tableSize`, on `elementsCount`, on the `IsOccupied`
flag of every slot and on the key and value of every occupied slot; they may
differ in the key and value left in unoccupied slots. -/
def Agree (t1 t2 : CuckooHash V) : Prop :=
  t1.tableSize = t2.tableSize ∧ t1.elementsCount = t2.elementsCount ∧
    SlotsAgree t1.table t2.table

/-- Two ends of the eviction loop of the same kind, with agreeing tables and
the same item in hand. -/
def LoopAgree : LoopOut V → LoopOut V → Prop
  | LoopOut.placed a, LoopOut.placed b => Agree a b
  | LoopOut.exhausted a c, LoopOut.exhausted b d => Agree a b ∧ c = d
  | _, _ => False

/-- The function `ins` maps agreeing tables to agreeing tables. -/
def InsAgree (ins : CuckooHash V → Key → V → Res (CuckooHash V)) : Prop :=
  ∀ (t1 t2 : CuckooHash V) (k : Key) (v : V), Agree t1 t2 →
    ResRel Agree (ins t1 k v) (ins t2 k v)

/-- The table `tabAB` after `Remove("b")`: slot 2 is free and still holds
the key `"b"` and the value 2. -/
def tabABrem : CuckooHash Nat :=
  { table := [⟨[], 0, false⟩, ⟨[], 0, false⟩, ⟨[98], 2, false⟩, ⟨[], 0, false⟩,
      ⟨[97], 1, true⟩, ⟨[], 0, false⟩]
    tableSize := 5
    elementsCount := 1 }

/-- The table `tabABrem` with the content left in the free slot 2 cleared. -/
def tabABfresh : CuckooHash Nat :=
  { table := [⟨[], 0, false⟩, ⟨[], 0, false⟩, ⟨[], 0, false⟩, ⟨[], 0, false⟩,
      ⟨[97], 1, true⟩, ⟨[], 0, false⟩]
    tableSize := 5
    elementsCount := 1 }

end cuckoo

/-- The value of Go's `int` (64 bits, two's complement) that an arithmetic
result wraps to. -/
def wrap64 (x : Int) : Int :=
  (x + 9223372036854775808) % 18446744073709551616 - 9223372036854775808

namespace queue

variable {T : Type} [Inhabited T]

/-- Go's `a % b` on `int`: the remainder of truncated division; a zero
divisor panics. -/
def goMod (a b : Int) : Res Int :=
  if b = 0 then Res.fault else Res.ok (Int.tmod a b)

/-- The slice read `s[i]`; an index outside `0 .. len(s)-1` panics. -/
def getI (s : List T) (i : Int) : Res T :=
  if 0 ≤ i then
    match s[i.toNat]? with
    | some x => Res.ok x
    | none => Res.fault
  else Res.fault

/-- The slice write `s[i] = v`; an index outside `0 .. len(s)-1` panics. -/
def setI (s : List T) (i : Int) (v : T) : Res (List T) :=
  if 0 ≤ i ∧ i.toNat < s.length then Res.ok (s.set i.toNat v) else Res.fault

/-- `make([]T, n)`: `n` zero values; a negative length panics. -/
def makeSlice (n : Int) : Res (List T) :=
  if 0 ≤ n then Res.ok (List.replicate n.toNat default) else Res.fault

/-- `Queue[T]`. -/
structure Queue (T : Type) where
  data : List T
  head : Int
  tail : Int
  count : Int
  capacity : Int
  deriving DecidableEq, Repr

/-- `NewQueue(initialCap)`. -/
def NewQueue (initialCap : Int) : Queue T :=
  let initialCap := if initialCap < 1 then 1 else initialCap
  { data := List.replicate initialCap.toNat default
    capacity := initialCap
    head := 0
    tail := 0
    count := 0 }

/-- The loop of `resize`: `newData[i] = q.data[(q.head+i)%q.capacity]` while
`i < q.count`; the first number is the count of iterations left. -/
def copyRing (q : Queue T) : Nat → Int → List T → Res (List T)
  | 0, _, newData => Res.ok newData
  | r + 1, i, newData =>
    match goMod (wrap64 (q.head + i)) q.capacity with
    | Res.ok j =>
      match getI q.data j with
      | Res.ok x =>
        match setI newData i x with
        | Res.ok newData1 => copyRing q r (wrap64 (i + 1)) newData1
        | Res.fault => Res.fault
        | Res.fuelOut => Res.fuelOut
      | Res.fault => Res.fault
      | Res.fuelOut => Res.fuelOut
    | Res.fault => Res.fault
    | Res.fuelOut => Res.fuelOut

/-- `resize()`. -/
def resize (q : Queue T) : Res (Queue T) :=
  let newCapacity := wrap64 (q.capacity * 2)
  let newCapacity := if newCapacity = 0 then 1 else newCapacity
  match makeSlice newCapacity with
  | Res.ok newData =>
    match copyRing q q.count.toNat 0 newData with
    | Res.ok newData1 =>
      Res.ok { data := newData1, capacity := newCapacity, head := 0, tail := q.count,
               count := q.count }
    | Res.fault => Res.fault
    | Res.fuelOut => Res.fuelOut
  | Res.fault => Res.fault
  | Res.fuelOut => Res.fuelOut

/-- `Push(value)`. -/
def Push (q : Queue T) (value : T) : Res (Queue T) :=
  match (if q.count ≥ q.capacity then resize q else Res.ok q) with
  | Res.ok q1 =>
    match setI q1.data q1.tail value with
    | Res.ok data1 =>
      match goMod (wrap64 (q1.tail + 1)) q1.capacity with
      | Res.ok tail1 =>
        Res.ok { q1 with data := data1, tail := tail1, count := wrap64 (q1.count + 1) }
      | Res.fault => Res.fault
      | Res.fuelOut => Res.fuelOut
    | Res.fault => Res.fault
    | Res.fuelOut => Res.fuelOut
  | Res.fault => Res.fault
  | Res.fuelOut => Res.fuelOut

/-- `Pop()`: the queue afterwards and the returned value, `none` for
`ErrQueueEmpty`. -/
def Pop (q : Queue T) : Res (Queue T × Option T) :=
  if q.count = 0 then Res.ok (q, none)
  else
    match getI q.data q.head with
    | Res.ok value =>
      match setI q.data q.head default with
      | Res.ok data1 =>
        match goMod (wrap64 (q.head + 1)) q.capacity with
        | Res.ok head1 =>
          Res.ok ({ q with data := data1, head := head1, count := wrap64 (q.count - 1) },
            some value)
        | Res.fault => Res.fault
        | Res.fuelOut => Res.fuelOut
      | Res.fault => Res.fault
      | Res.fuelOut => Res.fuelOut
    | Res.fault => Res.fault
    | Res.fuelOut => Res.fuelOut

/-- The logical contents of the queue: `data[(head+i) mod capacity]` for
`i < count`, oldest first (`none` where there is no such slot). -/
def contents (q : Queue T) : List (Option T) :=
  (List.range q.count.toNat).map
    (fun (i : Nat) => q.data[((q.head + (i : Int)) % q.capacity).toNat]?)

/-- The ring invariant of the queue. -/
structure Inv (q : Queue T) : Prop where
  cap_len : q.capacity = q.data.length
  cap_pos : 1 ≤ q.capacity
  cap_int : q.capacity < 9223372036854775808
  head_lo : 0 ≤ q.head
  head_hi : q.head < q.capacity
  tail_lo : 0 ≤ q.tail
  tail_hi : q.tail < q.capacity
  count_lo : 0 ≤ q.count
  count_hi : q.count ≤ q.capacity
  tail_eq : q.tail = (q.head + q.count) % q.capacity

/-- The queues that `NewQueue(c)` followed by any sequence of returning
`Push` and `Pop` calls can produce, each with the list of the values pushed
so far and the number of values popped so far. -/
inductive Built (c : Int) : Queue T → List T → Nat → Prop where
  | new : Built c (NewQueue c) [] 0
  | push (q q1 : Queue T) (ps : List T) (n : Nat) (v : T) :
      Built c q ps n → Push q v = Res.ok q1 → Built c q1 (ps ++ [v]) n
  | pop (q q1 : Queue T) (ps : List T) (n : Nat) (x : T) :
      Built c q ps n → Pop q = Res.ok (q1, some x) → Built c q1 ps (n + 1)
  | popEmpty (q q1 : Queue T) (ps : List T) (n : Nat) :
      Built c q ps n → Pop q = Res.ok (q1, none) → Built c q1 ps n

/-- The queue of `TestResizeLogic` after `NewQueue[int](2)`, `Push(10)`,
`Pop()`, `Push(20)`, `Push(30)`: full, with `head = 1` and the contents
wrapped around the ring. -/
def qWrapped : Queue Int :=
  { data := [30, 20], head := 1, tail := 1, count := 2, capacity := 2 }

/-- The queue `qWrapped` after `Push(40)`. -/
def qGrown : Queue Int :=
  { data := [20, 30, 40, 0], head := 0, tail := 3, count := 3, capacity := 4 }

end queue

namespace queue

variable {T : Type} [Inhabited T]

/-- The queue `q` satisfies the ring invariant and holds exactly the values
of `xs`, oldest first, at `data[(head+i) mod capacity]`. -/
structure Rep (q : Queue T) (xs : List T) : Prop where
  inv : Inv q
  len : q.count = xs.length
  slot : ∀ (i : Nat) (x : T), xs[i]? = some x →
    q.data[((q.head + i) % q.capacity).toNat]? = some x

end queue

namespace array

variable {T : Type} [Inhabited T]

/-- A Go slice `[]T` that starts at the first element of its backing array:
`arr` is the backing array (`cap` is its length) and `len` the length of the
slice. -/
structure Slice (T : Type) where
  arr : List T
  len : Nat
  deriving DecidableEq, Repr

/-- The elements of a slice. -/
def Slice.elems (s : Slice T) : List T := s.arr.take s.len

/-- The slice expression `s[:hi]`: it panics unless `0 <= hi <= cap(s)`. -/
def sliceTo (s : Slice T) (hi : Int) : Res (Slice T) :=
  if 0 ≤ hi ∧ hi.toNat ≤ s.arr.length then Res.ok { arr := s.arr, len := hi.toNat }
  else Res.fault

/-- The elements of the slice expression `s[lo:]`: it panics unless
`0 <= lo <= len(s)`. -/
def sliceFrom (s : Slice T) (lo : Int) : Res (List T) :=
  if 0 ≤ lo ∧ lo.toNat ≤ s.len then Res.ok (s.elems.drop lo.toNat) else Res.fault

/-- `append(s, ys...)`, where `ys` are the elements of the second operand,
read before anything is written (the copy is a `memmove`).  When the
capacity suffices the elements are written into the backing array of `s`;
otherwise a new backing array is allocated, of the capacity `newCap` that
the runtime picks, at least the length needed. -/
def appendSlice (newCap : Nat) (s : Slice T) (ys : List T) : Slice T :=
  if s.len + ys.length ≤ s.arr.length then
    { arr := s.arr.take s.len ++ ys ++ s.arr.drop (s.len + ys.length)
      len := s.len + ys.length }
  else
    { arr := s.arr.take s.len ++ ys ++
        List.replicate (newCap - (s.len + ys.length)) default
      len := s.len + ys.length }

/-- The write `s[i] = v`; an index outside `0 .. len(s)-1` panics. -/
def setIdx (s : Slice T) (i : Int) (v : T) : Res (Slice T) :=
  if 0 ≤ i ∧ i.toNat < s.len then Res.ok { s with arr := s.arr.set i.toNat v }
  else Res.fault

/-- `Array[T]`. -/
structure Array (T : Type) where
  data : Slice T
  deriving DecidableEq, Repr

/-- `PushBack(value)`. -/
def PushBack (newCap : Nat) (a : Array T) (value : T) : Array T :=
  { data := appendSlice newCap a.data [value] }

/-- `InsertByInd(index, value)`: the array afterwards and whether an error
was returned. -/
def InsertByInd (newCap : Nat) (a : Array T) (index : Int) (value : T) :
    Res (Array T × Bool) :=
  if index < 0 ∨ index > (a.data.len : Int) then Res.ok (a, true)
  else if index = (a.data.len : Int) then Res.ok (PushBack newCap a value, false)
  else
    match sliceTo a.data (wrap64 (index + 1)) with
    | Res.ok s1 =>
      match sliceFrom a.data index with
      | Res.ok ys =>
        match setIdx (appendSlice newCap s1 ys) index value with
        | Res.ok d => Res.ok ({ data := d }, false)
        | Res.fault => Res.fault
        | Res.fuelOut => Res.fuelOut
      | Res.fault => Res.fault
      | Res.fuelOut => Res.fuelOut
    | Res.fault => Res.fault
    | Res.fuelOut => Res.fuelOut

/-- The array `[10, 20]` of `TestInsertDeleteSwap`, with capacity 2. -/
def arr1020 : Array Int := { data := { arr := [10, 20], len := 2 } }

/-- The array `[5, 10, 20]` with capacity 4 and a stale last element. -/
def arrRoom : Array Int := { data := { arr := [5, 10, 20, 7], len := 3 } }

end array

namespace binarytree

variable {T : Type}

/-- The tree a `*TreeNode[T]` points to: `nil`, or a node with its key and
its `Left` and `Right` subtrees. -/
inductive Tree (T : Type) where
  | nil : Tree T
  | node (left : Tree T) (key : T) (right : Tree T) : Tree T
  deriving DecidableEq, Repr

/-- `Insert(value)`, with `lt` standing for the `<` of the key type: the loop
walks down from the root, to the left when `value < current.Key` and to the
right otherwise, and hangs the new node where it meets `nil`. -/
def Insert (lt : T → T → Bool) : Tree T → T → Tree T
  | Tree.nil, value => Tree.node Tree.nil value Tree.nil
  | Tree.node l k r, value =>
    if lt value k then Tree.node (Insert lt l value) k r
    else Tree.node l k (Insert lt r value)

/-- The keys in the order `inOrderRecursive` prints them. -/
def inOrder : Tree T → List T
  | Tree.nil => []
  | Tree.node l k r => inOrder l ++ k :: inOrder r

/-- The tree after `Insert` of the values of a list, one after another, into
an empty tree. -/
def fromList (lt : T → T → Bool) (vs : List T) : Tree T :=
  vs.foldl (Insert lt) Tree.nil

/-- Every key in a left subtree is strictly smaller than its ancestor and
every key in a right subtree is greater than or equal to it, with `lt` and
`le` standing for the `<` and `<=` of the key type. -/
def searchOrdered (lt le : T → T → Bool) : Tree T → Bool
  | Tree.nil => true
  | Tree.node l k r =>
    searchOrdered lt le l && searchOrdered lt le r &&
      (inOrder l).all (fun x => lt x k) && (inOrder r).all (fun x => le k x)

/-- The list is non-decreasing: each element is `<=` the next one. -/
def nonDecreasing (le : T → T → Bool) : List T → Bool
  | a :: b :: rest => le a b && nonDecreasing le (b :: rest)
  | _ => true

/-- Some values of `float64`: NaN and the integers. -/
inductive F64 where
  | nan : F64
  | num (n : Int) : F64
  deriving DecidableEq, Repr

/-- The `<` of `float64`: false when an operand is NaN. -/
def F64.lt : F64 → F64 → Bool
  | F64.num a, F64.num b => decide (a < b)
  | _, _ => false

/-- The `<=` of `float64`: false when an operand is NaN. -/
def F64.le : F64 → F64 → Bool
  | F64.num a, F64.num b => decide (a ≤ b)
  | _, _ => false

/-- `serializeRecursive(node, w)`: the bytes written, `none` when a write
returns an error; `enc` is `binary.Write` on a key. -/
def serializeRecursive (enc : T → Option Bytes) : Tree T → Option Bytes
  | Tree.nil => some [0]
  | Tree.node l k r =>
    match enc k with
    | none => none
    | some kb =>
      match serializeRecursive enc l with
      | none => none
      | some lb =>
        match serializeRecursive enc r with
        | none => none
        | some rb => some ((1 : Fin 256) :: kb ++ lb ++ rb)

/-- `deserializeRecursive(&node, r)` on a `nil` pointer, with a budget of
nested calls: the tree stored and the input left, `none` when an error is
returned; `dec` is `binary.Read` on a key.  At the end of the input the
marker read returns `io.EOF` and the call returns `nil` with the pointer
untouched. -/
def deserializeRecursive (dec : Bytes → Option (T × Bytes)) :
    Nat → Bytes → Res (Option (Tree T × Bytes))
  | 0, _ => Res.fuelOut
  | _ + 1, [] => Res.ok (some (Tree.nil, []))
  | fuel + 1, marker :: inp =>
    if marker ≠ 0 ∧ marker ≠ 1 then Res.ok none
    else if marker = 1 then
      match dec inp with
      | none => Res.ok none
      | some (val, inp1) =>
        match deserializeRecursive dec fuel inp1 with
        | Res.ok (some (l, inp2)) =>
          match deserializeRecursive dec fuel inp2 with
          | Res.ok (some (r, inp3)) => Res.ok (some (Tree.node l val r, inp3))
          | Res.ok none => Res.ok none
          | Res.fault => Res.fault
          | Res.fuelOut => Res.fuelOut
        | Res.ok none => Res.ok none
        | Res.fault => Res.fault
        | Res.fuelOut => Res.fuelOut
    else Res.ok (some (Tree.nil, inp))

/-- `binary.Write` of an `int32` key: its four bytes, little-endian
(two's complement). -/
def encI32 (k : Int) : Option Bytes := some (le32 (k % 4294967296).toNat)

/-- `binary.Read` of an `int32` key. -/
def decI32 (inp : Bytes) : Option (Int × Bytes) :=
  match readU32 inp with
  | some (n, rest) => some (if n < 2147483648 then (n : Int) else (n : Int) - 4294967296, rest)
  | none => none

/-- The tree of `TestFileIO_Binary_Success`: `Insert` of 10, 5, 15. -/
def tree10 : Tree Int :=
  Tree.node (Tree.node Tree.nil 5 Tree.nil) 10 (Tree.node Tree.nil 15 Tree.nil)

end binarytree
/-! ## Ranges of the hash functions -/

theorem expoAux_succ (f q e : Nat) (h : expoAux f q = e + 1) : 2 ^ 53 * 2 ^ e ≤ q := by
  induction f generalizing q e with
  | zero => simp [expoAux] at h
  | succ f ih =>
    unfold expoAux at h
    split at h
    · omega
    · rename_i hq
      have h1 : expoAux f (q / 2) = e := by omega
      cases e with
      | zero => simpa using Nat.le_of_not_lt hq
      | succ e =>
        have := ih (q / 2) e h1
        have h2 : 2 ^ 53 * 2 ^ (e + 1) = 2 * (2 ^ 53 * 2 ^ e) := by ring
        omega

theorem round53_le (q : Nat) : 2 * round53 q ≤ 2 * q + 2 ^ expo q := by
  unfold round53
  have hq := Nat.div_add_mod q (2 ^ expo q)
  have hc : (q / 2 ^ expo q + 1) * 2 ^ expo q = 2 ^ expo q * (q / 2 ^ expo q) + 2 ^ expo q := by
    ring
  have hm : q / 2 ^ expo q * 2 ^ expo q = 2 ^ expo q * (q / 2 ^ expo q) := by ring
  simp only []
  split
  · omega
  · split
    · omega
    · omega

theorem round53_mul_lt (n f : Nat) (hn : 0 < n) (hf : f < 2 ^ 53) :
    round53 (n * f) < n * 2 ^ 53 := by
  have h1 := round53_le (n * f)
  have h2 : n * f + n ≤ n * 2 ^ 53 := by
    have : n * (f + 1) ≤ n * 2 ^ 53 := Nat.mul_le_mul_left n hf
    linarith [Nat.mul_succ n f]
  rcases Nat.eq_zero_or_pos (expo (n * f)) with h0 | hpos
  · rw [h0] at h1
    omega
  · obtain ⟨e, he⟩ : ∃ e, expo (n * f) = e + 1 := ⟨expo (n * f) - 1, by omega⟩
    have h3 := expoAux_succ _ _ _ he
    rw [he] at h1
    have h4 : 2 ^ 53 * 2 ^ e < 2 ^ 53 * n := by
      have : n * f < n * 2 ^ 53 := by omega
      linarith
    have h5 : 2 ^ e < n := Nat.lt_of_mul_lt_mul_left h4
    have h6 : 2 ^ (e + 1) = 2 * 2 ^ e := by ring
    omega

theorem goldenHash_lt (a n : Nat) (key : Key) (hn : 0 < n) : goldenHash a n key < n := by
  have h := round53_mul_lt n (round53 (a * round53 (numKey key)) % 2 ^ 53) hn
    (Nat.mod_lt _ (by norm_num))
  unfold goldenHash
  exact (Nat.div_lt_iff_lt_mul (by norm_num)).2 h

theorem foldHash_range (n : Nat) (key : Key) (h2 : 2 ≤ n) (hn : n < 2 ^ 32) :
    ∃ r, foldHash n key = Res.ok r ∧ 1 ≤ r ∧ r < n := by
  unfold foldHash
  have hm : (if n = 0 then 2 ^ 32 - 1 else n - 1) = n - 1 := by
    rw [if_neg (by omega)]
  rw [hm]
  have hlt : byteSum key % (n - 1) < n - 1 := Nat.mod_lt _ (by omega)
  simp only []
  split
  · omega
  · split
    · rename_i hpar
      refine ⟨_, rfl, ?_, ?_⟩ <;> omega
    · refine ⟨_, rfl, ?_, ?_⟩ <;> omega

theorem foldHash_one (key : Key) : foldHash 1 key = Res.fault := by
  simp [foldHash]

/-! ## Lists -/

theorem getElem?_set_of_some {α : Type} (l : List α) (pos j : Nat) (old x : α)
    (h : l[pos]? = some old) :
    (l.set pos x)[j]? = if j = pos then some x else l[j]? := by
  have hlt : pos < l.length := by
    by_contra hc
    rw [List.getElem?_eq_none (Nat.le_of_not_lt hc)] at h
    cases h
  rw [List.getElem?_set]
  by_cases hj : j = pos
  · subst hj; simp [hlt]
  · have : ¬ pos = j := fun e => hj e.symm
    simp [hj, this]

theorem countP_set_of_some {α : Type} (p : α → Bool) (l : List α) (pos : Nat) (old x : α)
    (h : l[pos]? = some old) :
    (l.set pos x).countP p + (if p old then 1 else 0) = l.countP p + (if p x then 1 else 0) := by
  induction l generalizing pos with
  | nil => simp at h
  | cons a l ih =>
    cases pos with
    | zero =>
      simp at h
      subst h
      simp [List.countP_cons]
      omega
    | succ pos =>
      simp at h
      have := ih pos h
      simp [List.countP_cons]
      omega

theorem countP_take_of_last {α : Type} (p : α → Bool) (l : List α) (n : Nat)
    (hlen : l.length ≤ n + 1) (hlast : ∀ a, l[n]? = some a → p a = false) :
    (l.take n).countP p = l.countP p := by
  conv_rhs => rw [← List.take_append_drop n l]
  rw [List.countP_append]
  have : (l.drop n).countP p = 0 := by
    rw [List.countP_eq_zero]
    intro a ha
    have hlen1 : (l.drop n).length ≤ 1 := by simp; omega
    match hd : l.drop n, hlen1 with
    | [], _ => rw [hd] at ha; cases ha
    | [b], _ =>
      rw [hd] at ha
      have hb : l[n]? = some b := by
        have := List.getElem?_drop l n 0
        rw [hd] at this
        simpa using this.symm
      simp at ha
      subst ha
      simp [hlast _ hb]
  omega

theorem countP_take_succ {α : Type} (p : α → Bool) (l : List α) (i : Nat) (a : α)
    (h : l[i]? = some a) :
    (l.take (i + 1)).countP p = (l.take i).countP p + (if p a then 1 else 0) := by
  induction l generalizing i with
  | nil => simp at h
  | cons b l ih =>
    cases i with
    | zero =>
      simp at h
      subst h
      simp [List.countP_cons]
    | succ i =>
      simp at h
      have := ih i h
      simp only [List.take_succ_cons, List.countP_cons]
      omega

/-! ## The representation invariant under slot updates -/

theorem lt_length_of_getElem? {α : Type} {l : List α} {i : Nat} {a : α}
    (h : l[i]? = some a) : i < l.length := by
  by_contra hc
  rw [List.getElem?_eq_none (Nat.le_of_not_lt hc)] at h
  cases h

namespace cuckoo

variable {V : Type}

theorem hash1_lt (n : Nat) (k : Key) (hn : 1 ≤ n) : hash1 n k < n :=
  goldenHash_lt A n k hn

theorem hash2_range (n : Nat) (k : Key) (h2 : 2 ≤ n) (hn : n < 2 ^ 32) :
    ∃ r, hash2 n k = Res.ok r ∧ 1 ≤ r ∧ r < n :=
  foldHash_range n k h2 hn

theorem IsHome.lt {n : Nat} {k : Key} {i : Nat} (h : IsHome n k i) (h1 : 1 ≤ n)
    (hn : n < 2 ^ 32) : i < n := by
  rcases h with h | h
  · rw [← h]
    exact hash1_lt n k h1
  · by_cases h2 : 2 ≤ n
    · obtain ⟨r, hr, _, hlt⟩ := hash2_range n k h2 hn
      rw [hr] at h
      cases h
      exact hlt
    · have h3 : n = 1 := by omega
      subst h3
      simp [hash2, foldHash_one] at h

theorem WF.occ_lt {t : CuckooHash V} (h : WF t) {i : Nat} {nd : HashNode V}
    (hi : t.table[i]? = some nd) (ho : nd.IsOccupied = true) : i < t.tableSize :=
  (h.homes i nd hi ho).lt h.size_pos h.size_lt

theorem WF.len_eq {t : CuckooHash V} (h : WF t) {i : Nat} {nd : HashNode V}
    (hi : t.table[i]? = some nd) : t.table.length = t.tableSize + 1 := by
  have hlt := lt_length_of_getElem? hi
  have h1 := h.len
  have h2 := h.size_lt
  omega

theorem Stored_iff_off {t : CuckooHash V} {pos : Nat} {old : HashNode V}
    (hpos : t.table[pos]? = some old) (k : Key) (v : V) :
    Stored t k v ↔
      (old.IsOccupied = true ∧ old.Key = k ∧ old.Value = v) ∨ StoredOff t pos k v := by
  constructor
  · rintro ⟨i, nd, hi, ho, hk, hv⟩
    by_cases hip : i = pos
    · subst hip
      rw [hpos] at hi
      cases hi
      exact Or.inl ⟨ho, hk, hv⟩
    · exact Or.inr ⟨i, nd, hip, hi, ho, hk, hv⟩
  · rintro (⟨ho, hk, hv⟩ | ⟨j, nd, _, hj, ho, hk, hv⟩)
    · exact ⟨pos, old, hpos, ho, hk, hv⟩
    · exact ⟨j, nd, hj, ho, hk, hv⟩

theorem StoredOff_set (t : CuckooHash V) (pos : Nat) (old x : HashNode V) (c : Nat)
    (hpos : t.table[pos]? = some old) (k : Key) (v : V) :
    StoredOff { table := t.table.set pos x, tableSize := t.tableSize, elementsCount := c }
      pos k v ↔ StoredOff t pos k v := by
  constructor
  · rintro ⟨j, nd, hj, hg, h⟩
    simp only [getElem?_set_of_some _ _ _ _ _ hpos, if_neg hj] at hg
    exact ⟨j, nd, hj, hg, h⟩
  · rintro ⟨j, nd, hj, hg, h⟩
    refine ⟨j, nd, hj, ?_, h⟩
    simp only [getElem?_set_of_some _ _ _ _ _ hpos, if_neg hj]
    exact hg

theorem set_getElem?_self (t : CuckooHash V) (pos : Nat) (old x : HashNode V)
    (hpos : t.table[pos]? = some old) : (t.table.set pos x)[pos]? = some x := by
  simp [getElem?_set_of_some _ _ _ _ _ hpos]

theorem WF_set {t : CuckooHash V} (h : WF t) {pos : Nat} {old : HashNode V}
    (hpos : t.table[pos]? = some old) (x : HashNode V) (c : Nat)
    (hx : x.IsOccupied = true → IsHome t.tableSize x.Key pos ∧ 2 ≤ t.tableSize)
    (hu : x.IsOccupied = true → ∀ v, ¬ StoredOff t pos x.Key v)
    (hc : c + (if old.IsOccupied = true then 1 else 0) =
      t.elementsCount + (if x.IsOccupied = true then 1 else 0)) :
    WF { table := t.table.set pos x, tableSize := t.tableSize, elementsCount := c } := by
  have hget := fun j => getElem?_set_of_some t.table pos j old x hpos
  refine ⟨h.size_pos, h.size_lt, ?_, ?_, ?_, ?_, ?_⟩
  · simpa using h.len
  · intro i nd hi ho
    simp only [hget] at hi
    split at hi
    · cases hi
      exact (hx ho).2
    · exact h.size_two i nd hi ho
  · intro i nd hi ho
    simp only [hget] at hi
    split at hi
    · rename_i hip
      cases hi
      subst hip
      exact (hx ho).1
    · exact h.homes i nd hi ho
  · intro i j a b hi hj hoa hob hk
    simp only [hget] at hi hj
    by_cases hip : i = pos <;> by_cases hjp : j = pos
    · omega
    · simp only [if_pos hip, if_neg hjp] at hi hj
      cases hi
      exact absurd ⟨j, b, hjp, hj, hob, hk.symm, rfl⟩ (hu hoa _)
    · simp only [if_pos hjp, if_neg hip] at hi hj
      cases hj
      exact absurd ⟨i, a, hip, hi, hoa, hk, rfl⟩ (hu hob _)
    · simp only [if_neg hip, if_neg hjp] at hi hj
      exact h.uniq i j a b hi hj hoa hob hk
  · have h1 := countP_set_of_some (fun nd : HashNode V => nd.IsOccupied) t.table pos old x hpos
    have h2 := h.count
    simp only [] at h1 ⊢
    cases hold : old.IsOccupied <;> cases hxo : x.IsOccupied <;>
      simp only [hold, hxo] at h1 hc <;> simp at h1 hc <;> omega

end cuckoo

/-! ## The eviction loop -/

namespace cuckoo

variable {V : Type}

theorem WF.count_le {t : CuckooHash V} (h : WF t) : t.elementsCount ≤ t.tableSize := by
  have h1 : (t.table.take t.tableSize).countP (fun nd => nd.IsOccupied) =
      t.table.countP (fun nd => nd.IsOccupied) := by
    apply countP_take_of_last
    · have := h.len
      omega
    · intro a ha
      cases ho : a.IsOccupied
      · rfl
      · exact absurd (h.occ_lt ha ho) (Nat.lt_irrefl _)
  have h2 : (t.table.take t.tableSize).countP (fun nd => nd.IsOccupied) ≤
      (t.table.take t.tableSize).length := List.countP_le_length _
  have h3 : (t.table.take t.tableSize).length ≤ t.tableSize := by simp
  have h4 := h.count
  omega

theorem WF.exists_of_count_pos {t : CuckooHash V} (h : WF t) (hc : 0 < t.elementsCount) :
    ∃ k v, Stored t k v := by
  rw [h.count] at hc
  obtain ⟨a, ha, hoa⟩ := List.countP_pos_iff.1 hc
  obtain ⟨i, hi⟩ := List.getElem?_of_mem ha
  exact ⟨a.Key, a.Value, i, a, hi, hoa, rfl, rfl⟩

theorem WF.count_pos_of_stored {t : CuckooHash V} (h : WF t) {k : Key} {v : V}
    (hs : Stored t k v) : 0 < t.elementsCount := by
  obtain ⟨i, nd, hi, ho, _, _⟩ := hs
  rw [h.count]
  exact List.countP_pos_iff.2 ⟨nd, List.getElem?_mem hi, ho⟩

/-- Storing the item in hand into a free slot that is one of its homes. -/
theorem place_spec {s : CuckooHash V} (h : WF s) (h2 : 2 ≤ s.tableSize)
    {pos : Nat} {nd cur : HashNode V} (hpos : s.table[pos]? = some nd)
    (hfree : nd.IsOccupied = false) (hcur : cur.IsOccupied = true)
    (hnew : ∀ v, ¬ Stored s cur.Key v) (hhome : IsHome s.tableSize cur.Key pos) :
    EvictPost s cur (LoopOut.placed
      { s with
        table := s.table.set pos cur
        elementsCount := (s.elementsCount + 1) % 2 ^ 32 }) := by
  have hlen := h.len_eq hpos
  have hl := h.len
  have hcl := h.count_le
  have hmod : (s.elementsCount + 1) % 2 ^ 32 = s.elementsCount + 1 := by omega
  have hoff : ∀ v, ¬ StoredOff s pos cur.Key v := fun v hv =>
    hnew v ((Stored_iff_off hpos _ _).2 (Or.inr hv))
  refine ⟨?_, rfl, hmod, ?_⟩
  · apply WF_set h hpos cur _ (fun _ => ⟨hhome, h2⟩) (fun _ => hoff)
    rw [hmod]
    simp [hfree, hcur]
  · intro k v
    rw [Stored_iff_off (set_getElem?_self s pos nd cur hpos), StoredOff_set s pos nd cur _ hpos]
    unfold Holds
    rw [Stored_iff_off hpos]
    simp only [hfree, hcur, true_and]
    constructor
    · rintro (⟨hk, hv⟩ | h3)
      · exact Or.inl ⟨hk.symm, hv.symm⟩
      · exact Or.inr (Or.inr h3)
    · rintro (⟨hk, hv⟩ | ⟨hf, _⟩ | h3)
      · exact Or.inl ⟨hk.symm, hv.symm⟩
      · cases hf
      · exact Or.inr h3

/-- Exchanging the item in hand with the occupant of one of its homes. -/
theorem swap_spec {s : CuckooHash V} (h : WF s) (h2 : 2 ≤ s.tableSize)
    {pos : Nat} {nd cur : HashNode V} (hpos : s.table[pos]? = some nd)
    (hocc : nd.IsOccupied = true) (hcur : cur.IsOccupied = true)
    (hnew : ∀ v, ¬ Stored s cur.Key v) (hhome : IsHome s.tableSize cur.Key pos) :
    WF { s with table := s.table.set pos cur } ∧
    (∀ v, ¬ Stored { s with table := s.table.set pos cur } nd.Key v) ∧
    ∀ (k : Key) (v : V),
      Holds { s with table := s.table.set pos cur } nd k v ↔ Holds s cur k v := by
  have hoff : ∀ v, ¬ StoredOff s pos cur.Key v := fun v hv =>
    hnew v ((Stored_iff_off hpos _ _).2 (Or.inr hv))
  have hne : cur.Key ≠ nd.Key := fun e => hnew nd.Value ⟨pos, nd, hpos, hocc, e.symm, rfl⟩
  have hoff2 : ∀ v, ¬ StoredOff s pos nd.Key v := by
    rintro v ⟨j, b, hj, hjb, hob, hkb, _⟩
    exact hj (h.uniq j pos b nd hjb hpos hob hocc hkb)
  refine ⟨?_, ?_, ?_⟩
  · apply WF_set h hpos cur _ (fun _ => ⟨hhome, h2⟩) (fun _ => hoff)
    simp [hocc, hcur]
  · intro v
    rw [Stored_iff_off (set_getElem?_self s pos nd cur hpos), StoredOff_set s pos nd cur _ hpos]
    rintro (⟨_, hk, _⟩ | h3)
    · exact hne hk
    · exact hoff2 v h3
  · intro k v
    unfold Holds
    rw [Stored_iff_off (set_getElem?_self s pos nd cur hpos), StoredOff_set s pos nd cur _ hpos,
      Stored_iff_off hpos]
    simp only [hocc, hcur, true_and]
    constructor
    · rintro (⟨hk, hv⟩ | ⟨hk, hv⟩ | h3)
      · exact Or.inr (Or.inl ⟨hk.symm, hv.symm⟩)
      · exact Or.inl ⟨hk.symm, hv.symm⟩
      · exact Or.inr (Or.inr h3)
    · rintro (⟨hk, hv⟩ | ⟨hk, hv⟩ | h3)
      · exact Or.inr (Or.inl ⟨hk.symm, hv.symm⟩)
      · exact Or.inl ⟨hk.symm, hv.symm⟩
      · exact Or.inr (Or.inr h3)

/-- Overwriting the value of a key that is stored in slot `pos`. -/
theorem update_spec {t : CuckooHash V} (h : WF t) {pos : Nat} {nd : HashNode V}
    (hpos : t.table[pos]? = some nd) (hocc : nd.IsOccupied = true) (v : V) :
    InsertPost t nd.Key v { t with table := t.table.set pos { nd with Value := v } } := by
  have hoff2 : ∀ v, ¬ StoredOff t pos nd.Key v := by
    rintro v ⟨j, b, hj, hjb, hob, hkb, _⟩
    exact hj (h.uniq j pos b nd hjb hpos hob hocc hkb)
  refine ⟨?_, ?_, fun _ => rfl, ?_⟩
  · apply WF_set h hpos { nd with Value := v } t.elementsCount
      (fun _ => ⟨h.homes pos nd hpos hocc, h.size_two pos nd hpos hocc⟩) (fun _ => hoff2)
    simp [hocc]
  · intro k1 v1
    rw [Stored_iff_off (set_getElem?_self t pos nd _ hpos), StoredOff_set t pos nd _ _ hpos,
      Stored_iff_off hpos]
    simp only [hocc, true_and]
    constructor
    · rintro (⟨hk, hv⟩ | h3)
      · exact Or.inl ⟨hk.symm, hv.symm⟩
      · exact Or.inr ⟨fun e => hoff2 v1 (e ▸ h3), Or.inr h3⟩
    · rintro (⟨hk, hv⟩ | ⟨hk, ⟨hk2, _⟩ | h3⟩)
      · exact Or.inl ⟨hk.symm, hv.symm⟩
      · exact absurd hk2.symm hk
      · exact Or.inr h3
  · intro hn
    exact absurd ⟨pos, nd, hpos, hocc, rfl, rfl⟩ (hn nd.Value)

theorem evict_spec (r : Nat) : ∀ (s : CuckooHash V) (cur : HashNode V) (pos : Nat)
    (out : LoopOut V), WF s → 2 ≤ s.tableSize → cur.IsOccupied = true →
    (∀ v, ¬ Stored s cur.Key v) → IsHome s.tableSize cur.Key pos →
    evict r s cur pos = Res.ok out → EvictPost s cur out := by
  induction r with
  | zero =>
    intro s cur pos out h _ hcur hnew _ he
    simp only [evict] at he
    cases he
    exact ⟨h, rfl, rfl, hcur, hnew, fun _ _ => Iff.rfl⟩
  | succ r ih =>
    intro s cur pos out h h2 hcur hnew hhome he
    unfold evict at he
    split at he
    · cases he
    · rename_i nd hpos
      split at he
      · rename_i hfree
        cases he
        exact place_spec h h2 hpos hfree hcur hnew hhome
      · rename_i hocc
        have hocc : nd.IsOccupied = true := by simpa using hocc
        split at he
        · rename_i pos2 hp2
          obtain ⟨hwf, hnew2, hholds⟩ := swap_spec h h2 hpos hocc hcur hnew hhome
          have hhome2 : IsHome s.tableSize nd.Key
              (if pos = hash1 s.tableSize nd.Key then pos2 else hash1 s.tableSize nd.Key) := by
            split
            · exact Or.inr hp2
            · exact Or.inl rfl
          have hpost := ih _ nd _ out hwf h2 hocc hnew2 hhome2 he
          cases out with
          | placed s1 =>
            obtain ⟨a, b, c, d⟩ := hpost
            exact ⟨a, b, c, fun k v => (d k v).trans (hholds k v)⟩
          | exhausted s1 cur1 =>
            obtain ⟨a, b, c, d, e, f⟩ := hpost
            exact ⟨a, b, c, d, e, fun k v => (f k v).trans (hholds k v)⟩
        · cases he
        · cases he

end cuckoo

/-! ## Resizing -/

namespace cuckoo

variable {V : Type}

theorem replicate_zero_getElem? [Inhabited V] {m i : Nat} {nd : HashNode V}
    (h : (List.replicate m (zeroNode : HashNode V))[i]? = some nd) : nd.IsOccupied = false := by
  rw [List.getElem?_replicate] at h
  split at h
  · cases h
    rfl
  · cases h

/-- A freshly allocated table of odd size is well formed and holds nothing. -/
theorem fresh_wf [Inhabited V] (n : Nat) (h1 : 1 ≤ n) (hn : n < 2 ^ 32) :
    WF ({ table := List.replicate ((n + 1) % 2 ^ 32) zeroNode, tableSize := n,
          elementsCount := 0 } : CuckooHash V) := by
  refine ⟨h1, hn, by simp, ?_, ?_, ?_, ?_⟩
  · intro i nd hi ho
    rw [replicate_zero_getElem? hi] at ho
    cases ho
  · intro i nd hi ho
    rw [replicate_zero_getElem? hi] at ho
    cases ho
  · intro i j a b hi _ ho
    rw [replicate_zero_getElem? hi] at ho
    cases ho
  · simp [List.countP_replicate, zeroNode]

theorem fresh_not_stored [Inhabited V] (n c : Nat) (k : Key) (v : V) :
    ¬ Stored ({ table := List.replicate n zeroNode, tableSize := c,
                elementsCount := 0 } : CuckooHash V) k v := by
  rintro ⟨i, nd, hi, ho, _⟩
  rw [replicate_zero_getElem? hi] at ho
  cases ho

theorem rehash_spec (ins : CuckooHash V → Key → V → Res (CuckooHash V)) (hins : InsSpec ins)
    (old : CuckooHash V) (hold : WF old) :
    ∀ (r i : Nat) (cur t1 : CuckooHash V), i + r = old.tableSize → WF cur →
      (∀ k v, Stored cur k v ↔ StoredBelow old.table i k v) →
      cur.elementsCount = (old.table.take i).countP (fun nd => nd.IsOccupied) →
      rehash ins old.table r i cur = Res.ok t1 →
      WF t1 ∧ (∀ k v, Stored t1 k v ↔ Stored old k v) ∧
        t1.elementsCount = old.elementsCount := by
  intro r
  induction r with
  | zero =>
    intro i cur t1 hi hwf hst hcnt hr
    simp only [rehash] at hr
    cases hr
    have hi : i = old.tableSize := by omega
    subst hi
    refine ⟨hwf, ?_, ?_⟩
    · intro k v
      rw [hst]
      constructor
      · rintro ⟨j, nd, _, h⟩
        exact ⟨j, nd, h⟩
      · rintro ⟨j, nd, hj, ho, h⟩
        exact ⟨j, nd, hold.occ_lt hj ho, hj, ho, h⟩
    · rw [hcnt, hold.count]
      apply countP_take_of_last
      · have := hold.len
        omega
      · intro a ha
        cases ho : a.IsOccupied
        · rfl
        · exact absurd (hold.occ_lt ha ho) (Nat.lt_irrefl _)
  | succ r ih =>
    intro i cur t1 hi hwf hst hcnt hr
    unfold rehash at hr
    split at hr
    · cases hr
    · rename_i nd hnd
      have htake := countP_take_succ (fun nd : HashNode V => nd.IsOccupied) old.table i nd hnd
      split at hr
      · rename_i hocc
        split at hr
        · rename_i ch1 hch1
          have hnew : ∀ v0, ¬ Stored cur nd.Key v0 := by
            intro v0 hs
            obtain ⟨j, b, hj, hjb, hob, hkb, _⟩ := (hst _ _).1 hs
            have := hold.uniq j i b nd hjb hnd hob hocc hkb
            omega
          have hpost := hins cur nd.Key nd.Value ch1 hwf hch1
          apply ih (i + 1) ch1 t1 (by omega) hpost.wf _ _ hr
          · intro k v
            rw [hpost.stored, hst]
            constructor
            · rintro (⟨hk, hv⟩ | ⟨_, j, b, hj, h⟩)
              · exact ⟨i, nd, by omega, hnd, hocc, hk.symm, hv.symm⟩
              · exact ⟨j, b, by omega, h⟩
            · rintro ⟨j, b, hj, hjb, hob, hkb, hvb⟩
              by_cases hji : j = i
              · subst hji
                rw [hnd] at hjb
                cases hjb
                exact Or.inl ⟨hkb.symm, hvb.symm⟩
              · refine Or.inr ⟨?_, j, b, by omega, hjb, hob, hkb, hvb⟩
                intro hk
                exact hji (hold.uniq j i b nd hjb hnd hob hocc (hkb.trans hk))
          · rw [hpost.count_new hnew, hcnt, htake]
            simp [hocc]
        · cases hr
        · cases hr
      · rename_i hocc
        apply ih (i + 1) cur t1 (by omega) hwf _ _ hr
        · intro k v
          rw [hst]
          constructor
          · rintro ⟨j, b, hj, h⟩
            exact ⟨j, b, by omega, h⟩
          · rintro ⟨j, b, hj, hjb, hob, h⟩
            by_cases hji : j = i
            · subst hji
              rw [hnd] at hjb
              cases hjb
              exact absurd hob hocc
            · exact ⟨j, b, by omega, hjb, hob, h⟩
        · rw [hcnt, htake]
          simp [hocc]

theorem resizeWith_spec [Inhabited V] (ins : CuckooHash V → Key → V → Res (CuckooHash V))
    (hins : InsSpec ins) (t t1 : CuckooHash V) (h : WF t)
    (hr : resizeWith ins t = Res.ok t1) :
    WF t1 ∧ (∀ k v, Stored t1 k v ↔ Stored t k v) ∧ t1.elementsCount = t.elementsCount := by
  unfold resizeWith at hr
  refine rehash_spec ins hins t h t.tableSize 0 _ t1 (by omega) ?_ ?_ ?_ hr
  · exact fresh_wf _ (by omega) (Nat.mod_lt _ (by norm_num))
  · intro k v
    constructor
    · intro hs
      exact absurd hs (fresh_not_stored _ _ k v)
    · rintro ⟨j, _, hj, _⟩
      omega
  · simp

end cuckoo

/-! ## The contract of `Insert` -/

namespace cuckoo

variable {V : Type}

theorem not_stored_of_homes {t : CuckooHash V} (h : WF t) {k : Key} {n1 n2 : HashNode V}
    {p2 : Nat} (h1 : t.table[hash1 t.tableSize k]? = some n1)
    (hn1 : ¬ (n1.IsOccupied = true ∧ n1.Key = k))
    (hp2 : hash2 t.tableSize k = Res.ok p2) (h2 : t.table[p2]? = some n2)
    (hn2 : ¬ (n2.IsOccupied = true ∧ n2.Key = k)) : ∀ v, ¬ Stored t k v := by
  rintro v ⟨i, nd, hi, ho, hk, _⟩
  rcases h.homes i nd hi ho with hh | hh
  · rw [hk] at hh
    subst hh
    rw [h1] at hi
    cases hi
    exact hn1 ⟨ho, hk⟩
  · rw [hk, hp2] at hh
    cases hh
    rw [h2] at hi
    cases hi
    exact hn2 ⟨ho, hk⟩

theorem size_two_of_hash2 {t : CuckooHash V} (h : WF t) {k : Key} {p2 : Nat}
    (hp2 : hash2 t.tableSize k = Res.ok p2) : 2 ≤ t.tableSize := by
  by_contra hc
  have h1 : t.tableSize = 1 := by
    have := h.size_pos
    omega
  rw [h1] at hp2
  simp [hash2, foldHash_one] at hp2

theorem resizeGate_spec [Inhabited V] (ins : CuckooHash V → Key → V → Res (CuckooHash V))
    (hins : InsSpec ins) (t ch1 : CuckooHash V) (hwf : WF t) (h2 : 2 ≤ t.tableSize)
    (hg : (if needResize t = true then resizeWith ins t else Res.ok t) = Res.ok ch1) :
    WF ch1 ∧ 2 ≤ ch1.tableSize ∧ (∀ k v, Stored ch1 k v ↔ Stored t k v) ∧
      ch1.elementsCount = t.elementsCount := by
  split at hg
  · rename_i hneed
    obtain ⟨hw, hs, hc⟩ := resizeWith_spec ins hins t ch1 hwf hg
    refine ⟨hw, ?_, hs, hc⟩
    have hpos : 0 < t.elementsCount := by
      simp [needResize] at hneed
      omega
    obtain ⟨k, v, hst⟩ := hwf.exists_of_count_pos hpos
    obtain ⟨i, nd, hi, ho, _⟩ := (hs k v).2 hst
    exact hw.size_two i nd hi ho
  · cases hg
    exact ⟨hwf, h2, fun _ _ => Iff.rfl, rfl⟩

theorem Insert_spec [Inhabited V] (fuel : Nat) :
    InsSpec (Insert fuel : CuckooHash V → Key → V → Res (CuckooHash V)) := by
  induction fuel with
  | zero =>
    intro t k v t1 _ h
    simp [Insert] at h
  | succ fuel ih =>
    intro t k v t1 hwf h
    rw [Insert] at h
    split at h
    · cases h
    · rename_i n1 hn1
      split at h
      · rename_i hc1
        obtain ⟨ho, hk⟩ := hc1
        cases h
        subst hk
        exact update_spec hwf hn1 ho v
      · rename_i hc1
        split at h
        · cases h
        · cases h
        · rename_i p2 hp2
          split at h
          · cases h
          · rename_i n2 hn2
            split at h
            · rename_i hc2
              obtain ⟨ho, hk⟩ := hc2
              cases h
              subst hk
              exact update_spec hwf hn2 ho v
            · rename_i hc2
              have hnew := not_stored_of_homes hwf hn1 hc1 hp2 hn2 hc2
              have h2 := size_two_of_hash2 hwf hp2
              split at h
              · cases h
              · cases h
              · rename_i ch1 hg
                obtain ⟨hw1, h21, hs1, hcnt1⟩ := resizeGate_spec _ ih t ch1 hwf h2 hg
                have hnew1 : ∀ v0, ¬ Stored ch1 k v0 := fun v0 hs => hnew v0 ((hs1 _ _).1 hs)
                split at h
                · cases h
                · cases h
                · rename_i ch2 hev
                  cases h
                  obtain ⟨hw2, _, hc2, hs2⟩ :=
                    evict_spec _ ch1 ⟨k, v, true⟩ _ _ hw1 h21 rfl hnew1 (Or.inl rfl) hev
                  refine ⟨hw2, ?_, ?_, ?_⟩
                  · intro k1 v1
                    rw [hs2]
                    unfold Holds
                    rw [hs1]
                    constructor
                    · rintro (h3 | h3)
                      · exact Or.inl h3
                      · exact Or.inr ⟨fun e => hnew v1 (e ▸ h3), h3⟩
                    · rintro (h3 | ⟨_, h3⟩)
                      · exact Or.inl h3
                      · exact Or.inr h3
                  · rintro ⟨v0, hv0⟩
                    exact absurd hv0 (hnew v0)
                  · intro _
                    rw [hc2, hcnt1]
                · rename_i ch2 cur hev
                  obtain ⟨hw2, _, hc2, hcur, hnew2, hs2⟩ :=
                    evict_spec _ ch1 ⟨k, v, true⟩ _ _ hw1 h21 rfl hnew1 (Or.inl rfl) hev
                  split at h
                  · cases h
                  · cases h
                  · rename_i ch3 hrs
                    obtain ⟨hw3, hs3, hc3⟩ := resizeWith_spec _ ih ch2 ch3 hw2 hrs
                    have hnew3 : ∀ v0, ¬ Stored ch3 cur.Key v0 :=
                      fun v0 hs => hnew2 v0 ((hs3 _ _).1 hs)
                    have hpost := ih ch3 cur.Key cur.Value t1 hw3 h
                    have hall : ∀ k1 v1, Stored t1 k1 v1 ↔ (k1 = k ∧ v1 = v) ∨ Stored t k1 v1 := by
                      intro k1 v1
                      rw [hpost.stored, ← hs1]
                      have := hs2 k1 v1
                      unfold Holds at this
                      rw [← this, ← hs3]
                      constructor
                      · rintro (h3 | ⟨_, h3⟩)
                        · exact Or.inl h3
                        · exact Or.inr h3
                      · rintro (h3 | h3)
                        · exact Or.inl h3
                        · exact Or.inr ⟨fun e => hnew3 v1 (e ▸ h3), h3⟩
                    refine ⟨hpost.wf, ?_, ?_, ?_⟩
                    · intro k1 v1
                      rw [hall]
                      constructor
                      · rintro (h3 | h3)
                        · exact Or.inl h3
                        · exact Or.inr ⟨fun e => hnew v1 (e ▸ h3), h3⟩
                      · rintro (h3 | ⟨_, h3⟩)
                        · exact Or.inl h3
                        · exact Or.inr h3
                    · rintro ⟨v0, hv0⟩
                      exact absurd hv0 (hnew v0)
                    · intro _
                      rw [hpost.count_new hnew3, hc3, hc2, hcnt1]

end cuckoo

/-! ## Stored pairs, `Find`, and the other operations -/

namespace cuckoo

variable {V : Type}

theorem InsertPost.stored_self {t t1 : CuckooHash V} {k : Key} {v : V}
    (h : InsertPost t k v t1) : Stored t1 k v :=
  (h.stored k v).2 (Or.inl ⟨rfl, rfl⟩)

theorem WF.size_two_of_stored {t : CuckooHash V} (h : WF t) {k : Key} {v : V}
    (hs : Stored t k v) : 2 ≤ t.tableSize := by
  obtain ⟨i, nd, hi, ho, _⟩ := hs
  exact h.size_two i nd hi ho

theorem WF.len_of_stored {t : CuckooHash V} (h : WF t) {k : Key} {v : V}
    (hs : Stored t k v) : t.table.length = t.tableSize + 1 := by
  obtain ⟨i, nd, hi, _⟩ := hs
  exact h.len_eq hi

theorem WF.stored_unique {t : CuckooHash V} (h : WF t) {k : Key} {v w : V}
    (hv : Stored t k v) (hw : Stored t k w) : v = w := by
  obtain ⟨i, a, hi, hoa, hka, hva⟩ := hv
  obtain ⟨j, b, hj, hob, hkb, hvb⟩ := hw
  have := h.uniq i j a b hi hj hoa hob (hka.trans hkb.symm)
  subst this
  rw [hi] at hj
  cases hj
  exact hva.symm.trans hvb

/-! ## `Find` -/

theorem Find_sound {t : CuckooHash V} {k : Key} {v : V} (h : Find t k = Res.ok (some v)) :
    Stored t k v := by
  unfold Find at h
  split at h
  · cases h
  · rename_i n1 hn1
    split at h
    · rename_i hc
      cases h
      exact ⟨_, n1, hn1, hc.1, hc.2, rfl⟩
    · split at h
      · cases h
      · cases h
      · rename_i p2 hp2
        split at h
        · cases h
        · rename_i n2 hn2
          split at h
          · rename_i hc
            cases h
            exact ⟨_, n2, hn2, hc.1, hc.2, rfl⟩
          · split at h
            · split at h
              · rename_i n3 hn3
                split at h
                · rename_i hc
                  cases h
                  exact ⟨_, n3, hn3, hc.1, hc.2, rfl⟩
                · cases h
              · cases h
            · cases h

theorem Find_of_stored {t : CuckooHash V} (h : WF t) {k : Key} {v : V} (hs : Stored t k v) :
    Find t k = Res.ok (some v) := by
  have h2 := h.size_two_of_stored hs
  have hlen := h.len_of_stored hs
  have hlt := hash1_lt t.tableSize k h.size_pos
  obtain ⟨p2, hp2, _, hp2lt⟩ := hash2_range t.tableSize k h2 h.size_lt
  obtain ⟨n1, hn1⟩ : ∃ n1, t.table[hash1 t.tableSize k]? = some n1 :=
    ⟨t.table[hash1 t.tableSize k], List.getElem?_eq_getElem (by omega)⟩
  obtain ⟨n2, hn2⟩ : ∃ n2, t.table[p2]? = some n2 :=
    ⟨t.table[p2], List.getElem?_eq_getElem (by omega)⟩
  unfold Find
  rw [hn1]
  simp only []
  split
  · rename_i hc
    rw [h.stored_unique hs ⟨_, n1, hn1, hc.1, hc.2, rfl⟩]
  · rename_i hc1
    rw [hp2]
    simp only []
    rw [hn2]
    simp only []
    split
    · rename_i hc
      rw [h.stored_unique hs ⟨_, n2, hn2, hc.1, hc.2, rfl⟩]
    · rename_i hc2
      exact absurd hs (not_stored_of_homes h hn1 hc1 hp2 hn2 hc2 v)

theorem Find_none {t : CuckooHash V} (h : WF t) (h2 : 2 ≤ t.tableSize)
    (hlen : t.table.length = t.tableSize + 1) {k : Key} (hs : ∀ v, ¬ Stored t k v) :
    Find t k = Res.ok none := by
  have hlt := hash1_lt t.tableSize k h.size_pos
  obtain ⟨p2, hp2, _, hp2lt⟩ := hash2_range t.tableSize k h2 h.size_lt
  obtain ⟨n1, hn1⟩ : ∃ n1, t.table[hash1 t.tableSize k]? = some n1 :=
    ⟨t.table[hash1 t.tableSize k], List.getElem?_eq_getElem (by omega)⟩
  obtain ⟨n2, hn2⟩ : ∃ n2, t.table[p2]? = some n2 :=
    ⟨t.table[p2], List.getElem?_eq_getElem (by omega)⟩
  unfold Find
  rw [hn1]
  simp only []
  split
  · rename_i hc
    exact absurd ⟨_, n1, hn1, hc.1, hc.2, rfl⟩ (hs n1.Value)
  · rw [hp2]
    simp only []
    rw [hn2]
    simp only []
    split
    · rename_i hc
      exact absurd ⟨_, n2, hn2, hc.1, hc.2, rfl⟩ (hs n2.Value)
    · split
      · split
        · rename_i n3 hn3
          split
          · rename_i hc
            exact absurd ⟨_, n3, hn3, hc.1, hc.2, rfl⟩ (hs n3.Value)
          · rfl
        · rfl
      · rfl

theorem not_stored_of_Find_none {t : CuckooHash V} (h : WF t) {k : Key}
    (hf : Find t k = Res.ok none) : ∀ v, ¬ Stored t k v := by
  intro v hs
  rw [Find_of_stored h hs] at hf
  cases hf

/-! ## `NewCuckooHash`, `Remove`, `Clear`, `Copy` -/

theorem NewCuckooHash_wf [Inhabited V] (n0 : Nat) (hn : n0 < 2 ^ 32) :
    WF (NewCuckooHash n0 : CuckooHash V) := by
  unfold NewCuckooHash
  apply fresh_wf
  · split <;> omega
  · split <;> omega

theorem NewCuckooHash_not_stored [Inhabited V] (n0 : Nat) (k : Key) (v : V) :
    ¬ Stored (NewCuckooHash n0 : CuckooHash V) k v :=
  fresh_not_stored _ _ k v

theorem Clear_wf [Inhabited V] {t : CuckooHash V} (h : WF t) : WF (Clear t) := by
  have hz : ∀ (i : Nat) (nd : HashNode V),
      (t.table.map (fun _ => (zeroNode : HashNode V)))[i]? = some nd →
        nd.IsOccupied = false := by
    intro i nd hi
    rw [List.getElem?_map] at hi
    cases hti : t.table[i]? with
    | none => rw [hti] at hi; cases hi
    | some a =>
      rw [hti] at hi
      cases hi
      rfl
  refine ⟨h.size_pos, h.size_lt, ?_, ?_, ?_, ?_, ?_⟩
  · simpa [Clear] using h.len
  · intro i nd hi ho
    rw [hz i nd hi] at ho
    cases ho
  · intro i nd hi ho
    rw [hz i nd hi] at ho
    cases ho
  · intro i j a b hi _ ho
    rw [hz i a hi] at ho
    cases ho
  · simp [Clear, List.countP_map, zeroNode, Function.comp_def, List.countP_replicate]

theorem Clear_not_stored [Inhabited V] (t : CuckooHash V) (k : Key) (v : V) :
    ¬ Stored (Clear t) k v := by
  rintro ⟨i, nd, hi, ho, _⟩
  simp only [Clear] at hi
  rw [List.getElem?_map] at hi
  cases hti : t.table[i]? with
  | none => rw [hti] at hi; cases hi
  | some a =>
    rw [hti] at hi
    cases hi
    cases ho

theorem Copy_eq [Inhabited V] {t : CuckooHash V} (h : WF t) : Copy t = t := by
  have h1 := h.size_pos
  have hl := h.len
  unfold Copy NewCuckooHash copySlice
  simp only [List.length_replicate]
  rw [if_neg (by omega), ← hl]
  simp

/-- What a returning `Remove(k)` establishes. -/
theorem Remove_spec {t t1 : CuckooHash V} {k : Key} {b : Bool} (h : WF t)
    (hr : Remove t k = Res.ok (t1, b)) :
    WF t1 ∧ t1.tableSize = t.tableSize ∧
      (b = true → (∃ v, Stored t k v) ∧ t1.elementsCount + 1 = t.elementsCount ∧
        ∀ k1 v1, Stored t1 k1 v1 ↔ k1 ≠ k ∧ Stored t k1 v1) ∧
      (b = false → t1 = t ∧ ∀ v, ¬ Stored t k v) := by
  have key : ∀ (pos : Nat) (nd : HashNode V), t.table[pos]? = some nd →
      nd.IsOccupied = true → nd.Key = k →
      WF ({ t with
        table := t.table.set pos { nd with IsOccupied := false }
        elementsCount := if t.elementsCount = 0 then 2 ^ 32 - 1 else t.elementsCount - 1 }) ∧
      (∃ v, Stored t k v) ∧
      (if t.elementsCount = 0 then 2 ^ 32 - 1 else t.elementsCount - 1) + 1 = t.elementsCount ∧
      ∀ k1 v1, Stored ({ t with
        table := t.table.set pos { nd with IsOccupied := false }
        elementsCount := if t.elementsCount = 0 then 2 ^ 32 - 1 else t.elementsCount - 1 })
          k1 v1 ↔ k1 ≠ k ∧ Stored t k1 v1 := by
    intro pos nd hpos ho hk
    have hst : Stored t k nd.Value := ⟨pos, nd, hpos, ho, hk, rfl⟩
    have hcp := h.count_pos_of_stored hst
    have hc : (if t.elementsCount = 0 then 2 ^ 32 - 1 else t.elementsCount - 1) + 1 =
        t.elementsCount := by
      rw [if_neg (by omega)]
      omega
    have hoff2 : ∀ v, ¬ StoredOff t pos k v := by
      rintro v ⟨j, b, hj, hjb, hob, hkb, _⟩
      exact hj (h.uniq j pos b nd hjb hpos hob ho (hkb.trans hk.symm))
    refine ⟨?_, ⟨_, hst⟩, hc, ?_⟩
    · apply WF_set h hpos { nd with IsOccupied := false } _ (fun hx => by cases hx)
        (fun hx => by cases hx)
      simp only [ho, if_true]
      simpa using hc
    · intro k1 v1
      rw [Stored_iff_off (set_getElem?_self t pos nd _ hpos), StoredOff_set t pos nd _ _ hpos,
        Stored_iff_off hpos]
      simp only [ho, true_and]
      constructor
      · rintro (⟨hf, _⟩ | h3)
        · cases hf
        · exact ⟨fun e => hoff2 v1 (e ▸ h3), Or.inr h3⟩
      · rintro ⟨hne, ⟨hk1, _⟩ | h3⟩
        · exact absurd (hk1.symm.trans hk) hne
        · exact Or.inr h3
  unfold Remove at hr
  split at hr
  · cases hr
  · rename_i n1 hn1
    split at hr
    · rename_i hc1
      cases hr
      obtain ⟨a, b, c, d⟩ := key _ n1 hn1 hc1.1 hc1.2
      exact ⟨a, rfl, fun _ => ⟨b, c, d⟩, fun hf => by cases hf⟩
    · rename_i hc1
      split at hr
      · cases hr
      · cases hr
      · rename_i p2 hp2
        split at hr
        · cases hr
        · rename_i n2 hn2
          split at hr
          · rename_i hc2
            cases hr
            obtain ⟨a, b, c, d⟩ := key _ n2 hn2 hc2.1 hc2.2
            exact ⟨a, rfl, fun _ => ⟨b, c, d⟩, fun hf => by cases hf⟩
          · rename_i hc2
            cases hr
            exact ⟨h, rfl, fun hf => Bool.noConfusion hf,
              fun _ => ⟨rfl, not_stored_of_homes h hn1 hc1 hp2 hn2 hc2⟩⟩

/-! ## Reachable tables -/

theorem Reachable.wf [Inhabited V] {n0 : Nat} (hn : n0 < 2 ^ 32) {t : CuckooHash V}
    (h : Reachable n0 t) : WF t := by
  induction h with
  | new => exact NewCuckooHash_wf n0 hn
  | insert fuel t t1 k v _ hi ih => exact (Insert_spec fuel t k v t1 ih hi).wf
  | remove t t1 k b _ hr ih => exact (Remove_spec ih hr).1
  | clear t _ ih => exact Clear_wf ih
  | copy t _ ih => rw [Copy_eq ih]; exact ih

theorem Reachable.size_two [Inhabited V] {n0 : Nat} (h2 : 2 ≤ n0) (hn : n0 < 2 ^ 32)
    {t : CuckooHash V} (h : Reachable n0 t) : 2 ≤ t.tableSize := by
  induction h with
  | new =>
    unfold NewCuckooHash
    simp only []
    split <;> omega
  | insert fuel t t1 k v hr hi _ =>
    have hp := Insert_spec fuel t k v t1 (hr.wf hn) hi
    exact hp.wf.size_two_of_stored hp.stored_self
  | remove t t1 k b hr hrm ih =>
    rw [(Remove_spec (hr.wf hn) hrm).2.1]
    exact ih
  | clear t _ ih => exact ih
  | copy t hr ih =>
    rw [Copy_eq (hr.wf hn)]
    exact ih

end cuckoo

namespace cuckoo

variable {V : Type}

/-! ## Claims about the cuckoo table -/

theorem Insert_ok_slot [Inhabited V] {fuel : Nat} {t t1 : CuckooHash V} {k : Key} {v : V}
    (h : Insert fuel t k v = Res.ok t1) :
    ∃ n1, t.table[hash1 t.tableSize k]? = some n1 := by
  cases fuel with
  | zero => simp [Insert] at h
  | succ fuel =>
    rw [Insert] at h
    split at h
    · cases h
    · rename_i n1 hn1
      exact ⟨n1, hn1⟩

theorem reach_tabA : Reachable 2 tabA :=
  Reachable.insert 1 (NewCuckooHash 2) tabA [97] 1 Reachable.new (by decide)

/-- C1: on every table reachable from `NewCuckooHash(n)` (any `n`, in
particular `n ≥ 2`), once `Insert(k, v)` has returned, `Find(k)` returns `v`. -/
theorem C1_insert_then_find [Inhabited V] (n0 : Nat) (hn : n0 < 2 ^ 32)
    (t t1 : CuckooHash V) (fuel : Nat) (k : Key) (v : V) (hr : Reachable n0 t)
    (hi : Insert fuel t k v = Res.ok t1) : Find t1 k = Res.ok (some v) := by
  have hp := Insert_spec fuel t k v t1 (hr.wf hn) hi
  exact Find_of_stored hp.wf hp.stored_self

theorem C1_insert_then_find_witness :
    Reachable 2 tabA ∧ Insert 2 tabA [98] 2 = Res.ok tabAB ∧
      Find tabAB [98] = Res.ok (some 2) :=
  ⟨reach_tabA, by decide,
    C1_insert_then_find 2 (by decide) tabA tabAB 2 [98] 2 reach_tabA (by decide)⟩

/-- C2: on every reachable table, `Insert(k, v)` leaves the result of
`Find(k1)` unchanged for every other key `k1`. -/
theorem C2_insert_preserves_other_keys [Inhabited V] (n0 : Nat) (h2 : 2 ≤ n0) (hn : n0 < 2 ^ 32)
    (t t1 : CuckooHash V) (fuel : Nat) (k k1 : Key) (v : V) (hr : Reachable n0 t)
    (hi : Insert fuel t k v = Res.ok t1) (hk : k1 ≠ k) : Find t1 k1 = Find t k1 := by
  have hwf := hr.wf hn
  have hp := Insert_spec fuel t k v t1 hwf hi
  obtain ⟨n1, hn1⟩ := Insert_ok_slot hi
  by_cases hs : ∃ v1, Stored t k1 v1
  · obtain ⟨v1, hv1⟩ := hs
    rw [Find_of_stored hwf hv1, Find_of_stored hp.wf ((hp.stored k1 v1).2 (Or.inr ⟨hk, hv1⟩))]
  · have hs0 : ∀ v1, ¬ Stored t k1 v1 := fun v1 h => hs ⟨v1, h⟩
    have hs1 : ∀ v1, ¬ Stored t1 k1 v1 := by
      intro v1 h
      rcases (hp.stored k1 v1).1 h with ⟨e, _⟩ | ⟨_, h3⟩
      · exact hk e
      · exact hs0 v1 h3
    rw [Find_none hwf (hr.size_two h2 hn) (hwf.len_eq hn1) hs0,
      Find_none hp.wf (hp.wf.size_two_of_stored hp.stored_self)
        (hp.wf.len_of_stored hp.stored_self) hs1]

theorem C2_insert_preserves_other_keys_witness :
    Reachable 2 tabA ∧ Insert 2 tabA [98] 2 = Res.ok tabAB ∧
      Find tabAB [97] = Find tabA [97] :=
  ⟨reach_tabA, by decide,
    C2_insert_preserves_other_keys 2 (by decide) (by decide) tabA tabAB 2 [98] [97] 2
      reach_tabA (by decide) (by decide)⟩

/-- C3: in every table reachable from `NewCuckooHash(n)` (any `n`, in
particular `n ≥ 2`), an occupied slot `i` holding key `k` satisfies
`i = hash1(k)` or `i = hash2(k)` for the current `tableSize`. -/
theorem C3_two_home_invariant [Inhabited V] (n0 : Nat) (hn : n0 < 2 ^ 32)
    (t : CuckooHash V) (hr : Reachable n0 t) (i : Nat) (nd : HashNode V)
    (hi : t.table[i]? = some nd) (ho : nd.IsOccupied = true) :
    hash1 t.tableSize nd.Key = i ∨ hash2 t.tableSize nd.Key = Res.ok i :=
  (hr.wf hn).homes i nd hi ho

theorem C3_two_home_invariant_witness :
    hash1 tabAB.tableSize [98] = 2 ∨ hash2 tabAB.tableSize [98] = Res.ok 2 :=
  C3_two_home_invariant 2 (by decide) tabAB
    (Reachable.insert 2 tabA tabAB [98] 2 reach_tabA (by decide)) 2 ⟨[98], 2, true⟩
    (by decide) (by decide)

/-- C4: in every table reachable from `NewCuckooHash`, no two occupied slots
hold the same key. -/
theorem C4_key_uniqueness [Inhabited V] (n0 : Nat) (hn : n0 < 2 ^ 32)
    (t : CuckooHash V) (hr : Reachable n0 t) (i j : Nat) (a b : HashNode V)
    (hi : t.table[i]? = some a) (hj : t.table[j]? = some b)
    (hoa : a.IsOccupied = true) (hob : b.IsOccupied = true) (hij : i ≠ j) : a.Key ≠ b.Key :=
  fun hk => hij ((hr.wf hn).uniq i j a b hi hj hoa hob hk)

theorem C4_key_uniqueness_witness :
    tabAB.table[2]? = some ⟨[98], 2, true⟩ ∧ tabAB.table[4]? = some ⟨[97], 1, true⟩ ∧
      ([98] : Key) ≠ [97] :=
  ⟨by decide, by decide,
    C4_key_uniqueness 2 (by decide) tabAB
      (Reachable.insert 2 tabA tabAB [98] 2 reach_tabA (by decide)) 2 4
      ⟨[98], 2, true⟩ ⟨[97], 1, true⟩ (by decide) (by decide) (by decide) (by decide)
      (by decide)⟩

/-- C5: in every table reachable from `NewCuckooHash`, `elementsCount` (the
value of `Size()`) is the number of occupied slots, and `Empty()` holds exactly
when that number is 0. -/
theorem C5_count_invariant [Inhabited V] (n0 : Nat) (hn : n0 < 2 ^ 32)
    (t : CuckooHash V) (hr : Reachable n0 t) :
    Size t = t.table.countP (fun nd => nd.IsOccupied) ∧
      (Empty t = true ↔ t.table.countP (fun nd => nd.IsOccupied) = 0) := by
  have h := (hr.wf hn).count
  refine ⟨h, ?_⟩
  simp [Empty, h]

theorem C5_count_invariant_witness :
    Size tabA = tabA.table.countP (fun nd => nd.IsOccupied) ∧
      (Empty tabA = true ↔ tabA.table.countP (fun nd => nd.IsOccupied) = 0) :=
  C5_count_invariant 2 (by decide) tabA reach_tabA


/-- C6: on a reachable table that already holds `k`, `Insert(k, v2)` returns
at once; it changes nothing but the value of the slot that holds `k` (so
`Size()`, `tableSize` and every other slot stay as they were), and `Find(k)`
returns `v2` afterwards. -/
theorem C6_idempotent_update [Inhabited V] (n0 : Nat) (hn : n0 < 2 ^ 32)
    (t : CuckooHash V) (hr : Reachable n0 t) (k : Key) (v0 v2 : V)
    (hf : Find t k = Res.ok (some v0)) :
    ∃ (i : Nat) (nd : HashNode V),
      t.table[i]? = some nd ∧ nd.IsOccupied = true ∧ nd.Key = k ∧ nd.Value = v0 ∧
      (∀ fuel, Insert (fuel + 1) t k v2 =
        Res.ok { t with table := t.table.set i { nd with Value := v2 } }) ∧
      Find { t with table := t.table.set i { nd with Value := v2 } } k = Res.ok (some v2) := by
  have hwf := hr.wf hn
  have hs := Find_sound hf
  obtain ⟨i, nd, hi, ho, hk, hv⟩ := hs
  refine ⟨i, nd, hi, ho, hk, hv, ?_, ?_⟩
  · intro fuel
    have hst : Stored t k v0 := ⟨i, nd, hi, ho, hk, hv⟩
    have h2 := hwf.size_two_of_stored hst
    have hlen := hwf.len_of_stored hst
    have hlt := hash1_lt t.tableSize k hwf.size_pos
    obtain ⟨p2, hp2, _, hp2lt⟩ := hash2_range t.tableSize k h2 hwf.size_lt
    obtain ⟨n1, hn1⟩ : ∃ n1, t.table[hash1 t.tableSize k]? = some n1 :=
      ⟨t.table[hash1 t.tableSize k], List.getElem?_eq_getElem (by omega)⟩
    obtain ⟨n2, hn2⟩ : ∃ n2, t.table[p2]? = some n2 :=
      ⟨t.table[p2], List.getElem?_eq_getElem (by omega)⟩
    rw [Insert, hn1]
    simp only []
    split
    · rename_i hc
      have e := hwf.uniq _ i n1 nd hn1 hi hc.1 ho (hc.2.trans hk.symm)
      subst e
      rw [hn1] at hi
      cases hi
      rfl
    · rename_i hc1
      rw [hp2]
      simp only []
      rw [hn2]
      simp only []
      split
      · rename_i hc
        have e := hwf.uniq _ i n2 nd hn2 hi hc.1 ho (hc.2.trans hk.symm)
        subst e
        rw [hn2] at hi
        cases hi
        rfl
      · rename_i hc2
        exact absurd hst (not_stored_of_homes hwf hn1 hc1 hp2 hn2 hc2 v0)
  · have hp := update_spec hwf hi ho v2
    subst hk
    exact Find_of_stored hp.wf hp.stored_self

theorem C6_idempotent_update_witness :
    ∃ (i : Nat) (nd : HashNode Nat),
      tabAB.table[i]? = some nd ∧ nd.IsOccupied = true ∧ nd.Key = [97] ∧ nd.Value = 1 ∧
      (∀ fuel, Insert (fuel + 1) tabAB [97] 7 =
        Res.ok { tabAB with table := tabAB.table.set i { nd with Value := 7 } }) ∧
      Find { tabAB with table := tabAB.table.set i { nd with Value := 7 } } [97] =
        Res.ok (some 7) :=
  C6_idempotent_update 2 (by decide) tabAB
    (Reachable.insert 2 tabA tabAB [98] 2 reach_tabA (by decide)) [97] 1 7 (by decide)

theorem InsertAll_count [Inhabited V] (fuel : Nat) (kvs : List (Key × V)) :
    ∀ (t t1 : CuckooHash V), WF t → (kvs.map Prod.fst).Nodup →
      (∀ kv ∈ kvs, ∀ v, ¬ Stored t kv.1 v) → InsertAll fuel t kvs = Res.ok t1 →
      t1.elementsCount = t.elementsCount + kvs.length := by
  induction kvs with
  | nil =>
    intro t t1 _ _ _ h
    simp only [InsertAll] at h
    cases h
    rfl
  | cons kv rest ih =>
    intro t t1 hwf hnd hnew h
    rw [InsertAll] at h
    split at h
    · rename_i t2 hi
      have hp := Insert_spec fuel t kv.1 kv.2 t2 hwf hi
      rw [List.map_cons, List.nodup_cons] at hnd
      have := ih t2 t1 hp.wf hnd.2 (by
        intro kv1 hkv1 v hs
        rcases (hp.stored _ _).1 hs with ⟨e, _⟩ | ⟨_, h3⟩
        · exact hnd.1 (e ▸ List.mem_map_of_mem Prod.fst hkv1)
        · exact hnew kv1 (List.mem_cons_of_mem _ hkv1) v h3) h
      rw [this, hp.count_new (hnew kv (List.mem_cons_self _ _))]
      simp only [List.length_cons]
      omega
    · cases h
    · cases h

/-- C7: on a reachable table that does not hold `k`, once `Insert(k, v)` has
returned, `Size()` is the previous `Size()` plus 1; and once the inserts of `N`
pairs with distinct keys into a new table have returned, `Size()` is `N`. -/
theorem C7_insert_new_key_counts_once [Inhabited V] (n0 : Nat) (hn : n0 < 2 ^ 32) :
    (∀ (t t1 : CuckooHash V) (fuel : Nat) (k : Key) (v : V), Reachable n0 t →
      Find t k = Res.ok none → Insert fuel t k v = Res.ok t1 → Size t1 = Size t + 1) ∧
    (∀ (t1 : CuckooHash V) (fuel : Nat) (kvs : List (Key × V)), (kvs.map Prod.fst).Nodup →
      InsertAll fuel (NewCuckooHash n0) kvs = Res.ok t1 → Size t1 = kvs.length) := by
  constructor
  · intro t t1 fuel k v hr hf hi
    have hwf := hr.wf hn
    exact (Insert_spec fuel t k v t1 hwf hi).count_new (not_stored_of_Find_none hwf hf)
  · intro t1 fuel kvs hnd h
    have := InsertAll_count fuel kvs (NewCuckooHash n0) t1 (NewCuckooHash_wf n0 hn) hnd
      (fun kv _ v => NewCuckooHash_not_stored n0 kv.1 v) h
    have h0 : (NewCuckooHash n0 : CuckooHash V).elementsCount = 0 := rfl
    rw [Size, this, h0]
    omega

theorem C7_insert_new_key_counts_once_witness :
    (Find tabA [98] = Res.ok none ∧ Insert 2 tabA [98] 2 = Res.ok tabAB ∧
      Size tabAB = Size tabA + 1) ∧
    (InsertAll 2 (NewCuckooHash 2) [([97], 1), ([98], 2)] = Res.ok tabAB ∧
      Size tabAB = [(([97] : Key), 1), ([98], 2)].length) :=
  ⟨⟨by decide, by decide,
      (C7_insert_new_key_counts_once 2 (by decide)).1 tabA tabAB 2 [98] 2 reach_tabA
        (by decide) (by decide)⟩,
    ⟨by decide,
      (C7_insert_new_key_counts_once 2 (by decide)).2 tabAB 2 [([97], 1), ([98], 2)]
        (by decide) (by decide)⟩⟩

theorem Remove_of_Find {t : CuckooHash V} (h : WF t) {k : Key} {r : Option V}
    (hf : Find t k = Res.ok r) : ∃ t1, Remove t k = Res.ok (t1, r.isSome) := by
  unfold Find at hf
  split at hf
  · cases hf
  · rename_i n1 hn1
    split at hf
    · rename_i hc
      cases hf
      have hrem : Remove t k = Res.ok ({ t with
          table := t.table.set (hash1 t.tableSize k) { n1 with IsOccupied := false }
          elementsCount :=
            if t.elementsCount = 0 then 2 ^ 32 - 1 else t.elementsCount - 1 }, true) := by
        unfold Remove
        rw [hn1]
        simp only []
        rw [if_pos hc]
      exact ⟨_, hrem⟩
    · rename_i hc1
      split at hf
      · cases hf
      · cases hf
      · rename_i p2 hp2
        split at hf
        · cases hf
        · rename_i n2 hn2
          split at hf
          · rename_i hc
            cases hf
            have hrem : Remove t k = Res.ok ({ t with
                table := t.table.set p2 { n2 with IsOccupied := false }
                elementsCount :=
                  if t.elementsCount = 0 then 2 ^ 32 - 1 else t.elementsCount - 1 }, true) := by
              unfold Remove
              rw [hn1]
              simp only []
              rw [if_neg hc1, hp2]
              simp only []
              rw [hn2]
              simp only []
              rw [if_pos hc]
            exact ⟨_, hrem⟩
          · rename_i hc2
            have hnew := not_stored_of_homes h hn1 hc1 hp2 hn2 hc2
            have hrem : Remove t k = Res.ok (t, false) := by
              unfold Remove
              rw [hn1]
              simp only []
              rw [if_neg hc1, hp2]
              simp only []
              rw [hn2]
              simp only []
              rw [if_neg hc2]
            have hr : r = none := by
              split at hf
              · split at hf
                · rename_i n3 hn3
                  split at hf
                  · rename_i hc
                    exact absurd ⟨_, n3, hn3, hc.1, hc.2, rfl⟩ (hnew n3.Value)
                  · cases hf
                    rfl
                · cases hf
                  rfl
              · cases hf
                rfl
            subst hr
            exact ⟨t, hrem⟩

/-- C8: on a reachable table, `Remove(k)` returns `true` exactly when `Find(k)`
was non-nil before the call; then `Size()` drops by 1 and `Find(k)` is nil
afterwards; when it returns `false` the table is unchanged. -/
theorem C8_remove [Inhabited V] (n0 : Nat) (hn : n0 < 2 ^ 32) (t : CuckooHash V)
    (hr : Reachable n0 t) (k : Key) (r : Option V) (hf : Find t k = Res.ok r) :
    ∃ t1, Remove t k = Res.ok (t1, r.isSome) ∧ t1.tableSize = t.tableSize ∧
      (r.isSome = true → Size t1 + 1 = Size t ∧ Find t1 k = Res.ok none) ∧
      (r.isSome = false → t1 = t) := by
  have hwf := hr.wf hn
  obtain ⟨t1, ht1⟩ := Remove_of_Find hwf hf
  obtain ⟨hw1, hsz, htrue, hfalse⟩ := Remove_spec hwf ht1
  refine ⟨t1, ht1, hsz, ?_, fun hb => (hfalse hb).1⟩
  intro hb
  obtain ⟨⟨v, hst⟩, hcnt, hs1⟩ := htrue hb
  refine ⟨hcnt, ?_⟩
  apply Find_none hw1
  · rw [hsz]
    exact hwf.size_two_of_stored hst
  · have h1 := hw1.len
    have h2 := hwf.len
    have h3 := hwf.len_of_stored hst
    rw [hsz] at h1 ⊢
    omega
  · intro v1 h
    exact ((hs1 k v1).1 h).1 rfl

theorem C8_remove_witness :
    ∃ t1, Remove tabAB [97] = Res.ok (t1, (some 1).isSome) ∧ t1.tableSize = tabAB.tableSize ∧
      ((some 1).isSome = true → Size t1 + 1 = Size tabAB ∧ Find t1 [97] = Res.ok none) ∧
      ((some 1).isSome = false → t1 = tabAB) :=
  C8_remove 2 (by decide) tabAB
    (Reachable.insert 2 tabA tabAB [98] 2 reach_tabA (by decide)) [97] (some 1) (by decide)

end cuckoo

namespace dhash

variable {V : Type}

/-! ## The double-hashing table: counting invariant -/

end dhash

/-! ## Load factor (C9) -/

namespace cuckoo

variable {V : Type}

theorem hash_eq_of_class {k k1 : Key} (h1 : numKey k = numKey k1)
    (h2 : byteSum k = byteSum k1) (n : Nat) :
    hash1 n k = hash1 n k1 ∧ hash2 n k = hash2 n k1 := by
  constructor
  · simp only [hash1, goldenHash, h1]
  · simp only [hash2, foldHash, h2]

theorem countP_zero_of_free (l : List (HashNode V))
    (h : ∀ (i : Nat) (nd : HashNode V), l[i]? = some nd → nd.IsOccupied = true → False) :
    l.countP (fun nd => nd.IsOccupied) = 0 := by
  rw [List.countP_eq_zero]
  intro nd hmem ho
  obtain ⟨i, hi⟩ := List.getElem?_of_mem hmem
  exact h i nd hi ho

theorem countP_le_one (l : List (HashNode V)) :
    ∀ (a : Nat), (∀ (i : Nat) (nd : HashNode V), l[i]? = some nd →
      nd.IsOccupied = true → i = a) → l.countP (fun nd => nd.IsOccupied) ≤ 1 := by
  induction l with
  | nil => intro _ _; simp
  | cons x l ih =>
    intro a h
    rw [List.countP_cons]
    cases a with
    | zero =>
      have := countP_zero_of_free l (fun i nd hi ho => by
        have := h (i + 1) nd (by simpa using hi) ho
        omega)
      split <;> omega
    | succ a =>
      have hx : ¬ (x.IsOccupied = true) := fun ho => by
        have := h 0 x (by simp) ho
        omega
      have := ih a (fun i nd hi ho => by
        have := h (i + 1) nd (by simpa using hi) ho
        omega)
      rw [if_neg hx]
      omega

theorem countP_le_two (l : List (HashNode V)) :
    ∀ (a b : Nat), (∀ (i : Nat) (nd : HashNode V), l[i]? = some nd →
      nd.IsOccupied = true → i = a ∨ i = b) → l.countP (fun nd => nd.IsOccupied) ≤ 2 := by
  induction l with
  | nil => intro _ _ _; simp
  | cons x l ih =>
    intro a b h
    rw [List.countP_cons]
    have htail : ∀ (i : Nat) (nd : HashNode V), l[i]? = some nd → nd.IsOccupied = true →
        i + 1 = a ∨ i + 1 = b := fun i nd hi ho => h (i + 1) nd (by simpa using hi) ho
    cases a with
    | zero =>
      cases b with
      | zero =>
        have := countP_zero_of_free l (fun i nd hi ho => by
          have := htail i nd hi ho
          omega)
        split <;> omega
      | succ b =>
        have := countP_le_one l b (fun i nd hi ho => by
          have := htail i nd hi ho
          omega)
        split <;> omega
    | succ a =>
      cases b with
      | zero =>
        have := countP_le_one l a (fun i nd hi ho => by
          have := htail i nd hi ho
          omega)
        split <;> omega
      | succ b =>
        have hx : ¬ (x.IsOccupied = true) := fun ho => by
          have := h 0 x (by simp) ho
          omega
        have := ih a b (fun i nd hi ho => by
          have := htail i nd hi ho
          omega)
        rw [if_neg hx]
        omega

/-- A well-formed table whose keys all have the hashes of `k0` holds at most
two elements: they share their two home slots. -/
theorem WF.count_le_two_of_class {t : CuckooHash V} (h : WF t) (k0 : Key)
    (hcl : ∀ k v, Stored t k v → numKey k = numKey k0 ∧ byteSum k = byteSum k0) :
    t.elementsCount ≤ 2 := by
  rw [h.count]
  apply countP_le_two t.table (hash1 t.tableSize k0)
    (match hash2 t.tableSize k0 with
      | Res.ok p => p
      | _ => 0)
  intro i nd hi ho
  obtain ⟨e1, e2⟩ := hcl nd.Key nd.Value ⟨i, nd, hi, ho, rfl, rfl⟩
  obtain ⟨g1, g2⟩ := hash_eq_of_class e1 e2 t.tableSize
  rcases h.homes i nd hi ho with hh | hh
  · exact Or.inl (by rw [← hh, g1])
  · right
    rw [← g2, hh]

/-- An `Insert` of a third key with the hashes of the two keys already stored
never returns. -/
theorem Insert_never_returns [Inhabited V] {t : CuckooHash V} (h : WF t) (k0 : Key)
    (hcl : ∀ k v, Stored t k v → numKey k = numKey k0 ∧ byteSum k = byteSum k0)
    (hcount : t.elementsCount = 2) (k : Key) (v : V)
    (hk : numKey k = numKey k0 ∧ byteSum k = byteSum k0) (hnew : ∀ v0, ¬ Stored t k v0)
    (fuel : Nat) (t1 : CuckooHash V) : Insert fuel t k v ≠ Res.ok t1 := by
  intro hi
  have hp := Insert_spec fuel t k v t1 h hi
  have h3 := hp.count_new hnew
  have h2 := hp.wf.count_le_two_of_class k0 (by
    intro k1 v1 hs
    rcases (hp.stored k1 v1).1 hs with ⟨e, _⟩ | ⟨_, hs1⟩
    · rw [e]
      exact hk
    · exact hcl k1 v1 hs1)
  omega

theorem reach_tabXY : Reachable 2 tabXY :=
  Reachable.insert 1 tabX tabXY keyY 2
    (Reachable.insert 1 (NewCuckooHash 2) tabX keyX 1 Reachable.new (by decide)) (by decide)

theorem tabXY_class (k : Key) (v : Nat) (hs : Stored tabXY k v) :
    numKey k = numKey keyX ∧ byteSum k = byteSum keyX := by
  obtain ⟨i, nd, hi, ho, hk, _⟩ := hs
  have hlt := lt_length_of_getElem? hi
  have h3 : i < 3 := hlt
  subst hk
  interval_cases i
  · simp [tabXY] at hi
    subst hi
    decide
  · simp [tabXY] at hi
    subst hi
    decide
  · simp [tabXY] at hi
    subst hi
    cases ho

set_option maxRecDepth 10000

/-- C10 (failing input): `"az0"`, `"bZO"` and `"c:n"` have the same `numKey`
and the same byte sum, hence the same `hash1` and `hash2` at every table size.
After `NewCuckooHash(2)`, `Insert("az0", 1)`, `Insert("bZO", 2)` the call
`Insert("c:n", 3)` never returns: with a budget of 3 nested calls it is still
running, and for no budget does it return a table. -/
theorem C10_insert_never_returns :
    Reachable 2 tabXY ∧ Insert 3 tabXY keyZ 3 = Res.fuelOut ∧
      ∀ (fuel : Nat) (t1 : CuckooHash Nat), Insert fuel tabXY keyZ 3 ≠ Res.ok t1 := by
  refine ⟨reach_tabXY, by decide, ?_⟩
  intro fuel t1
  apply Insert_never_returns (reach_tabXY.wf (by decide)) keyX tabXY_class (by decide) keyZ 3
    (by decide)
  intro v0 hs
  have hwf := reach_tabXY.wf (by decide)
  have hf := Find_of_stored hwf hs
  have hnone : Find tabXY keyZ = Res.ok none := by decide
  rw [hnone] at hf
  cases hf

end cuckoo

/-! ## The hash functions (C13, C14, C15) -/

/-- C13: for every key and every `tableSize ≥ 2`, `hash2` of the cuckoo table
and `hash2` of the double-hashing table return a value `r` with
`1 ≤ r ≤ tableSize - 1`. -/
theorem C13_hash2_range (n : Nat) (key : Key) (h2 : 2 ≤ n) (hn : n < 2 ^ 32) :
    (∃ r, cuckoo.hash2 n key = Res.ok r ∧ 1 ≤ r ∧ r ≤ n - 1) ∧
    (∃ r, dhash.hash2 n key = Res.ok r ∧ 1 ≤ r ∧ r ≤ n - 1) := by
  obtain ⟨r, hr, h1, hlt⟩ := foldHash_range n key h2 hn
  exact ⟨⟨r, hr, h1, by omega⟩, ⟨r, hr, h1, by omega⟩⟩

theorem C13_hash2_range_witness :
    (∃ r, cuckoo.hash2 100 [100] = Res.ok r ∧ 1 ≤ r ∧ r ≤ 100 - 1) ∧
    (∃ r, dhash.hash2 100 [100] = Res.ok r ∧ 1 ≤ r ∧ r ≤ 100 - 1) :=
  C13_hash2_range 100 [100] (by decide) (by decide)

/-- C14: for every key and every even `tableSize ≥ 2`, `hash2` returns an odd
value; with `tableSize` 100 the key `"d"` gives 3. -/
theorem C14_hash2_parity (n : Nat) (key : Key) (h2 : 2 ≤ n) (hn : n < 2 ^ 32)
    (he : n % 2 = 0) :
    (∃ r, cuckoo.hash2 n key = Res.ok r ∧ r % 2 = 1) ∧
      cuckoo.hash2 100 [100] = Res.ok 3 := by
  refine ⟨?_, by decide⟩
  unfold cuckoo.hash2 foldHash
  have hm : (if n = 0 then 2 ^ 32 - 1 else n - 1) = n - 1 := by
    rw [if_neg (by omega)]
  rw [hm]
  have hlt : byteSum key % (n - 1) < n - 1 := Nat.mod_lt _ (by omega)
  simp only []
  split
  · omega
  · split
    · rename_i hpar
      exact ⟨_, rfl, by omega⟩
    · rename_i hpar
      exact ⟨_, rfl, by omega⟩

theorem C14_hash2_parity_witness :
    (∃ r, cuckoo.hash2 100 [100] = Res.ok r ∧ r % 2 = 1) ∧
      cuckoo.hash2 100 [100] = Res.ok 3 :=
  C14_hash2_parity 100 [100] (by decide) (by decide) (by decide)

/-- C15: for every key and every `tableSize ≥ 1`, `hash1` of the cuckoo table
and `hash1` of the double-hashing table return an index below `tableSize`. -/
theorem C15_hash1_range (n : Nat) (key : Key) (h1 : 1 ≤ n) :
    cuckoo.hash1 n key < n ∧ dhash.hash1 n key < n :=
  ⟨goldenHash_lt cuckoo.A n key h1, goldenHash_lt dhash.A n key h1⟩

theorem C15_hash1_range_witness :
    cuckoo.hash1 11 [107, 101, 121, 49] < 11 ∧ dhash.hash1 11 [107, 101, 121, 49] < 11 :=
  C15_hash1_range 11 [107, 101, 121, 49] (by decide)

namespace cuckoo

variable {V : Type}

/-! ## `Find` and the slot 49 (C11), table sizes that panic (C12), the scenario of C17 -/

set_option maxRecDepth 10000

/-- C11 (as stated, refuted): in the table of size 120 whose only occupied slot
is slot 49, holding the key `":"`, neither home of `":"` (slots 101 and 59)
holds the key, and `Find(":")` returns the value 777 of slot 49. -/
theorem C11_find_slot49_counterexample :
    hash1 magicTab.tableSize [58] = 101 ∧ hash2 magicTab.tableSize [58] = Res.ok 59 ∧
      slotHolds magicTab 101 [58] = false ∧ slotHolds magicTab 59 [58] = false ∧
      Find magicTab [58] = Res.ok (some 777) := by
  refine ⟨by decide, by decide, by decide, by decide, by decide⟩

/-- C11 (amended): in every table state with `2 ≤ tableSize` and
`tableSize + 1` slots, if neither home slot of `k` is occupied with key `k`,
and slot 49 is not occupied with key `k` in case `hash1(k) = 99` or
`hash2(k) = 59`, then `Find(k)` returns nil. -/
theorem C11_find_two_homes_or_slot49 (t : CuckooHash V) (k : Key)
    (h2 : 2 ≤ t.tableSize) (hn : t.tableSize < 2 ^ 32)
    (hlen : t.table.length = t.tableSize + 1)
    (hh1 : slotHolds t (hash1 t.tableSize k) k = false)
    (hh2 : ∀ p, hash2 t.tableSize k = Res.ok p → slotHolds t p k = false)
    (h49 : hash1 t.tableSize k = 99 ∨ hash2 t.tableSize k = Res.ok 59 →
      slotHolds t 49 k = false) :
    Find t k = Res.ok none := by
  have hlt := hash1_lt t.tableSize k (by omega)
  obtain ⟨p2, hp2, _, hp2lt⟩ := hash2_range t.tableSize k h2 hn
  obtain ⟨n1, hn1⟩ : ∃ n1, t.table[hash1 t.tableSize k]? = some n1 :=
    ⟨t.table[hash1 t.tableSize k], List.getElem?_eq_getElem (by omega)⟩
  obtain ⟨n2, hn2⟩ : ∃ n2, t.table[p2]? = some n2 :=
    ⟨t.table[p2], List.getElem?_eq_getElem (by omega)⟩
  have hh2 := hh2 p2 hp2
  unfold slotHolds at hh1 hh2
  rw [hn1] at hh1
  rw [hn2] at hh2
  simp only [Bool.and_eq_false_imp, decide_eq_false_iff_not] at hh1 hh2
  unfold Find
  rw [hn1]
  simp only []
  rw [if_neg (fun hc => hh1 hc.1 hc.2), hp2]
  simp only []
  rw [hn2]
  simp only []
  rw [if_neg (fun hc => hh2 hc.1 hc.2)]
  split
  · rename_i hc
    have h3 := h49 (by
      rcases hc with hc | hc
      · exact Or.inl hc
      · exact Or.inr (by rw [hp2, hc]))
    unfold slotHolds at h3
    split
    · rename_i n3 hn3
      rw [hn3] at h3
      simp only [Bool.and_eq_false_imp, decide_eq_false_iff_not] at h3
      rw [if_neg (fun hc => h3 hc.1 hc.2)]
    · rfl
  · rfl

theorem C11_find_two_homes_or_slot49_witness :
    slotHolds tabAB (hash1 tabAB.tableSize [100]) [100] = false ∧
      Find tabAB [100] = Res.ok none :=
  ⟨by decide,
    C11_find_two_homes_or_slot49 tabAB [100] (by decide) (by decide) (by decide) (by decide)
      (fun p hp => by
        have h : hash2 tabAB.tableSize [100] = Res.ok 1 := by decide
        rw [h] at hp
        cases hp
        decide)
      (fun _ => by decide)⟩

/-- C12 (failing input): on `NewCuckooHash(1)` the modulus `tableSize - 1` of
`hash2` is zero: every `Insert`, `Find` and `Remove` panics.  On
`NewCuckooHash(4294967295)` the slot array has length `size + 1 = 0` in
`uint32`, and `Find` panics on its first index. -/
theorem C12_size_one_panics [Inhabited V] (k : Key) :
    (∀ (fuel : Nat) (v : V), Insert (fuel + 1) (NewCuckooHash 1) k v = Res.fault) ∧
      Find (NewCuckooHash 1 : CuckooHash V) k = Res.fault ∧
      Remove (NewCuckooHash 1 : CuckooHash V) k = Res.fault ∧
      (NewCuckooHash 4294967295 : CuckooHash V).table = [] ∧
      Find (NewCuckooHash 4294967295 : CuckooHash V) k = Res.fault := by
  have h0 : hash1 1 k = 0 := by
    have := hash1_lt 1 k (by omega)
    omega
  have ht : (NewCuckooHash 1 : CuckooHash V) =
      { table := [zeroNode, zeroNode], tableSize := 1, elementsCount := 0 } := rfl
  have hbig : (NewCuckooHash 4294967295 : CuckooHash V) =
      { table := [], tableSize := 4294967295, elementsCount := 0 } := rfl
  refine ⟨?_, ?_, ?_, ?_, ?_⟩
  · intro fuel v
    rw [Insert, ht]
    simp [h0, zeroNode, hash2, foldHash_one]
  · rw [ht]
    simp [Find, h0, zeroNode, hash2, foldHash_one]
  · rw [ht]
    simp [Remove, h0, zeroNode, hash2, foldHash_one]
  · rw [hbig]
  · rw [hbig]
    simp [Find]

/-- C17: on `NewCuckooHash(2)`, after `Insert("a",1)`, `Insert("b",2)`,
`Insert("c",3)`, `Insert("d",4)`, `Insert("e",5)` in this order, `Size()` is 5
and `Find("c")` returns 3. -/
theorem C17_concrete_scenario :
    InsertAll 2 (NewCuckooHash 2) [([97], 1), ([98], 2), ([99], 3), ([100], 4), ([101], 5)] =
        Res.ok tabAE ∧
      Size tabAE = 5 ∧ Find tabAE [99] = Res.ok (some 3) := by
  refine ⟨by decide, by decide, by decide⟩

end cuckoo

namespace dhash

/-! ## Removal without tombstones (C18, C19) and the probe cycle (C20) -/

theorem reach_tab5ad : Reachable 5 tab5ad :=
  Reachable.insert 1 tab5a tab5ad [100] 2 false
    (Reachable.insert 1 tab5 tab5a [97] 1 false (Reachable.new tab5 (by decide)) (by decide))
    (by decide)

/-- C18 (failing input): `NewDoubleHash(5)`, `Insert("a", 1)`, `Insert("d", 2)`
(both keys have `hash1 = 4`, so `"d"` is stored at its second probe, slot 0),
`Remove("a")`: the key `"d"` is still stored in slot 0, but `Find("d")` stops
at the freed slot 4 and returns nil. -/
theorem C18_lookup_lost_after_remove :
    Reachable 5 tab5ad ∧ Find tab5ad [100] = Res.ok (some 2) ∧
      Remove tab5ad [97] = Res.ok (tab5d, true) ∧
      tab5d.table[0]? = some ⟨[100], 2, true⟩ ∧
      Find tab5d [100] = Res.ok none := by
  refine ⟨reach_tab5ad, by decide, by decide, by decide, by decide⟩

/-- C19 (failing input): after `NewDoubleHash(5)`, `Insert("a", 1)`,
`Insert("d", 2)`, `Remove("a")`, the call `Insert("d", 9)` stores the key in
the freed slot 4 although slot 0 still holds it: two occupied slots hold
`"d"`, and `Size()` is 2. -/
theorem C19_duplicate_key_after_remove :
    Reachable 5 tab5dd ∧ Insert 1 tab5d [100] 9 = Res.ok (tab5dd, false) ∧
      tab5dd.table[0]? = some ⟨[100], 2, true⟩ ∧
      tab5dd.table[4]? = some ⟨[100], 9, true⟩ ∧ Size tab5dd = 2 := by
  refine ⟨?_, by decide, by decide, by decide, by decide⟩
  exact Reachable.insert 1 tab5d tab5dd [100] 9 false
    (Reachable.remove tab5ad tab5d [97] true reach_tab5ad (by decide)) (by decide)

/-- C20 (failing input): after `NewDoubleHash(9)`, `Insert("D", 1)`,
`Insert("C", 2)`, `Insert("J", 3)` the key `"z"` has `hash1 = 3` and
`hash2 = 3`: its nine probes visit only the slots 3, 6 and 0, which are
occupied, and `Insert("z", 4)` returns the error "Hash table is full" while
slot 1 (like five others) is free. -/
theorem C20_table_full_with_free_slots :
    NewDoubleHash 9 = some tab9 ∧
      InsertAll 1 tab9 [([68], 1), ([67], 2), ([74], 3)] = Res.ok tab9DCJ ∧
      hash1 9 [122] = 3 ∧ hash2 9 [122] = Res.ok 3 ∧
      Insert 1 tab9DCJ [122] 4 = Res.ok (tab9DCJ, true) ∧
      tab9DCJ.table[1]? = some ⟨[], 0, false⟩ := by
  refine ⟨by decide, by decide, by decide, by decide, by decide, by decide⟩

end dhash

namespace cuckoo

variable {V : Type}

/-! ## Table sizes under `resize` (C16) -/

theorem grow_odd (n : Nat) : grow n % 2 = 1 := by
  unfold grow
  omega

theorem grow_iterate_odd (n j : Nat) (hj : 1 ≤ j) : grow^[j] n % 2 = 1 := by
  obtain ⟨i, rfl⟩ : ∃ i, j = i + 1 := ⟨j - 1, by omega⟩
  rw [Function.iterate_succ_apply']
  exact grow_odd _

theorem grow_of_lt (n : Nat) (h : n < 2 ^ 31) : grow n = 2 * n + 1 := by
  unfold grow
  omega

theorem evict_size (r : Nat) : ∀ (s : CuckooHash V) (cur : HashNode V) (pos : Nat)
    (out : LoopOut V), evict r s cur pos = Res.ok out → out.tab.tableSize = s.tableSize := by
  induction r with
  | zero =>
    intro s cur pos out he
    simp only [evict] at he
    cases he
    rfl
  | succ r ih =>
    intro s cur pos out he
    rw [evict] at he
    split at he
    · cases he
    · split at he
      · cases he
        rfl
      · split at he
        · have := ih _ _ _ out he
          exact this
        · cases he
        · cases he

theorem rehash_size (ins : CuckooHash V → Key → V → Res (CuckooHash V)) (hins : SizeSpec ins)
    (old : List (HashNode V)) :
    ∀ (r i : Nat) (cur t1 : CuckooHash V), rehash ins old r i cur = Res.ok t1 →
      ∃ j, t1.tableSize = grow^[j] cur.tableSize := by
  intro r
  induction r with
  | zero =>
    intro i cur t1 hr
    simp only [rehash] at hr
    cases hr
    exact ⟨0, rfl⟩
  | succ r ih =>
    intro i cur t1 hr
    rw [rehash] at hr
    split at hr
    · cases hr
    · rename_i nd hnd
      split at hr
      · split at hr
        · rename_i ch1 hch1
          obtain ⟨j1, hj1⟩ := hins cur nd.Key nd.Value ch1 hch1
          obtain ⟨j2, hj2⟩ := ih (i + 1) ch1 t1 hr
          exact ⟨j2 + j1, by rw [hj2, hj1, Function.iterate_add_apply]⟩
        · cases hr
        · cases hr
      · exact ih (i + 1) cur t1 hr

theorem resizeWith_size [Inhabited V] (ins : CuckooHash V → Key → V → Res (CuckooHash V))
    (hins : SizeSpec ins) (t t1 : CuckooHash V) (hr : resizeWith ins t = Res.ok t1) :
    ∃ j, t1.tableSize = grow^[j + 1] t.tableSize := by
  unfold resizeWith at hr
  obtain ⟨j, hj⟩ := rehash_size ins hins t.table t.tableSize 0 _ t1 hr
  exact ⟨j, by rw [hj, Function.iterate_succ_apply]; rfl⟩

theorem Insert_size [Inhabited V] (fuel : Nat) :
    SizeSpec (Insert fuel : CuckooHash V → Key → V → Res (CuckooHash V)) := by
  induction fuel with
  | zero =>
    intro t k v t1 h
    simp [Insert] at h
  | succ fuel ih =>
    intro t k v t1 h
    rw [Insert] at h
    split at h
    · cases h
    · split at h
      · cases h
        exact ⟨0, rfl⟩
      · split at h
        · cases h
        · cases h
        · split at h
          · cases h
          · split at h
            · cases h
              exact ⟨0, rfl⟩
            · split at h
              · cases h
              · cases h
              · rename_i ch1 hg
                have hg1 : ∃ j, ch1.tableSize = grow^[j] t.tableSize := by
                  split at hg
                  · obtain ⟨j, hj⟩ := resizeWith_size _ ih t ch1 hg
                    exact ⟨j + 1, hj⟩
                  · cases hg
                    exact ⟨0, rfl⟩
                obtain ⟨j1, hj1⟩ := hg1
                split at h
                · cases h
                · cases h
                · rename_i ch2 hev
                  cases h
                  have := evict_size _ _ _ _ _ hev
                  exact ⟨j1, by rw [← hj1]; exact this⟩
                · rename_i ch2 cur hev
                  have he := evict_size _ _ _ _ _ hev
                  split at h
                  · cases h
                  · cases h
                  · rename_i ch3 hrs
                    obtain ⟨j2, hj2⟩ := resizeWith_size _ ih ch2 ch3 hrs
                    obtain ⟨j3, hj3⟩ := ih ch3 cur.Key cur.Value t1 h
                    have he1 : ch2.tableSize = ch1.tableSize := he
                    refine ⟨j3 + ((j2 + 1) + j1), ?_⟩
                    rw [hj3, hj2, he1, hj1, ← Function.iterate_add_apply,
                      ← Function.iterate_add_apply, Nat.add_assoc]

/-- With no budget left for the nested `Insert`, the loop of `resize` cannot
get past an occupied slot. -/
theorem rehash_stuck [Inhabited V] (old : List (HashNode V)) :
    ∀ (r i : Nat) (cur t1 : CuckooHash V),
      (∃ (j : Nat) (nd : HashNode V), i ≤ j ∧ j < i + r ∧ old[j]? = some nd ∧
        nd.IsOccupied = true) →
      rehash (Insert 0) old r i cur ≠ Res.ok t1 := by
  intro r
  induction r with
  | zero =>
    rintro i cur t1 ⟨j, nd, h1, h2, _⟩
    omega
  | succ r ih =>
    rintro i cur t1 ⟨j, nd, h1, h2, hj, ho⟩ hr
    rw [rehash] at hr
    split at hr
    · cases hr
    · rename_i nd0 hnd0
      split at hr
      · simp [Insert] at hr
      · rename_i hfree
        have hne : j ≠ i := by
          intro e
          subst e
          rw [hnd0] at hj
          cases hj
          exact hfree ho
        exact ih (i + 1) cur t1 ⟨j, nd, by omega, by omega, hj, ho⟩ hr

/-- With a budget of one call, `Insert` cannot resize: the table size stays. -/
theorem Insert_one_size [Inhabited V] {t t1 : CuckooHash V} {k : Key} {v : V} (hwf : WF t)
    (h : Insert 1 t k v = Res.ok t1) : t1.tableSize = t.tableSize := by
  rw [Insert] at h
  split at h
  · cases h
  · split at h
    · cases h
      rfl
    · split at h
      · cases h
      · cases h
      · split at h
        · cases h
        · split at h
          · cases h
            rfl
          · split at h
            · cases h
            · cases h
            · rename_i ch1 hg
              have hg1 : ch1 = t := by
                split at hg
                · rename_i hneed
                  exfalso
                  have hpos : 0 < t.elementsCount := by
                    simp [needResize] at hneed
                    omega
                  obtain ⟨k0, v0, i, nd, hi, ho, _⟩ := hwf.exists_of_count_pos hpos
                  unfold resizeWith at hg
                  exact rehash_stuck t.table t.tableSize 0 _ ch1
                    ⟨i, nd, by omega, by have := hwf.occ_lt hi ho; omega, hi, ho⟩ hg
                · cases hg
                  rfl
              subst hg1
              split at h
              · cases h
              · cases h
              · rename_i ch2 hev
                cases h
                exact evict_size _ _ _ _ _ hev
              · split at h
                · cases h
                · cases h
                · simp [Insert] at h

theorem rehash_keep (ins : CuckooHash V → Key → V → Res (CuckooHash V)) (hins : InsSpec ins)
    (hkeep : ∀ (t : CuckooHash V) (k : Key) (v : V) (t1 : CuckooHash V), WF t →
      ins t k v = Res.ok t1 → t1.tableSize = t.tableSize)
    (old : List (HashNode V)) :
    ∀ (r i : Nat) (cur t1 : CuckooHash V), WF cur → rehash ins old r i cur = Res.ok t1 →
      t1.tableSize = cur.tableSize := by
  intro r
  induction r with
  | zero =>
    intro i cur t1 _ hr
    simp only [rehash] at hr
    cases hr
    rfl
  | succ r ih =>
    intro i cur t1 hwf hr
    rw [rehash] at hr
    split at hr
    · cases hr
    · rename_i nd hnd
      split at hr
      · split at hr
        · rename_i ch1 hch1
          rw [ih (i + 1) ch1 t1 (hins cur nd.Key nd.Value ch1 hwf hch1).wf hr]
          exact hkeep cur nd.Key nd.Value ch1 hwf hch1
        · cases hr
        · cases hr
      · exact ih (i + 1) cur t1 hwf hr

/-- With a budget of one call for each re-insertion, no nested `resize` takes
place and the new size is exactly `grow tableSize`. -/
theorem resize_one_size [Inhabited V] {t t1 : CuckooHash V} (hr : resize 1 t = Res.ok t1) :
    t1.tableSize = grow t.tableSize := by
  unfold resize resizeWith at hr
  have := rehash_keep (Insert 1) (Insert_spec 1)
    (fun t k v t1 hwf h => Insert_one_size hwf h) t.table t.tableSize 0 _ t1
    (fresh_wf _ (by omega) (Nat.mod_lt _ (by norm_num))) hr
  rw [this]
  rfl

theorem rehash_free (ins : CuckooHash V → Key → V → Res (CuckooHash V))
    (old : List (HashNode V))
    (hfree : ∀ (j : Nat) (nd : HashNode V), old[j]? = some nd → nd.IsOccupied = false) :
    ∀ (r i : Nat) (cur : CuckooHash V), i + r ≤ old.length →
      rehash ins old r i cur = Res.ok cur := by
  intro r
  induction r with
  | zero =>
    intro i cur _
    simp only [rehash]
  | succ r ih =>
    intro i cur hlen
    rw [rehash]
    have hi : old[i]? = some old[i] := List.getElem?_eq_getElem (by omega)
    rw [hi]
    simp only []
    rw [if_neg (by rw [hfree i _ hi]; simp)]
    exact ih (i + 1) cur (by omega)

end cuckoo

/-! ## Load factor before placement (C9) -/

namespace dhash

variable {V : Type}

end dhash

namespace cuckoo

variable {V : Type}

end cuckoo

namespace cuckoo

variable {V : Type}

set_option maxRecDepth 10000

/-- On a table of size `2^31` whose slots are all free, the eviction loop of
`Insert` has `2 * tableSize = 0` iterations in `uint32`, the fallback resizes
the table to size 1, and the re-issued `Insert` panics on the zero modulus of
`hash2`. -/
theorem Insert_size_two_pow_31 (fuel s : Nat) (hs : s = 2147483648) (L : List (HashNode Nat))
    (hlen : L.length = s + 1)
    (hfree : ∀ (j : Nat) (nd : HashNode Nat), L[j]? = some nd → nd.IsOccupied = false) :
    Insert (fuel + 2) { table := L, tableSize := s, elementsCount := 0 } [97] 1
      = Res.fault := by
  have h1 : hash1 s [97] = 2038599588 := by
    rw [hs]
    decide
  have h2 : hash2 s [97] = Res.ok 99 := by
    rw [hs]
    decide
  have hl1 : 2038599588 < L.length := by omega
  have hl2 : 99 < L.length := by omega
  have g1 : L[2038599588]? = some (L.get ⟨_, hl1⟩) := List.getElem?_eq_getElem hl1
  have g2 : L[99]? = some (L.get ⟨_, hl2⟩) := List.getElem?_eq_getElem hl2
  generalize L.get ⟨_, hl1⟩ = n1 at g1
  generalize L.get ⟨_, hl2⟩ = n2 at g2
  have c1 : ¬ (n1.IsOccupied = true ∧ n1.Key = [97]) := by
    intro h
    rw [hfree _ _ g1] at h
    cases h.1
  have c2 : ¬ (n2.IsOccupied = true ∧ n2.Key = [97]) := by
    intro h
    rw [hfree _ _ g2] at h
    cases h.1
  have e1 : (s * 2 + 1) % 2 ^ 32 = 1 := by omega
  have e0 : s * 2 % 2 ^ 32 = 0 := by omega
  have hres : resizeWith (Insert (fuel + 1))
      ({ table := L, tableSize := s, elementsCount := 0 } : CuckooHash Nat) =
      Res.ok { table := [zeroNode, zeroNode], tableSize := 1, elementsCount := 0 } := by
    unfold resizeWith
    rw [rehash_free (Insert (fuel + 1)) L hfree s 0 _ (by omega)]
    simp only [e1]
    rfl
  have h0 : hash1 1 [97] = 0 := by decide
  have hone : Insert (fuel + 1)
      ({ table := [zeroNode, zeroNode], tableSize := 1, elementsCount := 0 } : CuckooHash Nat)
      [97] 1 = Res.fault := by
    rw [Insert]
    simp [h0, zeroNode, hash2, foldHash_one]
  have hnr : needResize ({ table := L, tableSize := s, elementsCount := 0 } :
      CuckooHash Nat) = false := by
    unfold needResize
    simp
  rw [Insert]
  simp only []
  rw [h1, g1]
  simp only []
  rw [if_neg c1, h2]
  simp only []
  rw [g2]
  simp only []
  rw [if_neg c2, hnr]
  simp only [Bool.false_eq_true, if_false]
  rw [e0]
  simp only [evict]
  rw [hres]
  simp only []
  exact hone

/-- C16 (failing input): `tableSize*2 + 1` is computed in `uint32`.  On the
empty table that `NewCuckooHash(2147483648)` returns, the call `resize()`
returns a table of size 1, not of size at least `2*2147483648 + 1`, and
`Find("a")`, which returned nil before, panics afterwards on the zero modulus
of `hash2`.  `Insert("a", 1)` on that table reaches this `resize()` (its
eviction loop has `2 * tableSize = 0` iterations) and panics. -/
theorem C16_resize_overflow :
    (∃ t1 : CuckooHash Nat,
      resize 0 (NewCuckooHash 2147483648) = Res.ok t1 ∧ t1.tableSize = 1 ∧
      ¬ (2 * (NewCuckooHash 2147483648 : CuckooHash Nat).tableSize + 1 ≤ t1.tableSize) ∧
      Find (NewCuckooHash 2147483648 : CuckooHash Nat) [97] = Res.ok none ∧
      Find t1 [97] = Res.fault) ∧
    ∀ fuel, Insert (fuel + 2) (NewCuckooHash 2147483648 : CuckooHash Nat) [97] 1 = Res.fault := by
  have hsz : (NewCuckooHash 2147483648 : CuckooHash Nat).tableSize = 2147483648 := rfl
  have htab : (NewCuckooHash 2147483648 : CuckooHash Nat).table =
      List.replicate 2147483649 zeroNode := rfl
  have hlen : (NewCuckooHash 2147483648 : CuckooHash Nat).table.length = 2147483649 := by
    rw [htab, List.length_replicate]
  have hfree : ∀ (j : Nat) (nd : HashNode Nat),
      (NewCuckooHash 2147483648 : CuckooHash Nat).table[j]? = some nd →
      nd.IsOccupied = false := by
    intro j nd hj
    rw [htab] at hj
    exact replicate_zero_getElem? hj
  constructor
  · refine ⟨{ table := [zeroNode, zeroNode], tableSize := 1, elementsCount := 0 }, ?_, rfl, ?_,
      ?_, by decide⟩
    · unfold resize resizeWith
      rw [rehash_free (Insert 0) _ hfree _ 0 _ (by rw [hlen, hsz]; omega)]
      rfl
    · rw [hsz]
      show ¬ (2 * 2147483648 + 1 ≤ 1)
      omega
    · exact Find_none (NewCuckooHash_wf _ (by norm_num)) (by rw [hsz]; omega)
        (by rw [hlen, hsz]) (fun v => NewCuckooHash_not_stored _ _ v)
  · intro fuel
    exact Insert_size_two_pow_31 fuel (NewCuckooHash 2147483648 : CuckooHash Nat).tableSize hsz
      (NewCuckooHash 2147483648 : CuckooHash Nat).table (by rw [hlen, hsz]) hfree

/-- On an empty well-formed table `resize()` returns the fresh table of size
`grow tableSize`. -/
theorem resize_empty [Inhabited V] (fuel : Nat) {t t1 : CuckooHash V} (hwf : WF t)
    (hts : t.tableSize + 1 < 2 ^ 32) (hc : t.elementsCount = 0)
    (hres : resize fuel t = Res.ok t1) :
    t1 = { table := List.replicate ((grow t.tableSize + 1) % 2 ^ 32) zeroNode
           tableSize := grow t.tableSize
           elementsCount := 0 } := by
  have hfree : ∀ (j : Nat) (nd : HashNode V), t.table[j]? = some nd →
      nd.IsOccupied = false := by
    intro j nd hj
    cases ho : nd.IsOccupied with
    | false => rfl
    | true =>
      have := hwf.count_pos_of_stored ⟨j, nd, hj, ho, rfl, rfl⟩
      omega
  have hlen : t.table.length = t.tableSize + 1 := by
    rw [hwf.len, Nat.mod_eq_of_lt hts]
  unfold resize resizeWith at hres
  rw [rehash_free (Insert fuel) t.table hfree t.tableSize 0 _ (by omega)] at hres
  cases hres
  rfl

/-- On a reachable table, a returning `resize()` yields a table whose size is
`grow` applied `j ≥ 1` times to the old size (`grow s = (2*s + 1) mod 2^32`),
hence odd; it is exactly `grow s` when the re-insertions have no budget for a
nested `resize`, and `grow s = 2*s + 1` for `s < 2^31`.  `elementsCount` is
unchanged, and `Find` returns the same result for every key when the table is
not empty or its size is at least 2 and below `2^31 - 1`. -/
theorem resize_reachable [Inhabited V] (n0 : Nat) (hn : n0 < 2 ^ 32) (t t1 : CuckooHash V)
    (fuel : Nat) (hr : Reachable n0 t) (hres : resize fuel t = Res.ok t1) :
    (∃ j, 1 ≤ j ∧ t1.tableSize = grow^[j] t.tableSize) ∧
      t1.tableSize % 2 = 1 ∧
      (fuel = 1 → t1.tableSize = grow t.tableSize) ∧
      (t.tableSize < 2 ^ 31 → grow t.tableSize = 2 * t.tableSize + 1) ∧
      t1.elementsCount = t.elementsCount ∧
      (0 < t.elementsCount ∨ (2 ≤ t.tableSize ∧ t.tableSize + 1 < 2 ^ 31) →
        ∀ k, Find t1 k = Find t k) := by
  have hwf := hr.wf hn
  obtain ⟨j, hj⟩ := resizeWith_size _ (Insert_size fuel) t t1 hres
  obtain ⟨hw1, hs1, hc1⟩ := resizeWith_spec _ (Insert_spec fuel) t t1 hwf hres
  refine ⟨⟨j + 1, by omega, hj⟩, ?_, ?_, grow_of_lt _, hc1, ?_⟩
  · rw [hj]
    exact grow_iterate_odd _ _ (by omega)
  · intro hf
    subst hf
    exact resize_one_size hres
  · intro hcase k
    by_cases hpos : 0 < t.elementsCount
    · obtain ⟨k0, v0, hst⟩ := hwf.exists_of_count_pos hpos
      have hst1 := (hs1 k0 v0).2 hst
      by_cases hs : ∃ v, Stored t k v
      · obtain ⟨v, hv⟩ := hs
        rw [Find_of_stored hwf hv, Find_of_stored hw1 ((hs1 k v).2 hv)]
      · have hs0 : ∀ v, ¬ Stored t k v := fun v h => hs ⟨v, h⟩
        have hs2 : ∀ v, ¬ Stored t1 k v := fun v h => hs0 v ((hs1 k v).1 h)
        rw [Find_none hwf (hwf.size_two_of_stored hst) (hwf.len_of_stored hst) hs0,
          Find_none hw1 (hw1.size_two_of_stored hst1) (hw1.len_of_stored hst1) hs2]
    · have hc0 : t.elementsCount = 0 := by omega
      obtain ⟨h2, h31⟩ : 2 ≤ t.tableSize ∧ t.tableSize + 1 < 2 ^ 31 := by
        rcases hcase with h | h
        · exact absurd h hpos
        · exact h
      have hs0 : ∀ v, ¬ Stored t k v := by
        intro v hv
        have := hwf.count_pos_of_stored hv
        omega
      have hs2 : ∀ v, ¬ Stored t1 k v := fun v h => hs0 v ((hs1 k v).1 h)
      have he := resize_empty fuel hwf (by omega) hc0 hres
      have hg := grow_of_lt t.tableSize (by omega)
      have hsz : t1.tableSize = 2 * t.tableSize + 1 := by
        rw [he]
        exact hg
      have hl1 : t1.table.length = t1.tableSize + 1 := by
        rw [hsz, he]
        show (List.replicate ((grow t.tableSize + 1) % 2 ^ 32) (zeroNode : HashNode V)).length
          = _
        rw [List.length_replicate, hg]
        omega
      have hl : t.table.length = t.tableSize + 1 := by
        rw [hwf.len]
        omega
      rw [Find_none hwf h2 hl hs0, Find_none hw1 (by omega) hl1 hs2]

end cuckoo

namespace dhash

set_option maxRecDepth 10000

/-- C21 (failing input): `NewDoubleHash(7)` followed by `Insert("s", 1)`,
`Insert("e", 2)`, `Insert("k", 3)`, `Insert("T", 4)`, `Insert("W", 5)`,
`Insert("w", 6)`: every call returns nil, and `"k"` is found with 3 after the
first five.  The sixth call resizes to 15; in the new table `"k"` has
`hash1 = 1` and `hash2 = 10`, its probes visit only the slots 1, 11 and 6,
which are taken, and `resize` drops the error: afterwards `Size()` is 5 and
`Find("k")` is nil. -/
theorem C21_key_lost_in_resize :
    NewDoubleHash 7 = some tab7 ∧
      InsertSeq 1 tab7 [([115], 1), ([101], 2), ([107], 3), ([84], 4), ([87], 5)] =
        Res.ok (tab7five, false) ∧
      Find tab7five [107] = Res.ok (some 3) ∧
      InsertSeq 2 tab7
          [([115], 1), ([101], 2), ([107], 3), ([84], 4), ([87], 5), ([119], 6)] =
        Res.ok (tab15, false) ∧
      hash1 15 [107] = 1 ∧ hash2 15 [107] = Res.ok 10 ∧
      Size tab15 = 5 ∧ Find tab15 [107] = Res.ok none := by
  refine ⟨by decide, by decide, by decide, by decide, by decide, by decide, by decide,
    by decide⟩

variable {V : Type}

/-- C23: `NewDoubleHash(size)` returns the error (and no table) exactly for
`size == 0`; for every `size > 0` it returns a table with `tableSize == size`,
every slot unoccupied, `Size() == 0` and `Empty()` true. -/
theorem C23_new_double_hash [Inhabited V] (size : Nat) :
    ((NewDoubleHash size : Option (DoubleHash V)) = none ↔ size = 0) ∧
      (0 < size → ∃ dh : DoubleHash V, NewDoubleHash size = some dh ∧
        dh.tableSize = size ∧ (∀ nd ∈ dh.table, nd.IsOccupied = false) ∧
        Size dh = 0 ∧ Empty dh = true) := by
  constructor
  · unfold NewDoubleHash
    by_cases h : size = 0
    · simp [h]
    · simp [h]
  · intro h
    have h0 : size ≠ 0 := by omega
    refine ⟨{ table := List.replicate ((size + 1) % 2 ^ 32) zeroNode, tableSize := size,
              elementsCount := 0 }, by rw [NewDoubleHash, if_neg h0], rfl, ?_, rfl, rfl⟩
    intro nd hnd
    rw [List.eq_of_mem_replicate hnd]
    rfl

theorem C23_new_double_hash_witness :
    ((NewDoubleHash 10 : Option (DoubleHash Nat)) = none ↔ 10 = 0) ∧
      (0 < 10 → ∃ dh : DoubleHash Nat, NewDoubleHash 10 = some dh ∧
        dh.tableSize = 10 ∧ (∀ nd ∈ dh.table, nd.IsOccupied = false) ∧
        Size dh = 0 ∧ Empty dh = true) :=
  C23_new_double_hash 10

end dhash

namespace cuckoo

variable {V : Type}

/-- C22 (failing input): `NewCuckooHash(4294967295)` has
`tableSize == 4294967295`, but `size + 1` is computed in `uint32` and the slot
array has no slot at all (not `tableSize + 1`); `Find` panics on its first
index. -/
theorem C22_max_size_no_slots :
    (NewCuckooHash 4294967295 : CuckooHash Nat).tableSize = 4294967295 ∧
      (NewCuckooHash 4294967295 : CuckooHash Nat).table = [] ∧
      (NewCuckooHash 4294967295 : CuckooHash Nat).table.length ≠
        (NewCuckooHash 4294967295 : CuckooHash Nat).tableSize + 1 ∧
      Find (NewCuckooHash 4294967295 : CuckooHash Nat) [97] = Res.fault := by
  have hbig : (NewCuckooHash 4294967295 : CuckooHash Nat) =
      { table := [], tableSize := 4294967295, elementsCount := 0 } := rfl
  rw [hbig]
  refine ⟨rfl, rfl, ?_, ?_⟩
  · show (0 : Nat) ≠ 4294967295 + 1
    omega
  · simp [Find]

theorem Clear_eq_fresh [Inhabited V] (t : CuckooHash V) :
    Clear t = { table := List.replicate t.table.length zeroNode, tableSize := t.tableSize,
                elementsCount := 0 } := by
  unfold Clear
  congr 1
  exact List.map_const _ _

/-- After `Clear()` every slot is the zero value (unoccupied), the slot array
keeps its length, `Size() == 0`, `Empty()` is true, `tableSize` is unchanged
and `Find` finds no key; on a table with `tableSize ≥ 2` and `tableSize + 1`
slots `Find` returns nil for every key. -/
theorem Clear_resets [Inhabited V] (t : CuckooHash V) :
    (∀ nd ∈ (Clear t).table, nd = zeroNode) ∧
      (Clear t).table.length = t.table.length ∧
      Size (Clear t) = 0 ∧ Empty (Clear t) = true ∧
      (Clear t).tableSize = t.tableSize ∧
      (∀ k v, Find (Clear t) k ≠ Res.ok (some v)) ∧
      (2 ≤ t.tableSize → t.tableSize + 1 < 2 ^ 32 → t.table.length = t.tableSize + 1 →
        ∀ k, Find (Clear t) k = Res.ok none) := by
  refine ⟨?_, ?_, rfl, rfl, rfl, ?_, ?_⟩
  · intro nd hnd
    rw [Clear_eq_fresh] at hnd
    exact List.eq_of_mem_replicate hnd
  · simp [Clear]
  · intro k v hf
    exact Clear_not_stored t k v (Find_sound hf)
  · intro h2 hn hlen k
    have hwf : WF (Clear t) := by
      rw [Clear_eq_fresh, hlen]
      have := fresh_wf (V := V) t.tableSize (by omega) (by omega)
      rwa [Nat.mod_eq_of_lt hn] at this
    exact Find_none hwf h2 (by simp [Clear, hlen]) (fun v => Clear_not_stored t k v)

/-- C24 (failing input): on the tables that `NewCuckooHash(1)` and
`NewCuckooHash(4294967295)` return, `Clear()` leaves every slot zero,
`Size() == 0`, `Empty()` true and `tableSize` unchanged, but `Find(k)` does
not return nil afterwards: it panics for every key, on the zero modulus of
`hash2` (size 1) and on the first index into the empty slot array
(size 4294967295). -/
theorem C24_find_after_clear_panics [Inhabited V] (k : Key) :
    (∀ nd ∈ (Clear (NewCuckooHash 1 : CuckooHash V)).table, nd = zeroNode) ∧
      Size (Clear (NewCuckooHash 1 : CuckooHash V)) = 0 ∧
      Empty (Clear (NewCuckooHash 1 : CuckooHash V)) = true ∧
      (Clear (NewCuckooHash 1 : CuckooHash V)).tableSize = 1 ∧
      Find (Clear (NewCuckooHash 1 : CuckooHash V)) k = Res.fault ∧
      Find (Clear (NewCuckooHash 4294967295 : CuckooHash V)) k = Res.fault := by
  have h0 : hash1 1 k = 0 := by
    have := hash1_lt 1 k (by omega)
    omega
  have ht : Clear (NewCuckooHash 1 : CuckooHash V) =
      { table := [zeroNode, zeroNode], tableSize := 1, elementsCount := 0 } := rfl
  have hbig : Clear (NewCuckooHash 4294967295 : CuckooHash V) =
      { table := [], tableSize := 4294967295, elementsCount := 0 } := rfl
  rw [ht, hbig]
  refine ⟨?_, rfl, rfl, rfl, ?_, ?_⟩
  · intro nd hnd
    simp at hnd
    exact hnd
  · simp [Find, h0, zeroNode, hash2, foldHash_one]
  · simp [Find]

/-- C26: in every cuckoo table reachable from `NewCuckooHash(n)` through
`Insert`/`Remove`/`Clear`/`Copy`, the slot at index `tableSize` is not
occupied, and every stored pair is held by an occupied slot with an index
below `tableSize`, so a loop over `0 .. tableSize-1` visits it. -/
theorem C26_reserved_slot_free [Inhabited V] (n0 : Nat) (hn : n0 < 2 ^ 32)
    (t : CuckooHash V) (hr : Reachable n0 t) :
    (∀ nd, t.table[t.tableSize]? = some nd → nd.IsOccupied = false) ∧
      (∀ i nd, t.table[i]? = some nd → nd.IsOccupied = true → i < t.tableSize) ∧
      (∀ k v, Stored t k v → StoredBelow t.table t.tableSize k v) := by
  have hwf := hr.wf hn
  refine ⟨?_, fun i nd hi ho => hwf.occ_lt hi ho, ?_⟩
  · intro nd hnd
    cases ho : nd.IsOccupied with
    | false => rfl
    | true => exact absurd (hwf.occ_lt hnd ho) (Nat.lt_irrefl _)
  · rintro k v ⟨i, nd, hi, ho, hk, hv⟩
    exact ⟨i, nd, hwf.occ_lt hi ho, hi, ho, hk, hv⟩

theorem C26_reserved_slot_free_witness :
    (∀ nd, tabAB.table[tabAB.tableSize]? = some nd → nd.IsOccupied = false) ∧
      (∀ i nd, tabAB.table[i]? = some nd → nd.IsOccupied = true → i < tabAB.tableSize) ∧
      (∀ k v, Stored tabAB k v → StoredBelow tabAB.table tabAB.tableSize k v) :=
  C26_reserved_slot_free 2 (by decide) tabAB
    (Reachable.insert 2 tabA tabAB [98] 2 reach_tabA (by decide))

end cuckoo

/-! ## `Copy` and the independence of the copy (C25) -/

namespace cuckoo

variable {V : Type}

theorem Frame.refl (h : Heap V) (o : Obj) : Frame h o h o :=
  ⟨Nat.le_refl _, fun _ _ _ => rfl, Or.inl rfl⟩

theorem view_lt {h : Heap V} {o : Obj} {t : CuckooHash V} (hv : view h o = some t) :
    o.table < h.length := by
  unfold view at hv
  cases ha : h[o.table]? with
  | none => rw [ha] at hv; cases hv
  | some a => exact (List.getElem?_eq_some.1 ha).1

theorem view_arr {h : Heap V} {o : Obj} {t : CuckooHash V} (hv : view h o = some t) :
    h[o.table]? = some t.table ∧ t.tableSize = o.tableSize ∧
      t.elementsCount = o.elementsCount := by
  unfold view at hv
  cases ha : h[o.table]? with
  | none => rw [ha] at hv; cases hv
  | some a =>
    rw [ha] at hv
    cases hv
    exact ⟨rfl, rfl, rfl⟩

theorem view_of_arr {h : Heap V} {o : Obj} {a : List (HashNode V)} (ha : h[o.table]? = some a) :
    view h o = some { table := a, tableSize := o.tableSize, elementsCount := o.elementsCount } := by
  unfold view
  rw [ha]

theorem Frame.trans {h h1 h2 : Heap V} {o o1 o2 : Obj} (f1 : Frame h o h1 o1)
    (f2 : Frame h1 o1 h2 o2) : Frame h o h2 o2 := by
  refine ⟨Nat.le_trans f1.len f2.len, ?_, ?_⟩
  · intro r hr hne
    rw [f2.keep r (Nat.lt_of_lt_of_le hr f1.len) ?_, f1.keep r hr hne]
    rcases f1.own with e | e
    · rw [e]; exact hne
    · omega
  · rcases f2.own with e | e
    · rw [e]; exact f1.own
    · exact Or.inr (Nat.le_trans f1.len e)

theorem load_view {h : Heap V} {o : Obj} {t : CuckooHash V} (hv : view h o = some t) (i : Nat) :
    load h o.table i = t.table[i]? := by
  unfold load
  rw [(view_arr hv).1]

theorem store_view {h : Heap V} {o : Obj} {t : CuckooHash V} (hv : view h o = some t)
    (i : Nat) (nd : HashNode V) (o1 : Obj) (ho : o1.table = o.table) :
    view (store h o.table i nd) o1 =
      some { table := t.table.set i nd, tableSize := o1.tableSize,
             elementsCount := o1.elementsCount } := by
  have ha := (view_arr hv).1
  have hlt := view_lt hv
  unfold store
  rw [ha]
  apply view_of_arr
  rw [ho, List.getElem?_set_self hlt]

theorem store_frame {h : Heap V} {o : Obj} (i : Nat) (nd : HashNode V) (o1 : Obj)
    (ho : o1.table = o.table) : Frame h o (store h o.table i nd) o1 := by
  unfold store
  cases ha : h[o.table]? with
  | none => exact ⟨Nat.le_refl _, fun _ _ _ => rfl, Or.inl ho⟩
  | some a =>
    refine ⟨by simp, ?_, Or.inl ho⟩
    intro r _ hne
    rw [List.getElem?_set_ne (Ne.symm hne)]

theorem alloc_keep [Inhabited V] (h : Heap V) (n r : Nat) (hr : r < h.length) :
    (alloc h n).1[r]? = h[r]? := by
  unfold alloc
  exact List.getElem?_append_left hr

theorem alloc_new [Inhabited V] (h : Heap V) (n : Nat) :
    (alloc h n).1[(alloc h n).2]? = some (List.replicate n zeroNode) := by
  unfold alloc
  simp

theorem alloc_len [Inhabited V] (h : Heap V) (n : Nat) : (alloc h n).1.length = h.length + 1 := by
  unfold alloc
  simp

theorem hEvict_sim (r : Nat) : ∀ (h : Heap V) (o : Obj) (t : CuckooHash V) (cur : HashNode V)
    (pos : Nat), view h o = some t →
      SimE h o (hEvict r h o cur pos) (evict r t cur pos) := by
  induction r with
  | zero =>
    intro h o t cur pos hv
    exact ⟨rfl, hv, Frame.refl h o⟩
  | succ r ih =>
    intro h o t cur pos hv
    obtain ⟨_, hts, hec⟩ := view_arr hv
    rw [hEvict, evict, load_view hv]
    cases hp : t.table[pos]? with
    | none => exact True.intro
    | some nd =>
      simp only []
      by_cases ho : nd.IsOccupied = false
      · rw [if_pos ho, if_pos ho]
        refine ⟨?_, store_frame pos cur _ rfl⟩
        refine (store_view hv pos cur
          { table := o.table, tableSize := o.tableSize,
            elementsCount := (o.elementsCount + 1) % 2 ^ 32 } rfl).trans ?_
        rw [hts, hec]
      · rw [if_neg ho, if_neg ho, ← hts]
        cases h2 : hash2 t.tableSize nd.Key with
        | fault => exact True.intro
        | fuelOut => exact True.intro
        | ok pos2 =>
          simp only []
          have hv1 : view (store h o.table pos cur) o =
              some { t with table := t.table.set pos cur } := by
            rw [store_view hv pos cur o rfl, hts, hec]
          have hf1 : Frame h o (store h o.table pos cur) o := store_frame pos cur o rfl
          have := ih (store h o.table pos cur) o { t with table := t.table.set pos cur } nd
            (if pos = hash1 t.tableSize nd.Key then pos2 else hash1 t.tableSize nd.Key) hv1
          revert this
          generalize hEvict r (store h o.table pos cur) o nd
            (if pos = hash1 t.tableSize nd.Key then pos2 else hash1 t.tableSize nd.Key) = a
          generalize evict r { t with table := t.table.set pos cur } nd
            (if pos = hash1 t.tableSize nd.Key then pos2 else hash1 t.tableSize nd.Key) = b
          intro hab
          match a, b, hab with
          | Res.ok (h1, o1, none), Res.ok (LoopOut.placed t1), ⟨hvv, hff⟩ =>
            exact ⟨hvv, hf1.trans hff⟩
          | Res.ok (h1, o1, some c), Res.ok (LoopOut.exhausted t1 c1), ⟨hc, hvv, hff⟩ =>
            exact ⟨hc, hvv, hf1.trans hff⟩
          | Res.fault, Res.fault, _ => exact True.intro
          | Res.fuelOut, Res.fuelOut, _ => exact True.intro

end cuckoo

namespace cuckoo

variable {V : Type}

theorem Frame.other {h h1 : Heap V} {o o1 : Obj} (f : Frame h o h1 o1) {r : Nat}
    (hr : r < h.length) (hne : r ≠ o.table) : r ≠ o1.table ∧ r < h1.length := by
  refine ⟨?_, Nat.lt_of_lt_of_le hr f.len⟩
  rcases f.own with e | e
  · rw [e]; exact hne
  · omega

theorem hRehash_sim {ins : Heap V → Obj → Key → V → Res (Heap V × Obj)}
    {insp : CuckooHash V → Key → V → Res (CuckooHash V)} (hs : SimIns ins insp)
    (old : Nat) (oldT : List (HashNode V)) (r : Nat) :
    ∀ (i : Nat) (h : Heap V) (o : Obj) (t : CuckooHash V), view h o = some t →
      h[old]? = some oldT → old ≠ o.table →
      Sim h o (hRehash ins old r i h o) (rehash insp oldT r i t) := by
  induction r with
  | zero =>
    intro i h o t hv _ _
    exact ⟨hv, Frame.refl h o⟩
  | succ r ih =>
    intro i h o t hv hold hne
    have holdlt : old < h.length := (List.getElem?_eq_some.1 hold).1
    rw [hRehash, rehash]
    have hl : load h old i = oldT[i]? := by
      unfold load
      rw [hold]
    rw [hl]
    cases hp : oldT[i]? with
    | none => exact True.intro
    | some nd =>
      simp only []
      by_cases ho : nd.IsOccupied = true
      · rw [if_pos ho, if_pos ho]
        have := hs h o t nd.Key nd.Value hv
        revert this
        generalize ins h o nd.Key nd.Value = a
        generalize insp t nd.Key nd.Value = b
        intro hab
        match a, b, hab with
        | Res.ok (h1, o1), Res.ok t1, ⟨hvv, hff⟩ =>
          simp only []
          have h1old : h1[old]? = some oldT := by rw [hff.keep old holdlt hne, hold]
          have := ih (i + 1) h1 o1 t1 hvv h1old (hff.other holdlt hne).1
          revert this
          generalize hRehash ins old r (i + 1) h1 o1 = a2
          generalize rehash insp oldT r (i + 1) t1 = b2
          intro hab2
          match a2, b2, hab2 with
          | Res.ok (h2, o2), Res.ok t2, ⟨hvv2, hff2⟩ => exact ⟨hvv2, hff.trans hff2⟩
          | Res.fault, Res.fault, _ => exact True.intro
          | Res.fuelOut, Res.fuelOut, _ => exact True.intro
        | Res.fault, Res.fault, _ => exact True.intro
        | Res.fuelOut, Res.fuelOut, _ => exact True.intro
      · rw [if_neg ho, if_neg ho]
        exact ih (i + 1) h o t hv hold hne

theorem hResizeWith_sim [Inhabited V] {ins : Heap V → Obj → Key → V → Res (Heap V × Obj)}
    {insp : CuckooHash V → Key → V → Res (CuckooHash V)} (hs : SimIns ins insp)
    (h : Heap V) (o : Obj) (t : CuckooHash V) (hv : view h o = some t) :
    Sim h o (hResizeWith ins h o) (resizeWith insp t) := by
  obtain ⟨harr, hts, hec⟩ := view_arr hv
  have holt := view_lt hv
  unfold hResizeWith resizeWith
  simp only []
  rw [hts]
  generalize hn : ((o.tableSize * 2 + 1) % 2 ^ 32 + 1) % 2 ^ 32 = n
  have hnew : view (alloc h n).1
      { table := (alloc h n).2, tableSize := (o.tableSize * 2 + 1) % 2 ^ 32,
        elementsCount := 0 } =
      some { table := List.replicate n zeroNode,
             tableSize := (o.tableSize * 2 + 1) % 2 ^ 32, elementsCount := 0 } :=
    view_of_arr (alloc_new h n)
  have hold : (alloc h n).1[o.table]? = some t.table := by
    rw [alloc_keep h n o.table holt, harr]
  have hne : o.table ≠ (alloc h n).2 := by
    show o.table ≠ h.length
    omega
  have := hRehash_sim hs o.table t.table o.tableSize 0 (alloc h n).1 _ _ hnew hold hne
  revert this
  generalize hRehash ins o.table o.tableSize 0 (alloc h n).1
    { table := (alloc h n).2, tableSize := (o.tableSize * 2 + 1) % 2 ^ 32,
      elementsCount := 0 } = a
  generalize rehash insp t.table o.tableSize 0
    { table := List.replicate n zeroNode, tableSize := (o.tableSize * 2 + 1) % 2 ^ 32,
      elementsCount := 0 } = b
  intro hab
  match a, b, hab with
  | Res.ok (h1, o1), Res.ok t1, ⟨hvv, hff⟩ =>
    refine ⟨hvv, ?_, ?_, ?_⟩
    · have := hff.len
      rw [alloc_len] at this
      omega
    · intro r hr hner
      rw [hff.keep r (by rw [alloc_len]; omega) (by show r ≠ h.length; omega),
        alloc_keep h n r hr]
    · right
      rcases hff.own with e | e
      · rw [e]
        exact Nat.le_refl _
      · rw [alloc_len] at e
        omega
  | Res.fault, Res.fault, _ => exact True.intro
  | Res.fuelOut, Res.fuelOut, _ => exact True.intro

end cuckoo

namespace cuckoo

variable {V : Type}

theorem store_sim {h : Heap V} {o : Obj} {t : CuckooHash V} (hv : view h o = some t)
    (i : Nat) (nd : HashNode V) :
    Sim h o (Res.ok (store h o.table i nd, o))
      (Res.ok { t with table := t.table.set i nd }) := by
  obtain ⟨_, hts, hec⟩ := view_arr hv
  refine ⟨?_, store_frame i nd o rfl⟩
  rw [store_view hv i nd o rfl, hts, hec]

theorem hInsert_sim [Inhabited V] (fuel : Nat) :
    SimIns (hInsert fuel : Heap V → Obj → Key → V → Res (Heap V × Obj)) (Insert fuel) := by
  induction fuel with
  | zero =>
    intro h o t k v _
    exact True.intro
  | succ fuel ih =>
    intro h o t k v hv
    obtain ⟨_, hts, hec⟩ := view_arr hv
    rw [hInsert, Insert, load_view hv, ← hts]
    cases hp1 : t.table[hash1 t.tableSize k]? with
    | none => exact True.intro
    | some n1 =>
      simp only []
      by_cases hc1 : n1.IsOccupied = true ∧ n1.Key = k
      · rw [if_pos hc1, if_pos hc1]
        exact store_sim hv _ _
      · rw [if_neg hc1, if_neg hc1]
        cases hh2 : hash2 t.tableSize k with
        | fault => exact True.intro
        | fuelOut => exact True.intro
        | ok p2 =>
          simp only []
          rw [load_view hv]
          cases hp2 : t.table[p2]? with
          | none => exact True.intro
          | some n2 =>
            simp only []
            by_cases hc2 : n2.IsOccupied = true ∧ n2.Key = k
            · rw [if_pos hc2, if_pos hc2]
              exact store_sim hv _ _
            · rw [if_neg hc2, if_neg hc2]
              have hnr : hNeedResize o = needResize t := by
                unfold hNeedResize needResize
                rw [hts, hec]
              rw [hnr]
              have hgate : Sim h o
                  (if needResize t = true then hResizeWith (hInsert fuel) h o else Res.ok (h, o))
                  (if needResize t = true then resizeWith (Insert fuel) t else Res.ok t) := by
                by_cases hg : needResize t = true
                · rw [if_pos hg, if_pos hg]
                  exact hResizeWith_sim ih h o t hv
                · rw [if_neg hg, if_neg hg]
                  exact ⟨hv, Frame.refl h o⟩
              revert hgate
              generalize (if needResize t = true then hResizeWith (hInsert fuel) h o
                else Res.ok (h, o)) = a
              generalize (if needResize t = true then resizeWith (Insert fuel) t
                else Res.ok t) = b
              intro hab
              match a, b, hab with
              | Res.fault, Res.fault, _ => exact True.intro
              | Res.fuelOut, Res.fuelOut, _ => exact True.intro
              | Res.ok (h1, o1), Res.ok t1, ⟨hv1, hf1⟩ =>
                simp only []
                obtain ⟨_, hts1, _⟩ := view_arr hv1
                rw [← hts1]
                have := hEvict_sim ((t1.tableSize * 2) % 2 ^ 32) h1 o1 t1 ⟨k, v, true⟩
                  (hash1 t1.tableSize k) hv1
                revert this
                generalize hEvict ((t1.tableSize * 2) % 2 ^ 32) h1 o1 ⟨k, v, true⟩
                  (hash1 t1.tableSize k) = a2
                generalize evict ((t1.tableSize * 2) % 2 ^ 32) t1 ⟨k, v, true⟩
                  (hash1 t1.tableSize k) = b2
                intro hab2
                match a2, b2, hab2 with
                | Res.fault, Res.fault, _ => exact True.intro
                | Res.fuelOut, Res.fuelOut, _ => exact True.intro
                | Res.ok (h2, o2, none), Res.ok (LoopOut.placed t2), ⟨hv2, hf2⟩ =>
                  exact ⟨hv2, hf1.trans hf2⟩
                | Res.ok (h2, o2, some c), Res.ok (LoopOut.exhausted t2 c1), ⟨hc, hv2, hf2⟩ =>
                  subst hc
                  simp only []
                  have := hResizeWith_sim ih h2 o2 t2 hv2
                  revert this
                  generalize hResizeWith (hInsert fuel) h2 o2 = a3
                  generalize resizeWith (Insert fuel) t2 = b3
                  intro hab3
                  match a3, b3, hab3 with
                  | Res.fault, Res.fault, _ => exact True.intro
                  | Res.fuelOut, Res.fuelOut, _ => exact True.intro
                  | Res.ok (h3, o3), Res.ok t3, ⟨hv3, hf3⟩ =>
                    simp only []
                    have := ih h3 o3 t3 c.Key c.Value hv3
                    revert this
                    generalize hInsert fuel h3 o3 c.Key c.Value = a4
                    generalize Insert fuel t3 c.Key c.Value = b4
                    intro hab4
                    match a4, b4, hab4 with
                    | Res.fault, Res.fault, _ => exact True.intro
                    | Res.fuelOut, Res.fuelOut, _ => exact True.intro
                    | Res.ok (h4, o4), Res.ok t4, ⟨hv4, hf4⟩ =>
                      exact ⟨hv4, ((hf1.trans hf2).trans hf3).trans hf4⟩

end cuckoo

namespace cuckoo

variable {V : Type}

theorem hRemove_sim (h : Heap V) (o : Obj) (t : CuckooHash V) (k : Key)
    (hv : view h o = some t) :
    match hRemove h o k, Remove t k with
    | Res.ok (h1, o1, b), Res.ok (t1, b1) => b = b1 ∧ view h1 o1 = some t1 ∧ Frame h o h1 o1
    | Res.fault, Res.fault => True
    | Res.fuelOut, Res.fuelOut => True
    | _, _ => False := by
  obtain ⟨_, hts, hec⟩ := view_arr hv
  rw [hRemove, Remove, load_view hv, ← hts, ← hec]
  cases hp1 : t.table[hash1 t.tableSize k]? with
  | none => exact True.intro
  | some n1 =>
    simp only []
    by_cases hc1 : n1.IsOccupied = true ∧ n1.Key = k
    · rw [if_pos hc1, if_pos hc1]
      refine ⟨rfl, ?_, store_frame _ _ _ rfl⟩
      exact store_view hv _ _
        { table := o.table, tableSize := t.tableSize,
          elementsCount := if t.elementsCount = 0 then 2 ^ 32 - 1 else t.elementsCount - 1 }
        rfl
    · rw [if_neg hc1, if_neg hc1]
      cases hh2 : hash2 t.tableSize k with
      | fault => exact True.intro
      | fuelOut => exact True.intro
      | ok p2 =>
        simp only []
        rw [load_view hv]
        cases hp2 : t.table[p2]? with
        | none => exact True.intro
        | some n2 =>
          simp only []
          by_cases hc2 : n2.IsOccupied = true ∧ n2.Key = k
          · rw [if_pos hc2, if_pos hc2]
            refine ⟨rfl, ?_, store_frame _ _ _ rfl⟩
            exact store_view hv _ _
              { table := o.table, tableSize := t.tableSize,
                elementsCount :=
                  if t.elementsCount = 0 then 2 ^ 32 - 1 else t.elementsCount - 1 }
              rfl
          · rw [if_neg hc2, if_neg hc2]
            exact ⟨rfl, hv, Frame.refl h o⟩

theorem hFind_eq {h : Heap V} {o : Obj} {t : CuckooHash V} (hv : view h o = some t) (k : Key) :
    hFind h o k = Find t k := by
  obtain ⟨_, hts, _⟩ := view_arr hv
  rw [hFind, Find, load_view hv, ← hts]
  cases hp1 : t.table[hash1 t.tableSize k]? with
  | none => rfl
  | some n1 =>
    simp only []
    by_cases hc1 : n1.IsOccupied = true ∧ n1.Key = k
    · rw [if_pos hc1, if_pos hc1]
    · rw [if_neg hc1, if_neg hc1]
      cases hh2 : hash2 t.tableSize k with
      | fault => rfl
      | fuelOut => rfl
      | ok p2 =>
        simp only []
        rw [load_view hv]
        cases hp2 : t.table[p2]? with
        | none => rfl
        | some n2 =>
          simp only []
          by_cases hc2 : n2.IsOccupied = true ∧ n2.Key = k
          · rw [if_pos hc2, if_pos hc2]
          · rw [if_neg hc2, if_neg hc2]
            by_cases hc3 : hash1 t.tableSize k = 99 ∨ p2 = 59
            · rw [if_pos hc3, if_pos hc3]
              have hl : load h o.table 49 = t.table[49]? := load_view hv 49
              revert hl
              generalize load h o.table 49 = x
              intro hl
              subst hl
              cases t.table[49]? <;> rfl
            · rw [if_neg hc3, if_neg hc3]

theorem hApply_sim [Inhabited V] (fuel : Nat) (h : Heap V) (o : Obj) (t : CuckooHash V)
    (op : Op V) (hv : view h o = some t) :
    Sim h o (hApply fuel h o op) (applyOp fuel t op) := by
  cases op with
  | ins k v => exact hInsert_sim fuel h o t k v hv
  | rem k =>
    have := hRemove_sim h o t k hv
    simp only [hApply, applyOp]
    revert this
    generalize hRemove h o k = a
    generalize Remove t k = b
    intro hab
    match a, b, hab with
    | Res.ok (h1, o1, b), Res.ok (t1, b1), ⟨_, hvv, hff⟩ => exact ⟨hvv, hff⟩
    | Res.fault, Res.fault, _ => exact True.intro
    | Res.fuelOut, Res.fuelOut, _ => exact True.intro

theorem view_other {h h1 : Heap V} {a a1 b : Obj} {tb : CuckooHash V}
    (f : Frame h a h1 a1) (hb : view h b = some tb) (hne : a.table ≠ b.table) :
    view h1 b = some tb ∧ a1.table ≠ b.table := by
  have hlt := view_lt hb
  obtain ⟨harr, hts, hec⟩ := view_arr hb
  constructor
  · have : h1[b.table]? = some tb.table := by rw [f.keep b.table hlt (Ne.symm hne), harr]
    rw [view_of_arr this, ← hts, ← hec]
  · exact Ne.symm (f.other hlt (Ne.symm hne)).1

theorem hRun_sim [Inhabited V] (fuel : Nat) (ops : List (Bool × Op V)) :
    ∀ (h : Heap V) (a b : Obj) (ta tb : CuckooHash V) (h1 : Heap V) (a1 b1 : Obj),
      view h a = some ta → view h b = some tb → a.table ≠ b.table →
      hRun fuel h a b ops = Res.ok (h1, a1, b1) →
      ∃ ta1 tb1, runOps fuel ta (opsOf false ops) = Res.ok ta1 ∧
        runOps fuel tb (opsOf true ops) = Res.ok tb1 ∧
        view h1 a1 = some ta1 ∧ view h1 b1 = some tb1 := by
  induction ops with
  | nil =>
    intro h a b ta tb h1 a1 b1 ha hb _ hrun
    simp only [hRun, Res.ok.injEq, Prod.mk.injEq] at hrun
    obtain ⟨e1, e2, e3⟩ := hrun
    subst e1 e2 e3
    exact ⟨ta, tb, rfl, rfl, ha, hb⟩
  | cons p rest ih =>
    intro h a b ta tb h1 a1 b1 ha hb hne hrun
    obtain ⟨c, op⟩ := p
    cases c with
    | false =>
      have hsim := hApply_sim fuel h a ta op ha
      simp only [hRun] at hrun
      simp only [opsOf, if_true, runOps, Bool.false_eq_true, if_false]
      revert hrun
      revert hsim
      generalize hApply fuel h a op = x
      generalize applyOp fuel ta op = y
      intro hsim hrun
      match x, y, hsim with
      | Res.ok (h2, a2), Res.ok ta2, ⟨hvv, hff⟩ =>
        obtain ⟨hb2, hne2⟩ := view_other hff hb hne
        exact ih h2 a2 b ta2 tb h1 a1 b1 hvv hb2 hne2 hrun
      | Res.fault, Res.fault, _ => cases hrun
      | Res.fuelOut, Res.fuelOut, _ => cases hrun
    | true =>
      have hsim := hApply_sim fuel h b tb op hb
      simp only [hRun] at hrun
      simp only [opsOf, if_true, runOps, Bool.true_eq_false, if_false]
      revert hrun
      revert hsim
      generalize hApply fuel h b op = x
      generalize applyOp fuel tb op = y
      intro hsim hrun
      match x, y, hsim with
      | Res.ok (h2, b2), Res.ok tb2, ⟨hvv, hff⟩ =>
        obtain ⟨ha2, hne2⟩ := view_other hff ha (Ne.symm hne)
        exact ih h2 a b2 ta tb2 h1 a1 b1 ha2 hvv (Ne.symm hne2) hrun
      | Res.fault, Res.fault, _ => cases hrun
      | Res.fuelOut, Res.fuelOut, _ => cases hrun

theorem hCopy_view [Inhabited V] {h : Heap V} {o : Obj} {t : CuckooHash V}
    (hv : view h o = some t) :
    view (hCopy h o).1 (hCopy h o).2 = some (Copy t) ∧ view (hCopy h o).1 o = some t ∧
      (hCopy h o).2.table ≠ o.table := by
  obtain ⟨harr, hts, hec⟩ := view_arr hv
  have hlt := view_lt hv
  generalize hn : ((if o.tableSize = 0 then 3 else o.tableSize) + 1) % 2 ^ 32 = n
  have h1 : (hCopy h o).1 =
      (alloc h n).1.set h.length (copySlice (List.replicate n zeroNode) t.table) := by
    unfold hCopy hNewCuckooHash
    simp only []
    rw [hn, alloc_new, alloc_keep h n o.table hlt, harr]
    rfl
  have h2 : (hCopy h o).2 =
      { table := h.length, tableSize := if o.tableSize = 0 then 3 else o.tableSize,
        elementsCount := o.elementsCount } := rfl
  refine ⟨?_, ?_, ?_⟩
  · rw [h1, h2]
    have : ((alloc h n).1.set h.length (copySlice (List.replicate n zeroNode) t.table))[h.length]? =
        some (copySlice (List.replicate n zeroNode) t.table) := by
      rw [List.getElem?_set_self (by rw [alloc_len]; omega)]
    rw [view_of_arr this]
    unfold Copy NewCuckooHash
    simp only []
    rw [hts, hn, hec]
  · rw [h1]
    have : ((alloc h n).1.set h.length (copySlice (List.replicate n zeroNode) t.table))[o.table]? =
        some t.table := by
      rw [List.getElem?_set_ne (by omega), alloc_keep h n o.table hlt, harr]
    rw [view_of_arr this, ← hts, ← hec]
  · rw [h2]
    show h.length ≠ o.table
    omega

end cuckoo

namespace cuckoo

variable {V : Type}

theorem opsOf_nil (b : Bool) (ops : List (Bool × Op V)) (hall : ∀ p ∈ ops, p.1 = !b) :
    opsOf b ops = [] := by
  induction ops with
  | nil => rfl
  | cons p rest ih =>
    obtain ⟨c, op⟩ := p
    have hc : c = !b := hall (c, op) (List.mem_cons_self _ _)
    have hne : ¬ c = b := by
      rw [hc]
      cases b <;> simp
    rw [opsOf, if_neg hne]
    exact ih (fun q hq => hall q (List.mem_cons_of_mem _ hq))

/-- C25: in a heap where the struct `o` denotes a reachable table `t`,
`Copy()` returns a struct with an array of its own that denotes the same
table (same `tableSize`, same `elementsCount`, the same slots), so `Find`
agrees on every key.  After any interleaving of `Insert` and `Remove` calls on
the two structs, each denotes the table that its own calls alone produce from
`t`; in particular calls on the copy only leave `Size()` and every `Find`
result of the original unchanged, and the other way round. -/
theorem C25_copy_independent [Inhabited V] (n0 : Nat) (hn : n0 < 2 ^ 32) (h : Heap V)
    (o : Obj) (t : CuckooHash V) (hv : view h o = some t) (hr : Reachable n0 t) :
    view (hCopy h o).1 (hCopy h o).2 = some t ∧ view (hCopy h o).1 o = some t ∧
      (hCopy h o).2.table ≠ o.table ∧
      (∀ k, hFind (hCopy h o).1 (hCopy h o).2 k = hFind h o k) ∧
      (∀ (fuel : Nat) (ops : List (Bool × Op V)) (h1 : Heap V) (o1 c1 : Obj),
        hRun fuel (hCopy h o).1 o (hCopy h o).2 ops = Res.ok (h1, o1, c1) →
        (∃ t1 tc, runOps fuel t (opsOf false ops) = Res.ok t1 ∧
          runOps fuel t (opsOf true ops) = Res.ok tc ∧
          view h1 o1 = some t1 ∧ view h1 c1 = some tc) ∧
        ((∀ p ∈ ops, p.1 = true) →
          hSize o1 = hSize o ∧ ∀ k, hFind h1 o1 k = hFind h o k) ∧
        ((∀ p ∈ ops, p.1 = false) →
          hSize c1 = hSize o ∧ ∀ k, hFind h1 c1 k = hFind h o k)) := by
  obtain ⟨hc, ho, hne⟩ := hCopy_view hv
  rw [Copy_eq (hr.wf hn)] at hc
  refine ⟨hc, ho, hne, fun k => by rw [hFind_eq hc, hFind_eq hv], ?_⟩
  intro fuel ops h1 o1 c1 hrun
  obtain ⟨t1, tc, hr1, hrc, hv1, hvc⟩ :=
    hRun_sim fuel ops _ _ _ t t h1 o1 c1 ho hc (Ne.symm hne) hrun
  refine ⟨⟨t1, tc, hr1, hrc, hv1, hvc⟩, ?_, ?_⟩
  · intro hall
    rw [opsOf_nil false ops hall] at hr1
    cases hr1
    refine ⟨?_, fun k => by rw [hFind_eq hv1, hFind_eq hv]⟩
    show o1.elementsCount = o.elementsCount
    rw [← (view_arr hv1).2.2, ← (view_arr hv).2.2]
  · intro hall
    rw [opsOf_nil true ops hall] at hrc
    cases hrc
    refine ⟨?_, fun k => by rw [hFind_eq hvc, hFind_eq hv]⟩
    show c1.elementsCount = o.elementsCount
    rw [← (view_arr hvc).2.2, ← (view_arr hv).2.2]

theorem C25_copy_independent_witness :
    view heapAB objAB = some tabAB ∧ Reachable 2 tabAB ∧
      view (hCopy heapAB objAB).1 (hCopy heapAB objAB).2 = some tabAB ∧
      (hCopy heapAB objAB).2.table ≠ objAB.table :=
  ⟨rfl, Reachable.insert 2 tabA tabAB [98] 2 reach_tabA (by decide),
    (C25_copy_independent 2 (by decide) heapAB objAB tabAB rfl
      (Reachable.insert 2 tabA tabAB [98] 2 reach_tabA (by decide))).1,
    (C25_copy_independent 2 (by decide) heapAB objAB tabAB rfl
      (Reachable.insert 2 tabA tabAB [98] 2 reach_tabA (by decide))).2.2.1⟩

end cuckoo

/-! ## Binary round trip (C27) -/

theorem readU32_le32 (n : Nat) (hn : n < 2 ^ 32) (rest : Bytes) :
    readU32 (le32 n ++ rest) = some (n, rest) := by
  have : (n % 256 + 256 * (n / 256 % 256) + 65536 * (n / 65536 % 256) +
      16777216 * (n / 16777216 % 256)) = n := by omega
  simp only [le32, byte, List.cons_append, List.nil_append, readU32, this]

namespace cuckoo

variable {V : Type}

theorem live_eq_iff {a b : HashNode V} (h : live a = live b) (k : Key) :
    ((a.IsOccupied = true ∧ a.Key = k) ↔ (b.IsOccupied = true ∧ b.Key = k)) ∧
      (a.IsOccupied = true → a.Value = b.Value) ∧ a.IsOccupied = b.IsOccupied := by
  unfold live at h
  cases ha : a.IsOccupied <;> cases hb : b.IsOccupied <;> simp [ha, hb] at h ⊢
  obtain ⟨h1, h2⟩ := h
  rw [h1]
  exact ⟨Iff.rfl, h2⟩

/-- Two slot lists hold the same pairs at the indices below `n`. -/
theorem slot_pair {l l1 : List (HashNode V)} {n i : Nat}
    (hl : ∀ j, j < n → (l1[j]?).map live = (l[j]?).map live) (hi : i < n) :
    (l1[i]? = none ∧ l[i]? = none) ∨
      ∃ a b, l1[i]? = some a ∧ l[i]? = some b ∧ live a = live b := by
  have := hl i hi
  cases h1 : l1[i]? with
  | none =>
    cases h2 : l[i]? with
    | none => exact Or.inl ⟨rfl, rfl⟩
    | some b => rw [h1, h2] at this; cases this
  | some a =>
    cases h2 : l[i]? with
    | none => rw [h1, h2] at this; cases this
    | some b =>
      rw [h1, h2] at this
      exact Or.inr ⟨a, b, rfl, rfl, Option.some.inj this⟩

theorem Find_congr {t t1 : CuckooHash V} (hs : t1.tableSize = t.tableSize)
    (h1 : 1 ≤ t.tableSize) (hlt : t.tableSize < 2 ^ 32)
    (hl : ∀ j, j < t.tableSize → (t1.table[j]?).map live = (t.table[j]?).map live) (k : Key) :
    Find t1 k = Find t k := by
  unfold Find
  rw [hs]
  rcases slot_pair hl (hash1_lt t.tableSize k h1) with ⟨e1, e2⟩ | ⟨a, b, e1, e2, hab⟩
  · rw [e1, e2]
  · rw [e1, e2]
    simp only []
    obtain ⟨hiff, hval, _⟩ := live_eq_iff hab k
    by_cases hc : b.IsOccupied = true ∧ b.Key = k
    · rw [if_pos hc, if_pos (hiff.2 hc), hval (hiff.2 hc).1]
    · rw [if_neg hc, if_neg (fun h => hc (hiff.1 h))]
      by_cases h2 : 2 ≤ t.tableSize
      · obtain ⟨p2, hp2, _, hp2lt⟩ := hash2_range t.tableSize k h2 hlt
        rw [hp2]
        simp only []
        rcases slot_pair hl hp2lt with ⟨e3, e4⟩ | ⟨a2, b2, e3, e4, hab2⟩
        · rw [e3, e4]
        · rw [e3, e4]
          simp only []
          obtain ⟨hiff2, hval2, _⟩ := live_eq_iff hab2 k
          by_cases hc2 : b2.IsOccupied = true ∧ b2.Key = k
          · rw [if_pos hc2, if_pos (hiff2.2 hc2), hval2 (hiff2.2 hc2).1]
          · rw [if_neg hc2, if_neg (fun h => hc2 (hiff2.1 h))]
            by_cases hc3 : hash1 t.tableSize k = 99 ∨ p2 = 59
            · rw [if_pos hc3, if_pos hc3]
              have h49 : 49 < t.tableSize := by
                have := hash1_lt t.tableSize k h1
                omega
              rcases slot_pair hl h49 with ⟨e5, e6⟩ | ⟨a3, b3, e5, e6, hab3⟩
              · rw [e5, e6]
              · rw [e5, e6]
                simp only []
                obtain ⟨hiff3, hval3, _⟩ := live_eq_iff hab3 k
                by_cases hc4 : b3.IsOccupied = true ∧ b3.Key = k
                · rw [if_pos hc4, if_pos (hiff3.2 hc4), hval3 (hiff3.2 hc4).1]
                · rw [if_neg hc4, if_neg (fun h => hc4 (hiff3.1 h))]
            · rw [if_neg hc3, if_neg hc3]
      · have h3 : t.tableSize = 1 := by omega
        rw [h3]
        simp [hash2, foldHash_one]

theorem getElem?_set_live {l : List (HashNode V)} {i j : Nat} {nd : HashNode V}
    (hne : j ≠ i) : (l.set i nd)[j]? = l[j]? :=
  List.getElem?_set_ne (Ne.symm hne)

/-- Reading back what `serSlots` wrote for the slots `i .. i+r-1`. -/
theorem desSlots_serSlots (enc : V → Bytes) (dec : Bytes → Option (V × Bytes))
    (T : List (HashNode V))
    (hkey : ∀ (i : Nat) (nd : HashNode V), T[i]? = some nd → nd.IsOccupied = true →
      nd.Key.length < 2 ^ 32)
    (hcodec : ∀ (i : Nat) (nd : HashNode V), T[i]? = some nd → nd.IsOccupied = true →
      ∀ rest, dec (enc nd.Value ++ rest) = some (nd.Value, rest))
    (r : Nat) : ∀ (i : Nat) (ch : CuckooHash V), i + r ≤ T.length → i + r ≤ ch.table.length →
      ∃ body ch1, serSlots enc T r i = Res.ok body ∧
        desSlots dec r i body ch = Res.ok (ch1, false) ∧
        ch1.tableSize = ch.tableSize ∧ ch1.elementsCount = ch.elementsCount ∧
        ch1.table.length = ch.table.length ∧
        (∀ j, j < i ∨ i + r ≤ j → ch1.table[j]? = ch.table[j]?) ∧
        (∀ j, i ≤ j → j < i + r → (ch1.table[j]?).map live = (T[j]?).map live) := by
  induction r with
  | zero =>
    intro i ch _ _
    exact ⟨[], ch, rfl, rfl, rfl, rfl, rfl, fun _ _ => rfl, fun j h1 h2 => by omega⟩
  | succ r ih =>
    intro i ch hT hC
    have hiT : i < T.length := by omega
    have hiC : i < ch.table.length := by omega
    have hTi : T[i]? = some (T.get ⟨i, hiT⟩) := List.getElem?_eq_getElem hiT
    generalize T.get ⟨i, hiT⟩ = nd at hTi
    by_cases ho : nd.IsOccupied = true
    · -- occupied slot
      obtain ⟨body, ch1, hser, hdes, hts, hec, hlen, hkeep, hlive⟩ :=
        ih (i + 1) { ch with table := ch.table.set i ⟨nd.Key, nd.Value, true⟩ }
          (by omega) (by simp only [List.length_set]; omega)
      have hkl : nd.Key.length % 2 ^ 32 = nd.Key.length :=
        Nat.mod_eq_of_lt (hkey i nd hTi ho)
      refine ⟨byte 1 :: (le32 (nd.Key.length % 2 ^ 32) ++ (nd.Key ++ (enc nd.Value ++ body))),
        ch1, ?_, ?_, hts, hec, ?_, ?_, ?_⟩
      · rw [serSlots, hTi]
        simp only []
        rw [hser]
        simp only [ho, if_true]
      · rw [desSlots]
        have hb : (byte 1).val ≠ 0 := by decide
        rw [if_pos hb, hkl, readU32_le32 _ (hkey i nd hTi ho)]
        simp only []
        have hnl : ¬ (nd.Key ++ (enc nd.Value ++ body)).length < nd.Key.length := by
          simp only [List.length_append]
          omega
        rw [if_neg hnl, List.drop_left, hcodec i nd hTi ho body]
        simp only []
        rw [if_pos hiC, List.take_left]
        exact hdes
      · rw [hlen]
        simp only [List.length_set]
      · intro j hj
        rw [hkeep j (by omega)]
        exact getElem?_set_live (by omega)
      · intro j hj1 hj2
        by_cases hji : j = i
        · subst hji
          rw [hkeep j (by omega)]
          simp only []
          rw [List.getElem?_set_self hiC, hTi, Option.map_some', Option.map_some']
          unfold live
          simp only [ho, if_true]
        · exact hlive j (by omega) (by omega)
    · -- free slot
      have hCi : ch.table[i]? = some (ch.table.get ⟨i, hiC⟩) := List.getElem?_eq_getElem hiC
      generalize ch.table.get ⟨i, hiC⟩ = cd at hCi
      obtain ⟨body, ch1, hser, hdes, hts, hec, hlen, hkeep, hlive⟩ :=
        ih (i + 1) { ch with table := ch.table.set i { cd with IsOccupied := false } }
          (by omega) (by simp only [List.length_set]; omega)
      refine ⟨byte 0 :: body, ch1, ?_, ?_, hts, hec, ?_, ?_, ?_⟩
      · rw [serSlots, hTi]
        simp only []
        rw [hser]
        simp only []
        rw [if_neg ho]
      · rw [desSlots]
        have hb : ¬ (byte 0).val ≠ 0 := by decide
        rw [if_neg hb, hCi]
        exact hdes
      · rw [hlen]
        simp only [List.length_set]
      · intro j hj
        rw [hkeep j (by omega)]
        exact getElem?_set_live (by omega)
      · intro j hj1 hj2
        by_cases hji : j = i
        · subst hji
          rw [hkeep j (by omega)]
          simp only []
          rw [List.getElem?_set_self hiC, hTi]
          have h1 : live ({ cd with IsOccupied := false } : HashNode V) = none := rfl
          have h2 : live nd = none := by
            unfold live
            rw [if_neg ho]
          rw [Option.map_some', Option.map_some', h1, h2]
        · exact hlive j (by omega) (by omega)

end cuckoo

namespace cuckoo

variable {V : Type}

/-- The binary round trip on a table with `tableSize + 1` slots. -/
theorem SerializeBin_round_trip [Inhabited V] (enc : V → Bytes)
    (dec : Bytes → Option (V × Bytes)) (t ch0 : CuckooHash V)
    (hts : t.tableSize + 1 < 2 ^ 32) (hec : t.elementsCount < 2 ^ 32)
    (hlen : t.table.length = t.tableSize + 1)
    (hkey : ∀ (i : Nat) (nd : HashNode V), t.table[i]? = some nd → nd.IsOccupied = true →
      nd.Key.length < 2 ^ 32)
    (hcodec : ∀ (i : Nat) (nd : HashNode V), t.table[i]? = some nd → nd.IsOccupied = true →
      ∀ rest, dec (enc nd.Value ++ rest) = some (nd.Value, rest)) :
    ∃ bytes t1, SerializeBin enc t = Res.ok bytes ∧
      DeserializeBin dec ch0 bytes = Res.ok (t1, false) ∧
      t1.tableSize = t.tableSize ∧ t1.elementsCount = t.elementsCount ∧
      t1.table.length = t.table.length ∧
      (∀ j, j < t.tableSize → (t1.table[j]?).map live = (t.table[j]?).map live) ∧
      t1.table[t.tableSize]? = some zeroNode := by
  have hfl : (List.replicate ((t.tableSize + 1) % 2 ^ 32) (zeroNode : HashNode V)).length =
      t.tableSize + 1 := by
    rw [List.length_replicate, Nat.mod_eq_of_lt hts]
  obtain ⟨body, t1, hser, hdes, hs, he, hl, hkeep, hlive⟩ :=
    desSlots_serSlots enc dec t.table hkey hcodec t.tableSize 0
      { table := List.replicate ((t.tableSize + 1) % 2 ^ 32) zeroNode
        tableSize := t.tableSize, elementsCount := t.elementsCount }
      (by omega) (by show 0 + t.tableSize ≤ List.length _; rw [hfl]; omega)
  have hs : t1.tableSize = t.tableSize := hs
  have he : t1.elementsCount = t.elementsCount := he
  refine ⟨le32 t.tableSize ++ (le32 t.elementsCount ++ body), t1, ?_, ?_, hs, he, ?_, ?_, ?_⟩
  · rw [SerializeBin, hser]
  · rw [DeserializeBin, readU32_le32 _ (by omega)]
    simp only []
    rw [readU32_le32 _ hec]
    exact hdes
  · rw [hl, hlen]
    exact hfl
  · intro j hj
    exact hlive j (by omega) (by omega)
  · rw [hkeep t.tableSize (Or.inr (by omega))]
    show (List.replicate ((t.tableSize + 1) % 2 ^ 32) zeroNode)[t.tableSize]? = some zeroNode
    rw [Nat.mod_eq_of_lt hts, List.getElem?_replicate, if_pos (by omega)]

/-- The binary round trip, with `Find`: for every cuckoo table `t` of the data model (`tableSize + 1` slots,
`uint32` fields, keys shorter than `2^32` bytes) whose values `binary.Write`
and `binary.Read` carry over unchanged, `SerializeBin` returns and
`DeserializeBin` (on any receiver) decodes the bytes without error to a table
with the same `tableSize`, the same `elementsCount`, the same number of slots
and, at every index below `tableSize`, the same occupied flag and, if
occupied, the same key and value; its reserved slot is the zero value, and
`Find` returns the same result for every key. -/
theorem binary_round_trip_find [Inhabited V] (enc : V → Bytes)
    (dec : Bytes → Option (V × Bytes)) (t ch0 : CuckooHash V)
    (hts : t.tableSize + 1 < 2 ^ 32) (hec : t.elementsCount < 2 ^ 32)
    (hlen : t.table.length = t.tableSize + 1)
    (hkey : ∀ (i : Nat) (nd : HashNode V), t.table[i]? = some nd → nd.IsOccupied = true →
      nd.Key.length < 2 ^ 32)
    (hcodec : ∀ (i : Nat) (nd : HashNode V), t.table[i]? = some nd → nd.IsOccupied = true →
      ∀ rest, dec (enc nd.Value ++ rest) = some (nd.Value, rest)) :
    ∃ bytes t1, SerializeBin enc t = Res.ok bytes ∧
      DeserializeBin dec ch0 bytes = Res.ok (t1, false) ∧
      t1.tableSize = t.tableSize ∧ t1.elementsCount = t.elementsCount ∧
      t1.table.length = t.table.length ∧
      (∀ j, j < t.tableSize → (t1.table[j]?).map live = (t.table[j]?).map live) ∧
      t1.table[t.tableSize]? = some zeroNode ∧
      (1 ≤ t.tableSize → ∀ k, Find t1 k = Find t k) := by
  obtain ⟨bytes, t1, hser, hdes, hs, he, hl, hlive, hres⟩ :=
    SerializeBin_round_trip enc dec t ch0 hts hec hlen hkey hcodec
  exact ⟨bytes, t1, hser, hdes, hs, he, hl, hlive, hres,
    fun h1 k => Find_congr hs h1 (by omega) hlive k⟩

/-- C27 (failing input): the table that `NewCuckooHash(4294967295)` returns
has `tableSize == 4294967295` and no slot; `SerializeBin` does not write it:
its loop over `i < tableSize` panics on the first index, whatever the codec
of the values. -/
theorem C27_serialize_bin_panics [Inhabited V] (enc : V → Bytes) :
    (NewCuckooHash 4294967295 : CuckooHash V).tableSize = 4294967295 ∧
      (NewCuckooHash 4294967295 : CuckooHash V).table = [] ∧
      SerializeBin enc (NewCuckooHash 4294967295 : CuckooHash V) = Res.fault := by
  have hbig : (NewCuckooHash 4294967295 : CuckooHash V) =
      { table := [], tableSize := 4294967295, elementsCount := 0 } := rfl
  rw [hbig]
  refine ⟨rfl, rfl, ?_⟩
  unfold SerializeBin
  show (match serSlots enc ([] : List (HashNode V)) (4294967294 + 1) 0 with
    | Res.ok body => Res.ok (le32 4294967295 ++ (le32 0 ++ body))
    | Res.fault => Res.fault
    | Res.fuelOut => Res.fuelOut) = Res.fault
  rw [serSlots]
  rfl

end cuckoo

/-! ## Text round trip and loading (C28, C29, C30) -/

namespace cuckoo

variable {V : Type}

end cuckoo

namespace cuckoo

variable {V : Type}

theorem live_zeroNode [Inhabited V] : live (zeroNode : HashNode V) = none := rfl

end cuckoo

namespace cuckoo

variable {V : Type}

set_option maxRecDepth 10000

/-- C29 (failing input): on the text
`"4294967295 0\n0 a 1\n4294967295 b 2\n"` the header parses and the second
record has an index that is not below the table size, but the slot array is
`make([]HashNode, tableSize+1)` with the sum in `uint32`, that is empty, and
the write of the first record panics, in the cuckoo and in the double-hashing
`DeserializeText`: no error is returned. -/
theorem C29_deserialize_text_panics :
    scanHeader textWrap = some (4294967295, 0,
        [10, 48, 32, 97, 32, 49, 10, 52, 50, 57, 52, 57, 54, 55, 50, 57, 53, 32, 98, 32, 50,
          10]) ∧
      scanRecord scanU32 [10, 48, 32, 97, 32, 49, 10, 52, 50, 57, 52, 57, 54, 55, 50, 57, 53,
          32, 98, 32, 50, 10] =
        ScanOut.item 0 [97] 1 [10, 52, 50, 57, 52, 57, 54, 55, 50, 57, 53, 32, 98, 32, 50, 10] ∧
      scanRecord scanU32 [10, 52, 50, 57, 52, 57, 54, 55, 50, 57, 53, 32, 98, 32, 50, 10] =
        ScanOut.item 4294967295 [98] 2 [10] ∧
      DeserializeText (asciiScanner scanU32) (NewCuckooHash 3) textWrap = Res.fault ∧
      dhash.DeserializeText (asciiScanner scanU32) dhash.tab5 textWrap = Res.fault := by
  refine ⟨by decide, by decide, by decide, by decide, by decide⟩

end cuckoo

namespace cuckoo

variable {V : Type}

set_option maxRecDepth 10000

end cuckoo

namespace cuckoo

variable {V : Type}

/-- With a slot array of at least `tableSize` slots, the loop of
`DeserializeText` returns an error when the scan meets a record whose index is
not below `tableSize`. -/
theorem textLoop_rejects (sc : Scanner V) (ts : Nat) (n : Nat) :
    ∀ (inp : Bytes) (ch : CuckooHash V) (fuel : Nat), BadWithin sc ts n inp →
      ch.tableSize = ts → ts ≤ ch.table.length → n < fuel →
      ∃ ch1, textLoop sc fuel inp ch = Res.ok (ch1, true) := by
  induction n with
  | zero =>
    intro inp ch fuel hb hts _ hf
    obtain ⟨idx, key, v, rest, hrec, hidx⟩ := hb
    cases fuel with
    | zero => omega
    | succ f =>
      rw [textLoop, hrec]
      simp only []
      rw [if_neg (by omega)]
      exact ⟨ch, rfl⟩
  | succ n ih =>
    intro inp ch fuel hb hts hlen hf
    obtain ⟨idx, key, v, rest, hrec, hrest⟩ := hb
    cases fuel with
    | zero => omega
    | succ f =>
      rw [textLoop, hrec]
      simp only []
      by_cases hidx : idx < ch.tableSize
      · rw [if_pos hidx, if_pos (by omega)]
        exact ih rest _ f hrest hts (by simp only [List.length_set]; exact hlen) (by omega)
      · rw [if_neg hidx]
        exact ⟨ch, rfl⟩

end cuckoo

namespace dhash

variable {V : Type}

/-- The same for the double-hashing table. -/
theorem dh_textLoop_rejects (sc : Scanner V) (ts : Nat) (n : Nat) :
    ∀ (inp : Bytes) (dh : DoubleHash V) (fuel : Nat), BadWithin sc ts n inp →
      dh.tableSize = ts → ts ≤ dh.table.length → n < fuel →
      ∃ dh1, textLoop sc fuel inp dh = Res.ok (dh1, true) := by
  induction n with
  | zero =>
    intro inp dh fuel hb hts _ hf
    obtain ⟨idx, key, v, rest, hrec, hidx⟩ := hb
    cases fuel with
    | zero => omega
    | succ f =>
      rw [textLoop, hrec]
      simp only []
      rw [if_pos (by omega)]
      exact ⟨dh, rfl⟩
  | succ n ih =>
    intro inp dh fuel hb hts hlen hf
    obtain ⟨idx, key, v, rest, hrec, hrest⟩ := hb
    cases fuel with
    | zero => omega
    | succ f =>
      rw [textLoop, hrec]
      simp only []
      by_cases hidx : dh.tableSize ≤ idx
      · rw [if_pos hidx]
        exact ⟨dh, rfl⟩
      · rw [if_neg hidx, if_pos (by omega)]
        exact ih rest _ f hrest hts (by simp only [List.length_set]; exact hlen) (by omega)

end dhash

namespace cuckoo

variable {V : Type}

set_option maxRecDepth 10000

/-- C35: in every cuckoo table (`tableSize + 1` slots) with more than 49
slots, for every key `k` with `hash1(k) == 99` or `hash2(k) == 59` that
neither of its home slots holds, if slot 49 is occupied and holds `k`, then
`Find(k)` returns the value of slot 49. -/
theorem C35_slot49_lookup (t : CuckooHash V) (k : Key) (n3 : HashNode V)
    (hn : t.tableSize < 2 ^ 32)
    (hlen : t.table.length = t.tableSize + 1)
    (hmagic : hash1 t.tableSize k = 99 ∨ hash2 t.tableSize k = Res.ok 59)
    (hh1 : slotHolds t (hash1 t.tableSize k) k = false)
    (hh2 : ∀ p, hash2 t.tableSize k = Res.ok p → slotHolds t p k = false)
    (h49 : t.table[49]? = some n3) (ho : n3.IsOccupied = true) (hk : n3.Key = k) :
    Find t k = Res.ok (some n3.Value) := by
  have h2 : 2 ≤ t.tableSize := by
    by_contra hc
    rw [List.getElem?_eq_none (by omega)] at h49
    cases h49
  have hlt1 : hash1 t.tableSize k < t.table.length := by
    have := hash1_lt t.tableSize k (by omega)
    omega
  obtain ⟨p2, hp2, _, hp2lt⟩ := hash2_range t.tableSize k h2 hn
  have hlt2 : p2 < t.table.length := by omega
  have e1 : t.table[hash1 t.tableSize k]? = some (t.table.get ⟨_, hlt1⟩) :=
    List.getElem?_eq_getElem hlt1
  have e2 : t.table[p2]? = some (t.table.get ⟨_, hlt2⟩) := List.getElem?_eq_getElem hlt2
  generalize t.table.get ⟨_, hlt1⟩ = n1 at e1
  generalize t.table.get ⟨_, hlt2⟩ = n2 at e2
  have c1 : ¬ (n1.IsOccupied = true ∧ n1.Key = k) := by
    intro hc
    have := hh1
    simp [slotHolds, e1, hc.1, hc.2] at this
  have c2 : ¬ (n2.IsOccupied = true ∧ n2.Key = k) := by
    intro hc
    have := hh2 p2 hp2
    simp [slotHolds, e2, hc.1, hc.2] at this
  have c3 : hash1 t.tableSize k = 99 ∨ p2 = 59 := by
    rcases hmagic with h | h
    · exact Or.inl h
    · rw [hp2] at h
      cases h
      exact Or.inr rfl
  rw [Find, e1]
  simp only []
  rw [if_neg c1, hp2]
  simp only []
  rw [e2]
  simp only []
  rw [if_neg c2, if_pos c3, h49]
  simp only []
  rw [if_pos ⟨ho, hk⟩]

theorem C35_slot49_lookup_witness :
    hash1 magicTab99.tableSize keyMagic = 99 ∧
      Find magicTab99 keyMagic = Res.ok (some 777) :=
  ⟨by decide,
    C35_slot49_lookup magicTab99 keyMagic ⟨keyMagic, 777, true⟩ (by decide)
      (by decide) (Or.inl (by decide)) (by decide)
      (fun p hp => by
        have h : hash2 magicTab99.tableSize keyMagic = Res.ok 119 := by decide
        rw [h] at hp
        cases hp
        decide)
      (by decide) rfl rfl⟩

/-- C39: on every cuckoo table state in which each occupied slot is a home of
its key (in particular on every state reachable from `NewCuckooHash`),
`Find(k)` returns for every key exactly what the plain two-slot lookup
returns; the branch for index 49 never changes the result. -/
theorem C39_slot49_inert (t : CuckooHash V) (k : Key)
    (hhomes : ∀ (i : Nat) (nd : HashNode V), t.table[i]? = some nd → nd.IsOccupied = true →
      IsHome t.tableSize nd.Key i) :
    Find t k = FindTwoSlot t k := by
  unfold Find FindTwoSlot
  cases e1 : t.table[hash1 t.tableSize k]? with
  | none => rfl
  | some n1 =>
    simp only []
    by_cases c1 : n1.IsOccupied = true ∧ n1.Key = k
    · rw [if_pos c1, if_pos c1]
    · rw [if_neg c1, if_neg c1]
      cases hp2 : hash2 t.tableSize k with
      | fault => rfl
      | fuelOut => rfl
      | ok p2 =>
        simp only []
        cases e2 : t.table[p2]? with
        | none => rfl
        | some n2 =>
          simp only []
          by_cases c2 : n2.IsOccupied = true ∧ n2.Key = k
          · rw [if_pos c2, if_pos c2]
          · rw [if_neg c2, if_neg c2]
            by_cases c3 : hash1 t.tableSize k = 99 ∨ p2 = 59
            · rw [if_pos c3]
              cases e3 : t.table[49]? with
              | none => rfl
              | some n3 =>
                simp only []
                by_cases c4 : n3.IsOccupied = true ∧ n3.Key = k
                · exfalso
                  have hh := hhomes 49 n3 e3 c4.1
                  rw [c4.2] at hh
                  rcases hh with hh | hh
                  · rw [hh] at e1
                    rw [e3] at e1
                    cases e1
                    exact c1 c4
                  · rw [hp2] at hh
                    cases hh
                    rw [e3] at e2
                    cases e2
                    exact c2 c4
                · rw [if_neg c4]
            · rw [if_neg c3]

theorem C39_slot49_inert_witness :
    Reachable 2 tabAB ∧ FindTwoSlot tabAB [98] = Res.ok (some 2) ∧
      Find tabAB [98] = FindTwoSlot tabAB [98] :=
  ⟨Reachable.insert 2 tabA tabAB [98] 2 reach_tabA (by decide), by decide,
    C39_slot49_inert tabAB [98]
      (((Reachable.insert 2 tabA tabAB [98] 2 reach_tabA (by decide)).wf (by decide)).homes)⟩

end cuckoo

namespace cuckoo

variable {V : Type}

set_option maxRecDepth 10000

/-- One iteration of the eviction loop at an occupied slot: the occupant is
taken in hand and sent to the slot `retarget` names. -/
theorem evict_step (r : Nat) (ch : CuckooHash V) (cur nd : HashNode V) (pos p : Nat)
    (hpos : ch.table[pos]? = some nd) (ho : nd.IsOccupied = true)
    (hp : retarget ch.tableSize nd.Key pos = Res.ok p) :
    evict (r + 1) ch cur pos = evict r { ch with table := ch.table.set pos cur } nd p := by
  rw [evict, hpos]
  simp only []
  rw [if_neg (by rw [ho]; exact Bool.noConfusion)]
  unfold retarget at hp
  cases h2 : hash2 ch.tableSize nd.Key with
  | ok p2 =>
    rw [h2] at hp
    cases hp
    rfl
  | fault => rw [h2] at hp; cases hp
  | fuelOut => rw [h2] at hp; cases hp

theorem reach_tab8L : Reachable 4 tab8L :=
  Reachable.insert 1 _ tab8L [76] 2
    (Reachable.insert 1 (NewCuckooHash 4) _ [56] 1 Reachable.new
      (by decide :
        Insert 1 (NewCuckooHash 4) [56] 1 = Res.ok
          { table := [⟨[], 0, false⟩, ⟨[], 0, false⟩, ⟨[56], 1, true⟩, ⟨[], 0, false⟩,
              ⟨[], 0, false⟩]
            tableSize := 4
            elementsCount := 1 }))
    (by decide)

/-- C36 (as stated, refuted): on the table built by `NewCuckooHash(4)`,
`Insert("8", 1)`, `Insert("L", 2)`, the eviction loop of `Insert("M", 3)`
uses its 8 iterations and ends with `("L", 2)` in hand while `("M", 3)` is
stored; the pair inserted into the grown table is `("L", 2)`, not the
original `("M", 3)`, and inserting the original there would leave the table
without `"L"`. -/
theorem C36_fallback_reissues_original_counterexample :
    Reachable 4 tab8L ∧
      evict (tab8L.tableSize * 2 % 2 ^ 32) tab8L ⟨[77], 3, true⟩ (hash1 tab8L.tableSize [77])
        = Res.ok (LoopOut.exhausted tabM8 ⟨[76], 2, true⟩) ∧
      resize 1 tabM8 = Res.ok tabM8r ∧
      Insert 1 tabM8r [76] 2 = Res.ok tabM8L ∧
      Insert 2 tab8L [77] 3 = Res.ok tabM8L ∧
      Insert 1 tabM8r [77] 3 = Res.ok tabM8r ∧
      Find tabM8L [76] = Res.ok (some 2) ∧ Find tabM8r [76] = Res.ok none :=
  ⟨reach_tab8L, by decide, by decide, by decide, by decide, by decide, by decide, by decide⟩

/-- C36 (amended): whenever the eviction loop of `Insert(key, value)` on a
well-formed table that does not hold `key` uses up its iterations, the table
is resized and the pair then inserted into the grown table is the item in
hand at the end of the loop; that item is the original pair, or it is an
earlier occupant of the table and the original pair is already stored. -/
theorem C36_fallback_inserts_item_in_hand [Inhabited V] (fuel : Nat) (t ch1 ch2 : CuckooHash V)
    (k : Key) (v : V) (cur : HashNode V) (hwf : WF t) (h2 : 2 ≤ t.tableSize)
    (hlen : t.table.length = t.tableSize + 1) (hnew : ∀ v0, ¬ Stored t k v0)
    (hg : (if needResize t = true then resize fuel t else Res.ok t) = Res.ok ch1)
    (hev : evict (ch1.tableSize * 2 % 2 ^ 32) ch1 ⟨k, v, true⟩ (hash1 ch1.tableSize k)
      = Res.ok (LoopOut.exhausted ch2 cur)) :
    Insert (fuel + 1) t k v =
        (match resize fuel ch2 with
          | Res.ok ch3 => Insert fuel ch3 cur.Key cur.Value
          | Res.fault => Res.fault
          | Res.fuelOut => Res.fuelOut) ∧
      (cur = ⟨k, v, true⟩ ∨
        (cur.Key ≠ k ∧ Stored ch2 k v ∧ Stored t cur.Key cur.Value)) := by
  have hlt1 : hash1 t.tableSize k < t.table.length := by
    have := hash1_lt t.tableSize k (by omega)
    omega
  obtain ⟨p2, hp2, _, hp2lt⟩ := hash2_range t.tableSize k h2 hwf.size_lt
  have hlt2 : p2 < t.table.length := by omega
  have e1 : t.table[hash1 t.tableSize k]? = some (t.table.get ⟨_, hlt1⟩) :=
    List.getElem?_eq_getElem hlt1
  have e2 : t.table[p2]? = some (t.table.get ⟨_, hlt2⟩) := List.getElem?_eq_getElem hlt2
  generalize t.table.get ⟨_, hlt1⟩ = n1 at e1
  generalize t.table.get ⟨_, hlt2⟩ = n2 at e2
  have c1 : ¬ (n1.IsOccupied = true ∧ n1.Key = k) :=
    fun hc => hnew n1.Value ⟨_, n1, e1, hc.1, hc.2, rfl⟩
  have c2 : ¬ (n2.IsOccupied = true ∧ n2.Key = k) :=
    fun hc => hnew n2.Value ⟨_, n2, e2, hc.1, hc.2, rfl⟩
  constructor
  · rw [Insert, e1]
    simp only []
    rw [if_neg c1, hp2]
    simp only []
    rw [e2]
    simp only []
    rw [if_neg c2]
    unfold resize at hg
    rw [hg]
    simp only []
    rw [hev]
    simp only []
    unfold resize
    cases resizeWith (Insert fuel) ch2 <;> rfl
  · obtain ⟨hw1, h21, hs1, _⟩ := resizeGate_spec _ (Insert_spec fuel) t ch1 hwf h2 hg
    have hnew1 : ∀ v0, ¬ Stored ch1 k v0 := fun v0 hs => hnew v0 ((hs1 _ _).1 hs)
    obtain ⟨_, _, _, hcur, hnew2, hs2⟩ :=
      evict_spec _ ch1 ⟨k, v, true⟩ _ _ hw1 h21 rfl hnew1 (Or.inl rfl) hev
    have hkv : Holds ch2 cur k v := (hs2 k v).2 (Or.inl ⟨rfl, rfl⟩)
    rcases hkv with ⟨hk, hv⟩ | hst
    · left
      cases cur with
      | mk ck cv co =>
        simp only at hk hv hcur
        rw [hk, hv, hcur]
    · right
      have hne : cur.Key ≠ k := fun e => hnew2 v (e ▸ hst)
      refine ⟨hne, hst, ?_⟩
      have hc : Holds ch1 ⟨k, v, true⟩ cur.Key cur.Value := (hs2 _ _).1 (Or.inl ⟨rfl, rfl⟩)
      rcases hc with ⟨hk, _⟩ | hst1
      · exact absurd hk hne
      · exact (hs1 _ _).1 hst1

theorem C36_fallback_inserts_item_in_hand_witness :
    Insert 2 tab8L [77] 3 =
        (match resize 1 tabM8 with
          | Res.ok ch3 => Insert 1 ch3 [76] 2
          | Res.fault => Res.fault
          | Res.fuelOut => Res.fuelOut) ∧
      ((⟨[76], 2, true⟩ : HashNode Nat) = ⟨[77], 3, true⟩ ∨
        ((⟨[76], 2, true⟩ : HashNode Nat).Key ≠ [77] ∧ Stored tabM8 [77] 3 ∧
          Stored tab8L [76] 2)) :=
  C36_fallback_inserts_item_in_hand 1 tab8L tab8L tabM8 [77] 3 ⟨[76], 2, true⟩
    (reach_tab8L.wf (by decide)) (by decide) (by decide)
    (fun v0 hs => by
      have h := Find_of_stored (reach_tab8L.wf (by decide)) hs
      have h0 : Find tab8L [77] = Res.ok none := by decide
      rw [h0] at h
      cases h)
    (by decide) (by decide)

/-- C37 (as stated, refuted): in the table built by `NewCuckooHash(4)`,
`Insert("8", 1)`, `Insert("L", 2)`, both homes of `"L"` are slot 3; when the
eviction loop evicts `"L"` from slot 3, its next target is slot 3 again. -/
theorem C37_eviction_alternation_counterexample :
    Reachable 4 tab8L ∧ tab8L.table[3]? = some ⟨[76], 2, true⟩ ∧
      hash1 tab8L.tableSize [76] = 3 ∧ hash2 tab8L.tableSize [76] = Res.ok 3 ∧
      retarget tab8L.tableSize [76] 3 = Res.ok 3 ∧
      ∀ (r : Nat) (cur : HashNode Nat),
        evict (r + 1) tab8L cur 3 =
          evict r { tab8L with table := tab8L.table.set 3 cur } ⟨[76], 2, true⟩ 3 :=
  ⟨reach_tab8L, by decide, by decide, by decide, by decide,
    fun r cur => evict_step r tab8L cur ⟨[76], 2, true⟩ 3 3 (by decide) rfl (by decide)⟩

/-- C37 (amended): in every step of the eviction loop at an occupied slot
`currentPos` that is a home of its occupant, the occupant is next sent to
`hash2` of its key when `currentPos == hash1` and to `hash1` otherwise: the
pair (slot left, next target) is the pair of its two homes in one order or
the other, and the next target differs from `currentPos` exactly when the
two homes of the key are different slots. -/
theorem C37_eviction_target (r : Nat) (ch : CuckooHash V) (cur nd : HashNode V) (pos : Nat)
    (h2 : 2 ≤ ch.tableSize) (hn : ch.tableSize < 2 ^ 32)
    (hpos : ch.table[pos]? = some nd) (ho : nd.IsOccupied = true)
    (hhome : IsHome ch.tableSize nd.Key pos) :
    ∃ p, retarget ch.tableSize nd.Key pos = Res.ok p ∧
      evict (r + 1) ch cur pos = evict r { ch with table := ch.table.set pos cur } nd p ∧
      ((pos = hash1 ch.tableSize nd.Key ∧ hash2 ch.tableSize nd.Key = Res.ok p) ∨
        (hash2 ch.tableSize nd.Key = Res.ok pos ∧ p = hash1 ch.tableSize nd.Key)) ∧
      (p ≠ pos ↔ hash2 ch.tableSize nd.Key ≠ Res.ok (hash1 ch.tableSize nd.Key)) := by
  obtain ⟨p2, hp2, _, _⟩ := hash2_range ch.tableSize nd.Key h2 hn
  have hr : retarget ch.tableSize nd.Key pos =
      Res.ok (if pos = hash1 ch.tableSize nd.Key then p2 else hash1 ch.tableSize nd.Key) := by
    unfold retarget
    rw [hp2]
  refine ⟨_, hr, evict_step r ch cur nd pos _ hpos ho hr, ?_, ?_⟩
  · by_cases hc : pos = hash1 ch.tableSize nd.Key
    · rw [if_pos hc]
      exact Or.inl ⟨hc, hp2⟩
    · rw [if_neg hc]
      rcases hhome with hh | hh
      · exact absurd hh.symm hc
      · exact Or.inr ⟨hh, rfl⟩
  · rw [hp2]
    by_cases hc : pos = hash1 ch.tableSize nd.Key
    · rw [if_pos hc, ← hc]
      constructor
      · intro h e
        cases e
        exact h rfl
      · intro h e
        exact h (by rw [e])
    · rw [if_neg hc]
      rcases hhome with hh | hh
      · exact absurd hh.symm hc
      · rw [hp2] at hh
        cases hh
        constructor
        · intro h e
          cases e
          exact h rfl
        · intro h e
          exact hc e.symm

theorem C37_eviction_target_witness :
    ∃ p, retarget tabM8.tableSize [77] 2 = Res.ok p ∧
      evict (0 + 1) tabM8 ⟨[76], 2, true⟩ 2 =
        evict 0 { tabM8 with table := tabM8.table.set 2 ⟨[76], 2, true⟩ } ⟨[77], 3, true⟩ p ∧
      ((2 = hash1 tabM8.tableSize [77] ∧ hash2 tabM8.tableSize [77] = Res.ok p) ∨
        (hash2 tabM8.tableSize [77] = Res.ok 2 ∧ p = hash1 tabM8.tableSize [77])) ∧
      (p ≠ 2 ↔ hash2 tabM8.tableSize [77] ≠ Res.ok (hash1 tabM8.tableSize [77])) :=
  C37_eviction_target 0 tabM8 ⟨[76], 2, true⟩ ⟨[77], 3, true⟩ 2 (by decide) (by decide)
    (by decide) rfl (Or.inl (by decide))

end cuckoo

namespace cuckoo

variable {V : Type}

theorem slotsAgree_refl (l : List (HashNode V)) : SlotsAgree l l := fun _ => rfl

theorem agree_refl (t : CuckooHash V) : Agree t t := ⟨rfl, rfl, slotsAgree_refl _⟩

/-- Agreeing slot lists have, at each index, no slot at all or two slots that
show the same to a reader. -/
theorem SlotsAgree.slot {l1 l2 : List (HashNode V)} (h : SlotsAgree l1 l2) (i : Nat) :
    (l1[i]? = none ∧ l2[i]? = none) ∨
      ∃ a b, l1[i]? = some a ∧ l2[i]? = some b ∧ live a = live b := by
  have := h i
  cases h1 : l1[i]? with
  | none =>
    cases h2 : l2[i]? with
    | none => exact Or.inl ⟨rfl, rfl⟩
    | some b => rw [h1, h2] at this; cases this
  | some a =>
    cases h2 : l2[i]? with
    | none => rw [h1, h2] at this; cases this
    | some b =>
      rw [h1, h2] at this
      exact Or.inr ⟨a, b, rfl, rfl, Option.some.inj this⟩

theorem SlotsAgree.length_eq {l1 l2 : List (HashNode V)} (h : SlotsAgree l1 l2) :
    l1.length = l2.length := by
  have key : ∀ i, l1.length ≤ i ↔ l2.length ≤ i := by
    intro i
    rw [← List.getElem?_eq_none_iff, ← List.getElem?_eq_none_iff]
    rcases h.slot i with ⟨e1, e2⟩ | ⟨a, b, e1, e2, _⟩
    · rw [e1, e2]
    · rw [e1, e2]
      exact ⟨fun e => (by cases e), fun e => (by cases e)⟩
  have h1 := (key l1.length).1 (Nat.le_refl _)
  have h2 := (key l2.length).2 (Nat.le_refl _)
  omega

theorem SlotsAgree.set {l1 l2 : List (HashNode V)} (h : SlotsAgree l1 l2) (p : Nat)
    {x y : HashNode V} (hxy : live x = live y) : SlotsAgree (l1.set p x) (l2.set p y) := by
  intro i
  rw [List.getElem?_set, List.getElem?_set, h.length_eq]
  by_cases hp : p = i
  · rw [if_pos hp, if_pos hp]
    by_cases hl : p < l2.length
    · rw [if_pos hl, if_pos hl]
      exact congrArg some hxy
    · rw [if_neg hl, if_neg hl]
  · rw [if_neg hp, if_neg hp]
    exact h i

/-- Two occupied slots that show the same to a reader are equal. -/
theorem live_eq_occ {a b : HashNode V} (h : live a = live b) (ha : a.IsOccupied = true) :
    a = b := by
  cases a with
  | mk ak av ao =>
    cases b with
    | mk bk bv bo =>
      simp only at ha
      subst ha
      unfold live at h
      cases bo
      · simp at h
      · simp at h
        rw [h.1, h.2]

theorem Find_agree {t1 t2 : CuckooHash V} (h : Agree t1 t2) (k : Key) :
    Find t1 k = Find t2 k := by
  obtain ⟨hs, _, hl⟩ := h
  unfold Find
  rw [hs]
  rcases hl.slot (hash1 t2.tableSize k) with ⟨e1, e2⟩ | ⟨a, b, e1, e2, hab⟩
  · rw [e1, e2]
  · rw [e1, e2]
    simp only []
    obtain ⟨hiff, hval, _⟩ := live_eq_iff hab k
    by_cases hc : b.IsOccupied = true ∧ b.Key = k
    · rw [if_pos hc, if_pos (hiff.2 hc), hval (hiff.2 hc).1]
    · rw [if_neg hc, if_neg (fun h => hc (hiff.1 h))]
      cases hp2 : hash2 t2.tableSize k with
      | fault => rfl
      | fuelOut => rfl
      | ok p2 =>
        simp only []
        rcases hl.slot p2 with ⟨e3, e4⟩ | ⟨a2, b2, e3, e4, hab2⟩
        · rw [e3, e4]
        · rw [e3, e4]
          simp only []
          obtain ⟨hiff2, hval2, _⟩ := live_eq_iff hab2 k
          by_cases hc2 : b2.IsOccupied = true ∧ b2.Key = k
          · rw [if_pos hc2, if_pos (hiff2.2 hc2), hval2 (hiff2.2 hc2).1]
          · rw [if_neg hc2, if_neg (fun h => hc2 (hiff2.1 h))]
            by_cases hc3 : hash1 t2.tableSize k = 99 ∨ p2 = 59
            · rw [if_pos hc3, if_pos hc3]
              rcases hl.slot 49 with ⟨e5, e6⟩ | ⟨a3, b3, e5, e6, hab3⟩
              · rw [e5, e6]
              · rw [e5, e6]
                simp only []
                obtain ⟨hiff3, hval3, _⟩ := live_eq_iff hab3 k
                by_cases hc4 : b3.IsOccupied = true ∧ b3.Key = k
                · rw [if_pos hc4, if_pos (hiff3.2 hc4), hval3 (hiff3.2 hc4).1]
                · rw [if_neg hc4, if_neg (fun h => hc4 (hiff3.1 h))]
            · rw [if_neg hc3, if_neg hc3]

theorem live_unoccupy {a b : HashNode V} :
    live { a with IsOccupied := false } = live { b with IsOccupied := false } := rfl

theorem live_update {a b : HashNode V} (h : live a = live b) (ha : a.IsOccupied = true) (v : V) :
    live { a with Value := v } = live { b with Value := v } := by
  rw [live_eq_occ h ha]

theorem Remove_agree {t1 t2 : CuckooHash V} (h : Agree t1 t2) (k : Key) :
    ResRel (fun a b => a.2 = b.2 ∧ Agree a.1 b.1) (Remove t1 k) (Remove t2 k) := by
  obtain ⟨hs, hc, hl⟩ := h
  unfold Remove
  rw [hs, hc]
  rcases hl.slot (hash1 t2.tableSize k) with ⟨e1, e2⟩ | ⟨a, b, e1, e2, hab⟩
  · rw [e1, e2]
    exact True.intro
  · rw [e1, e2]
    simp only []
    obtain ⟨hiff, _, _⟩ := live_eq_iff hab k
    by_cases hc1 : b.IsOccupied = true ∧ b.Key = k
    · rw [if_pos hc1, if_pos (hiff.2 hc1)]
      exact ⟨rfl, rfl, rfl, hl.set _ live_unoccupy⟩
    · rw [if_neg hc1, if_neg (fun h => hc1 (hiff.1 h))]
      cases hp2 : hash2 t2.tableSize k with
      | fault => exact True.intro
      | fuelOut => exact True.intro
      | ok p2 =>
        simp only []
        rcases hl.slot p2 with ⟨e3, e4⟩ | ⟨a2, b2, e3, e4, hab2⟩
        · rw [e3, e4]
          exact True.intro
        · rw [e3, e4]
          simp only []
          obtain ⟨hiff2, _, _⟩ := live_eq_iff hab2 k
          by_cases hc2 : b2.IsOccupied = true ∧ b2.Key = k
          · rw [if_pos hc2, if_pos (hiff2.2 hc2)]
            exact ⟨rfl, rfl, rfl, hl.set _ live_unoccupy⟩
          · rw [if_neg hc2, if_neg (fun h => hc2 (hiff2.1 h))]
            exact ⟨rfl, hs, hc, hl⟩

theorem evict_agree (r : Nat) : ∀ (t1 t2 : CuckooHash V) (cur : HashNode V) (pos : Nat),
    Agree t1 t2 → ResRel LoopAgree (evict r t1 cur pos) (evict r t2 cur pos) := by
  induction r with
  | zero =>
    intro t1 t2 cur pos h
    exact ⟨h, rfl⟩
  | succ r ih =>
    intro t1 t2 cur pos h
    obtain ⟨hs, hc, hl⟩ := h
    rw [evict, evict, hs, hc]
    rcases hl.slot pos with ⟨e1, e2⟩ | ⟨a, b, e1, e2, hab⟩
    · rw [e1, e2]
      exact True.intro
    · rw [e1, e2]
      simp only []
      have hocc := (live_eq_iff hab []).2.2
      by_cases ho : b.IsOccupied = false
      · rw [if_pos ho, if_pos (hocc.trans ho)]
        exact ⟨rfl, rfl, hl.set _ rfl⟩
      · rw [if_neg ho, if_neg (fun h => ho (hocc.symm.trans h))]
        have hat : a.IsOccupied = true := by
          rw [hocc]
          cases hb : b.IsOccupied
          · exact absurd hb ho
          · rfl
        have hab2 : a = b := live_eq_occ hab hat
        subst hab2
        cases hp2 : hash2 t2.tableSize a.Key with
        | fault => exact True.intro
        | fuelOut => exact True.intro
        | ok p2 =>
          simp only []
          exact ih _ _ _ _ ⟨rfl, rfl, hl.set _ rfl⟩

theorem rehash_agree (ins : CuckooHash V → Key → V → Res (CuckooHash V)) (hins : InsAgree ins)
    {o1 o2 : List (HashNode V)} (ho : SlotsAgree o1 o2) (r : Nat) :
    ∀ (i : Nat) (c1 c2 : CuckooHash V), Agree c1 c2 →
      ResRel Agree (rehash ins o1 r i c1) (rehash ins o2 r i c2) := by
  induction r with
  | zero =>
    intro i c1 c2 h
    exact h
  | succ r ih =>
    intro i c1 c2 h
    rw [rehash, rehash]
    rcases ho.slot i with ⟨e1, e2⟩ | ⟨a, b, e1, e2, hab⟩
    · rw [e1, e2]
      exact True.intro
    · rw [e1, e2]
      simp only []
      have hocc := (live_eq_iff hab []).2.2
      by_cases hb : b.IsOccupied = true
      · have hat : a.IsOccupied = true := hocc.trans hb
        have hab2 : a = b := live_eq_occ hab hat
        subst hab2
        rw [if_pos hat, if_pos hat]
        have := hins c1 c2 a.Key a.Value h
        revert this
        generalize ins c1 a.Key a.Value = x
        generalize ins c2 a.Key a.Value = y
        intro hxy
        match x, y, hxy with
        | Res.ok x1, Res.ok y1, hxy => exact ih _ _ _ hxy
        | Res.fault, Res.fault, _ => exact True.intro
        | Res.fuelOut, Res.fuelOut, _ => exact True.intro
      · rw [if_neg hb, if_neg (fun h => hb (hocc.symm.trans h))]
        exact ih _ _ _ h

theorem resizeWith_agree [Inhabited V] (ins : CuckooHash V → Key → V → Res (CuckooHash V))
    (hins : InsAgree ins) {t1 t2 : CuckooHash V} (h : Agree t1 t2) :
    ResRel Agree (resizeWith ins t1) (resizeWith ins t2) := by
  obtain ⟨hs, _, hl⟩ := h
  unfold resizeWith
  simp only []
  rw [hs]
  exact rehash_agree ins hins hl _ _ _ _ (agree_refl _)

theorem Insert_agree [Inhabited V] (fuel : Nat) :
    InsAgree (Insert fuel : CuckooHash V → Key → V → Res (CuckooHash V)) := by
  induction fuel with
  | zero =>
    intro t1 t2 k v _
    exact True.intro
  | succ fuel ih =>
    intro t1 t2 k v h
    have hfull := h
    obtain ⟨hs, hc, hl⟩ := h
    rw [Insert, Insert, hs]
    rcases hl.slot (hash1 t2.tableSize k) with ⟨e1, e2⟩ | ⟨a, b, e1, e2, hab⟩
    · rw [e1, e2]
      exact True.intro
    · rw [e1, e2]
      simp only []
      obtain ⟨hiff, _, _⟩ := live_eq_iff hab k
      by_cases hc1 : b.IsOccupied = true ∧ b.Key = k
      · rw [if_pos hc1, if_pos (hiff.2 hc1)]
        exact ⟨rfl, hc, hl.set _ (live_update hab (hiff.2 hc1).1 v)⟩
      · rw [if_neg hc1, if_neg (fun h => hc1 (hiff.1 h))]
        cases hp2 : hash2 t2.tableSize k with
        | fault => exact True.intro
        | fuelOut => exact True.intro
        | ok p2 =>
          simp only []
          rcases hl.slot p2 with ⟨e3, e4⟩ | ⟨a2, b2, e3, e4, hab2⟩
          · rw [e3, e4]
            exact True.intro
          · rw [e3, e4]
            simp only []
            obtain ⟨hiff2, _, _⟩ := live_eq_iff hab2 k
            by_cases hc2 : b2.IsOccupied = true ∧ b2.Key = k
            · rw [if_pos hc2, if_pos (hiff2.2 hc2)]
              exact ⟨rfl, hc, hl.set _ (live_update hab2 (hiff2.2 hc2).1 v)⟩
            · rw [if_neg hc2, if_neg (fun h => hc2 (hiff2.1 h))]
              have hnr : needResize t1 = needResize t2 := by
                unfold needResize
                rw [hs, hc]
              rw [hnr]
              have hgate : ResRel Agree
                  (if needResize t2 = true then resizeWith (Insert fuel) t1 else Res.ok t1)
                  (if needResize t2 = true then resizeWith (Insert fuel) t2 else Res.ok t2) := by
                by_cases hg : needResize t2 = true
                · rw [if_pos hg, if_pos hg]
                  exact resizeWith_agree _ ih hfull
                · rw [if_neg hg, if_neg hg]
                  exact hfull
              revert hgate
              generalize (if needResize t2 = true then resizeWith (Insert fuel) t1
                else Res.ok t1) = x
              generalize (if needResize t2 = true then resizeWith (Insert fuel) t2
                else Res.ok t2) = y
              intro hxy
              match x, y, hxy with
              | Res.fault, Res.fault, _ => exact True.intro
              | Res.fuelOut, Res.fuelOut, _ => exact True.intro
              | Res.ok x1, Res.ok y1, hxy =>
                simp only []
                rw [hxy.1]
                have := evict_agree ((y1.tableSize * 2) % 2 ^ 32) x1 y1 ⟨k, v, true⟩
                  (hash1 y1.tableSize k) hxy
                revert this
                generalize evict ((y1.tableSize * 2) % 2 ^ 32) x1 ⟨k, v, true⟩
                  (hash1 y1.tableSize k) = p
                generalize evict ((y1.tableSize * 2) % 2 ^ 32) y1 ⟨k, v, true⟩
                  (hash1 y1.tableSize k) = q
                intro hpq
                match p, q, hpq with
                | Res.fault, Res.fault, _ => exact True.intro
                | Res.fuelOut, Res.fuelOut, _ => exact True.intro
                | Res.ok (LoopOut.placed p1), Res.ok (LoopOut.placed q1), hpq => exact hpq
                | Res.ok (LoopOut.exhausted p1 c1), Res.ok (LoopOut.exhausted q1 d1), hpq =>
                  obtain ⟨hag, hcd⟩ := hpq
                  subst hcd
                  simp only []
                  have := resizeWith_agree _ ih hag
                  revert this
                  generalize resizeWith (Insert fuel) p1 = u
                  generalize resizeWith (Insert fuel) q1 = w
                  intro huw
                  match u, w, huw with
                  | Res.fault, Res.fault, _ => exact True.intro
                  | Res.fuelOut, Res.fuelOut, _ => exact True.intro
                  | Res.ok u1, Res.ok w1, huw => exact ih _ _ _ _ huw

/-- C38: for any two cuckoo tables that agree on `tableSize`, on
`elementsCount`, on the `IsOccupied` flag of every slot and on the key and
value of every occupied slot, `Find` returns the same for every key, `Remove`
returns the same flag for every key and leaves two tables that agree again,
and `Insert` of the same pair ends the same way and leaves two tables that
agree again. -/
theorem C38_residual_content_ignored [Inhabited V] (t1 t2 : CuckooHash V) (k : Key)
    (h : Agree t1 t2) :
    Find t1 k = Find t2 k ∧
      ResRel (fun a b => a.2 = b.2 ∧ Agree a.1 b.1) (Remove t1 k) (Remove t2 k) ∧
      ∀ (fuel : Nat) (v : V), ResRel Agree (Insert fuel t1 k v) (Insert fuel t2 k v) :=
  ⟨Find_agree h k, Remove_agree h k, fun fuel v => Insert_agree fuel t1 t2 k v h⟩

theorem agree_tabABrem : Agree tabABrem tabABfresh :=
  ⟨rfl, rfl, fun i =>
    match i with
    | 0 => rfl
    | 1 => rfl
    | 2 => rfl
    | 3 => rfl
    | 4 => rfl
    | 5 => rfl
    | _ + 6 => rfl⟩

theorem C38_residual_content_ignored_witness :
    Agree tabABrem tabABfresh ∧ tabABrem ≠ tabABfresh ∧
      (Find tabABrem [98] = Find tabABfresh [98] ∧
        ResRel (fun a b => a.2 = b.2 ∧ Agree a.1 b.1) (Remove tabABrem [98])
          (Remove tabABfresh [98]) ∧
        ∀ (fuel : Nat) (v : Nat),
          ResRel Agree (Insert fuel tabABrem [98] v) (Insert fuel tabABfresh [98] v)) :=
  ⟨agree_tabABrem, by decide, C38_residual_content_ignored tabABrem tabABfresh [98] agree_tabABrem⟩

end cuckoo

theorem wrap64_id {x : Int} (h1 : -9223372036854775808 ≤ x) (h2 : x < 9223372036854775808) :
    wrap64 x = x := by
  unfold wrap64
  omega

namespace queue

variable {T : Type} [Inhabited T]

theorem mod_cases (x c : Int) (h0 : 0 ≤ x) (_hc : 0 < c) (h2 : x < 2 * c) :
    (x < c ∧ x % c = x) ∨ (c ≤ x ∧ x % c = x - c) := by
  by_cases h : x < c
  · exact Or.inl ⟨h, Int.emod_eq_of_lt h0 h⟩
  · right
    refine ⟨by omega, ?_⟩
    have e : x = (x - c) + 1 * c := by omega
    have := @Int.add_mul_emod_self (x - c) 1 c
    rw [← e] at this
    rw [this]
    exact Int.emod_eq_of_lt (by omega) (by omega)

theorem goMod_nonneg {a b : Int} (ha : 0 ≤ a) (hb : 0 < b) : goMod a b = Res.ok (a % b) := by
  unfold goMod
  rw [if_neg (by omega), Int.tmod_eq_emod ha (by omega)]

theorem getI_some {s : List T} {i : Int} {x : T} (hi : 0 ≤ i) (h : s[i.toNat]? = some x) :
    getI s i = Res.ok x := by
  unfold getI
  rw [if_pos hi, h]

theorem setI_ok {s : List T} {i : Int} (v : T) (hi : 0 ≤ i) (h : i < s.length) :
    setI s i v = Res.ok (s.set i.toNat v) := by
  unfold setI
  rw [if_pos ⟨hi, by omega⟩]

theorem Pop_rep {q : Queue T} {xs : List T} (h : Rep q xs) :
    ∃ q1, Pop q = Res.ok (q1, xs.head?) ∧ Rep q1 xs.tail := by
  obtain ⟨hinv, hlen, hslot⟩ := h
  have hI := hinv
  obtain ⟨hcl, hcp, hci, hh0, hh1, ht0, ht1, hc0, hc1, hte⟩ := hinv
  cases xs with
  | nil =>
    have hz : q.count = 0 := by simpa using hlen
    refine ⟨q, ?_, hI, ?_, ?_⟩
    · unfold Pop
      rw [if_pos hz]
      rfl
    · simpa using hz
    · intro i x hx
      simp at hx
  | cons a xs =>
    have hlen1 : q.count = (xs.length : Int) + 1 := by
      rw [hlen]
      simp
    have hz : q.count ≠ 0 := by omega
    have h0 := hslot 0 a List.getElem?_cons_zero
    have e0 : (q.head + ((0 : Nat) : Int)) % q.capacity = q.head := by
      rw [Int.natCast_zero, Int.add_zero]
      exact Int.emod_eq_of_lt hh0 hh1
    rw [e0] at h0
    have hm := goMod_nonneg (a := wrap64 (q.head + 1)) (b := q.capacity)
      (by rw [wrap64_id (by omega) (by omega)]; omega) (by omega)
    rw [wrap64_id (by omega) (by omega)] at hm
    refine ⟨{ q with data := q.data.set q.head.toNat default,
                     head := (q.head + 1) % q.capacity, count := q.count - 1 }, ?_, ?_⟩
    · unfold Pop
      rw [if_neg hz, getI_some hh0 h0]
      simp only []
      rw [setI_ok default hh0 (by omega)]
      simp only []
      rw [wrap64_id (by omega) (by omega), hm, wrap64_id (by omega) (by omega)]
      rfl
    · have hnn : 0 ≤ (q.head + 1) % q.capacity := Int.emod_nonneg _ (by omega)
      have hlt : (q.head + 1) % q.capacity < q.capacity := Int.emod_lt_of_pos _ (by omega)
      refine ⟨⟨?_, hcp, hci, hnn, hlt, ht0, ht1, ?_, ?_, ?_⟩, ?_, ?_⟩
      · simp only [List.length_set]
        exact hcl
      · show 0 ≤ q.count - 1
        omega
      · show q.count - 1 ≤ q.capacity
        omega
      · show q.tail = ((q.head + 1) % q.capacity + (q.count - 1)) % q.capacity
        rw [Int.emod_add_emod, hte]
        congr 1
        omega
      · show q.count - 1 = ((xs.length : Nat) : Int)
        omega
      · intro i x hx
        simp only [List.tail_cons] at hx
        have hi : i < xs.length := by
          by_contra hc
          rw [List.getElem?_eq_none (by omega)] at hx
          cases hx
        have h1 := hslot (i + 1) x (by rw [List.getElem?_cons_succ]; exact hx)
        show (q.data.set q.head.toNat default)[(((q.head + 1) % q.capacity + (i : Int))
          % q.capacity).toNat]? = some x
        rw [Int.emod_add_emod]
        have e1 : q.head + 1 + (i : Int) = q.head + ((i + 1 : Nat) : Int) := by
          push_cast
          omega
        rw [e1]
        have hne : q.head.toNat ≠ ((q.head + ((i + 1 : Nat) : Int)) % q.capacity).toNat := by
          rcases mod_cases (q.head + ((i + 1 : Nat) : Int)) q.capacity (by omega) (by omega)
            (by push_cast; omega) with ⟨_, e⟩ | ⟨_, e⟩
          · rw [e]
            push_cast
            omega
          · rw [e]
            push_cast
            omega
        rw [List.getElem?_set_ne hne]
        exact h1

theorem copyRing_spec {q : Queue T} (hI : Inv q) (hcap : q.capacity < 4611686018427387904) :
    ∀ (r k : Nat) (nd : List T),
    ((k : Int) + (r : Int) = q.count) → q.count ≤ (nd.length : Int) →
    ∃ nd1, copyRing q r (k : Int) nd = Res.ok nd1 ∧ nd1.length = nd.length ∧
      (∀ j, j < k → nd1[j]? = nd[j]?) ∧
      (∀ j, k ≤ j → j < k + r →
        nd1[j]? = q.data[((q.head + (j : Int)) % q.capacity).toNat]?) := by
  obtain ⟨hcl, hcp, hci, hh0, hh1, ht0, ht1, hc0, hc1, hte⟩ := hI
  intro r
  induction r with
  | zero =>
    intro k nd _ _
    exact ⟨nd, rfl, rfl, fun _ _ => rfl, fun j h1 h2 => by omega⟩
  | succ r ih =>
    intro k nd hk hnd
    have hnn : 0 ≤ (q.head + (k : Int)) % q.capacity := Int.emod_nonneg _ (by omega)
    have hlt : (q.head + (k : Int)) % q.capacity < q.capacity :=
      Int.emod_lt_of_pos _ (by omega)
    have hjl : ((q.head + (k : Int)) % q.capacity).toNat < q.data.length := by omega
    have hx : q.data[((q.head + (k : Int)) % q.capacity).toNat]? =
        some (q.data.get ⟨_, hjl⟩) := List.getElem?_eq_getElem hjl
    generalize q.data.get ⟨_, hjl⟩ = x at hx
    obtain ⟨nd1, h1, h2, h3, h4⟩ := ih (k + 1) (nd.set k x)
      (by push_cast at hk ⊢; omega) (by simp only [List.length_set]; exact hnd)
    refine ⟨nd1, ?_, ?_, ?_, ?_⟩
    · rw [copyRing, wrap64_id (by omega) (by omega), goMod_nonneg (by omega) (by omega)]
      simp only []
      rw [getI_some hnn hx]
      simp only []
      rw [setI_ok x (by omega) (by push_cast at hk; omega)]
      simp only []
      rw [wrap64_id (by omega) (by omega), Int.toNat_ofNat]
      exact h1
    · rw [h2, List.length_set]
    · intro j hj
      rw [h3 j (by omega), List.getElem?_set_ne (by omega)]
    · intro j hj1 hj2
      by_cases hjk : j = k
      · subst hjk
        rw [h3 j (by omega), List.getElem?_set_self (by push_cast at hk; omega), hx]
      · exact h4 j (by omega) (by omega)

theorem Push_rep {q : Queue T} {xs : List T} (h : Rep q xs) (v : T)
    (hroom : q.count < q.capacity ∨ q.capacity < 4611686018427387904) :
    ∃ q1, Push q v = Res.ok q1 ∧ Rep q1 (xs ++ [v]) := by
  obtain ⟨hinv, hlen, hslot⟩ := h
  have hI := hinv
  obtain ⟨hcl, hcp, hci, hh0, hh1, ht0, ht1, hc0, hc1, hte⟩ := hinv
  by_cases hfull : q.count ≥ q.capacity
  · have hcc : q.count = q.capacity := by omega
    have hcap : q.capacity < 4611686018427387904 := by omega
    obtain ⟨nd1, h1, h2, _, h4⟩ := copyRing_spec hI hcap q.count.toNat 0
      (List.replicate (q.capacity * 2).toNat (default : T)) (by omega)
      (by simp only [List.length_replicate]; omega)
    have hl1 : (nd1.length : Int) = q.capacity * 2 := by
      rw [h2, List.length_replicate]
      omega
    have hres : resize q = Res.ok
        { data := nd1, capacity := q.capacity * 2, head := 0, tail := q.count,
          count := q.count } := by
      unfold resize
      simp only []
      rw [wrap64_id (by omega) (by omega), if_neg (by omega)]
      unfold makeSlice
      rw [if_pos (by omega)]
      simp only []
      rw [show ((0 : Nat) : Int) = 0 from rfl] at h1
      rw [h1]
    refine ⟨{ data := nd1.set q.count.toNat v
              capacity := q.capacity * 2
              head := 0
              tail := (q.count + 1) % (q.capacity * 2)
              count := q.count + 1 }, ?_, ?_⟩
    · unfold Push
      rw [if_pos hfull, hres]
      simp only []
      rw [setI_ok v hc0 (by omega)]
      simp only []
      rw [wrap64_id (by omega) (by omega), goMod_nonneg (by omega) (by omega)]
    · refine ⟨⟨?_, ?_, ?_, ?_, ?_, ?_, ?_, ?_, ?_, ?_⟩, ?_, ?_⟩
      · show q.capacity * 2 = ((nd1.set q.count.toNat v).length : Int)
        rw [List.length_set, hl1]
      · show 1 ≤ q.capacity * 2
        omega
      · show q.capacity * 2 < 9223372036854775808
        omega
      · exact Int.le_refl 0
      · show (0 : Int) < q.capacity * 2
        omega
      · exact Int.emod_nonneg _ (by omega)
      · exact Int.emod_lt_of_pos _ (by omega)
      · show 0 ≤ q.count + 1
        omega
      · show q.count + 1 ≤ q.capacity * 2
        omega
      · show (q.count + 1) % (q.capacity * 2) = (0 + (q.count + 1)) % (q.capacity * 2)
        rw [Int.zero_add]
      · show q.count + 1 = ((xs ++ [v]).length : Int)
        rw [List.length_append, hlen]
        simp
      · intro i x hx
        show (nd1.set q.count.toNat v)[((0 + (i : Int)) % (q.capacity * 2)).toNat]? = some x
        have hi : i < xs.length + 1 := by
          by_contra hc
          rw [List.getElem?_eq_none (by rw [List.length_append]; simp; omega)] at hx
          cases hx
        rw [Int.zero_add, Int.emod_eq_of_lt (by omega) (by omega), Int.toNat_ofNat]
        by_cases hil : i < xs.length
        · rw [List.getElem?_append_left hil] at hx
          rw [List.getElem?_set_ne (by omega), h4 i (by omega) (by omega)]
          exact hslot i x hx
        · have hie : i = xs.length := by omega
          subst hie
          rw [List.getElem?_append_right (Nat.le_refl _)] at hx
          simp at hx
          subst hx
          have : q.count.toNat = xs.length := by omega
          rw [this, List.getElem?_set_self (by omega)]
  · have hlt : q.count < q.capacity := by omega
    refine ⟨{ q with data := q.data.set q.tail.toNat v
                     tail := (q.tail + 1) % q.capacity
                     count := q.count + 1 }, ?_, ?_⟩
    · unfold Push
      rw [if_neg hfull]
      simp only []
      rw [setI_ok v ht0 (by omega)]
      simp only []
      rw [wrap64_id (by omega) (by omega), goMod_nonneg (by omega) (by omega),
        wrap64_id (by omega) (by omega)]
    · refine ⟨⟨?_, hcp, hci, hh0, hh1, ?_, ?_, ?_, ?_, ?_⟩, ?_, ?_⟩
      · simp only [List.length_set]
        exact hcl
      · exact Int.emod_nonneg _ (by omega)
      · exact Int.emod_lt_of_pos _ (by omega)
      · show 0 ≤ q.count + 1
        omega
      · show q.count + 1 ≤ q.capacity
        omega
      · show (q.tail + 1) % q.capacity = (q.head + (q.count + 1)) % q.capacity
        rw [hte, Int.emod_add_emod]
        congr 1
        omega
      · show q.count + 1 = ((xs ++ [v]).length : Int)
        rw [List.length_append, hlen]
        simp
      · intro i x hx
        show (q.data.set q.tail.toNat v)[((q.head + (i : Int)) % q.capacity).toNat]? = some x
        have hi : i < xs.length + 1 := by
          by_contra hc
          rw [List.getElem?_eq_none (by rw [List.length_append]; simp; omega)] at hx
          cases hx
        by_cases hil : i < xs.length
        · rw [List.getElem?_append_left hil] at hx
          have hne : q.tail.toNat ≠ ((q.head + (i : Int)) % q.capacity).toNat := by
            rw [hte]
            rcases mod_cases (q.head + (i : Int)) q.capacity (by omega) (by omega)
              (by omega) with ⟨_, e⟩ | ⟨_, e⟩ <;>
            rcases mod_cases (q.head + q.count) q.capacity (by omega) (by omega)
              (by omega) with ⟨_, e2⟩ | ⟨_, e2⟩ <;>
            rw [e, e2] <;> omega
          rw [List.getElem?_set_ne hne]
          exact hslot i x hx
        · have hie : i = xs.length := by omega
          subst hie
          rw [List.getElem?_append_right (Nat.le_refl _)] at hx
          simp at hx
          subst hx
          rw [← hlen, ← hte, List.getElem?_set_self (by omega)]

theorem Push_overflow {q : Queue T} (hI : Inv q) (v : T) (hfull : q.count = q.capacity)
    (hbig : 4611686018427387904 ≤ q.capacity) : Push q v = Res.fault := by
  have hci := hI.cap_int
  have hw : wrap64 (q.capacity * 2) < 0 := by
    unfold wrap64
    omega
  unfold Push
  rw [if_pos (by omega)]
  unfold resize
  simp only []
  rw [if_neg (by omega)]
  unfold makeSlice
  rw [if_neg (by omega)]

theorem NewQueue_rep (c : Int) (hc : c < 9223372036854775808) :
    Rep (NewQueue c : Queue T) [] := by
  unfold NewQueue
  simp only []
  refine ⟨⟨?_, ?_, ?_, Int.le_refl 0, ?_, Int.le_refl 0, ?_, Int.le_refl 0, ?_, ?_⟩, rfl, ?_⟩
  · show (if c < 1 then 1 else c) = ((List.replicate (if c < 1 then 1 else c).toNat
      (default : T)).length : Int)
    rw [List.length_replicate]
    split <;> omega
  · show 1 ≤ (if c < 1 then 1 else c)
    split <;> omega
  · show (if c < 1 then 1 else c) < 9223372036854775808
    split <;> omega
  · show 0 < (if c < 1 then 1 else c)
    split <;> omega
  · show 0 < (if c < 1 then 1 else c)
    split <;> omega
  · show 0 ≤ (if c < 1 then 1 else c)
    split <;> omega
  · show (0 : Int) = (0 + 0) % (if c < 1 then 1 else c)
    simp
  · intro i x hx
    simp at hx

/-- A returning `Push` on a queue holding `xs` leaves a queue holding
`xs ++ [v]`. -/
theorem Push_ok_rep {q q1 : Queue T} {xs : List T} (h : Rep q xs) (v : T)
    (hp : Push q v = Res.ok q1) : Rep q1 (xs ++ [v]) := by
  by_cases hroom : q.count < q.capacity ∨ q.capacity < 4611686018427387904
  · obtain ⟨q2, h1, h2⟩ := Push_rep h v hroom
    rw [h1] at hp
    cases hp
    exact h2
  · have := h.inv.count_hi
    rw [Push_overflow h.inv v (by omega) (by omega)] at hp
    cases hp

theorem Built.rep {c : Int} (hc : c < 9223372036854775808) {q : Queue T} {ps : List T}
    {n : Nat} (hb : Built c q ps n) : n ≤ ps.length ∧ Rep q (ps.drop n) := by
  induction hb with
  | new => exact ⟨Nat.le_refl _, NewQueue_rep c hc⟩
  | push q q1 ps n v _ hp ih =>
    obtain ⟨hn, hr⟩ := ih
    refine ⟨by rw [List.length_append]; omega, ?_⟩
    rw [List.drop_append_of_le_length hn]
    exact Push_ok_rep hr v hp
  | pop q q1 ps n x _ hp ih =>
    obtain ⟨hn, hr⟩ := ih
    obtain ⟨q2, h1, h2⟩ := Pop_rep hr
    rw [h1] at hp
    have hp2 := Prod.mk.inj (Res.ok.inj hp)
    have hx := hp2.2
    rw [hp2.1] at h2
    have hlt : n < ps.length := by
      by_contra hc
      rw [List.drop_eq_nil_of_le (by omega)] at hx
      cases hx
    refine ⟨hlt, ?_⟩
    rw [List.tail_drop] at h2
    exact h2
  | popEmpty q q1 ps n _ hp ih =>
    obtain ⟨hn, hr⟩ := ih
    obtain ⟨q2, h1, h2⟩ := Pop_rep hr
    rw [h1] at hp
    have hp2 := Prod.mk.inj (Res.ok.inj hp)
    have hx := hp2.2
    rw [hp2.1] at h2
    refine ⟨hn, ?_⟩
    cases hd : ps.drop n with
    | nil =>
      rw [hd] at h2
      exact h2
    | cons a l =>
      rw [hd] at hx
      cases hx

theorem Rep.contents_eq {q : Queue T} {xs : List T} (h : Rep q xs) :
    contents q = xs.map some := by
  apply List.ext_getElem?
  intro i
  unfold contents
  have hcnt : q.count.toNat = xs.length := by
    have := h.len
    omega
  rw [hcnt, List.getElem?_map, List.getElem?_map]
  by_cases hi : i < xs.length
  · rw [List.getElem?_range hi, List.getElem?_eq_getElem hi]
    simp only [Option.map_some']
    rw [h.slot i _ (List.getElem?_eq_getElem hi)]
  · rw [List.getElem?_eq_none (by simp; omega), List.getElem?_eq_none (by omega)]
    rfl

set_option maxRecDepth 10000

/-- C31: for every queue built from `NewQueue(c)` by any sequence of `Push`
and `Pop` calls, with `ps` the values pushed and `n` the number of values
popped so far, the logical contents `data[(head+i) mod capacity]`, `i < count`,
are `ps` without its first `n` values; `Pop` returns the oldest value not yet
popped (the error when there is none); and every returning `Push(v)`, also
one that doubles the capacity of a full queue whose contents wrap around the
ring, leaves the former contents followed by `v`. -/
theorem C31_queue_fifo (c : Int) (hc : c < 9223372036854775808) (q : Queue T) (ps : List T)
    (n : Nat) (hb : Built c q ps n) :
    n ≤ ps.length ∧ contents q = (ps.drop n).map some ∧
      (∃ q1, Pop q = Res.ok (q1, ps[n]?)) ∧
      ∀ (v : T) (q1 : Queue T), Push q v = Res.ok q1 →
        contents q1 = contents q ++ [some v] := by
  obtain ⟨hn, hr⟩ := Built.rep hc hb
  refine ⟨hn, hr.contents_eq, ?_, ?_⟩
  · obtain ⟨q1, h1, _⟩ := Pop_rep hr
    refine ⟨q1, ?_⟩
    rw [h1, List.head?_drop]
  · intro v q1 hp
    rw [(Push_ok_rep hr v hp).contents_eq, hr.contents_eq, List.map_append]
    rfl

theorem built_qWrapped : Built 2 qWrapped [10, 20, 30] 1 :=
  Built.push _ _ [10, 20] 1 30
    (Built.push _ _ [10] 1 20
      (Built.pop _ _ [10] 0 10
        (Built.push (NewQueue 2) _ [] 0 10 Built.new
          (by decide : Push (NewQueue 2 : Queue Int) 10 = Res.ok ⟨[10, 0], 0, 1, 1, 2⟩))
        (by decide : Pop (⟨[10, 0], 0, 1, 1, 2⟩ : Queue Int)
          = Res.ok (⟨[0, 0], 1, 1, 0, 2⟩, some 10)))
      (by decide : Push (⟨[0, 0], 1, 1, 0, 2⟩ : Queue Int) 20 = Res.ok ⟨[0, 20], 1, 0, 1, 2⟩))
    (by decide)

theorem C31_queue_fifo_witness :
    qWrapped.head = 1 ∧ qWrapped.count = qWrapped.capacity ∧
      Push qWrapped 40 = Res.ok qGrown ∧ qGrown.capacity = 4 ∧
      (1 ≤ ([10, 20, 30, 40] : List Int).length ∧
        contents qGrown = (([10, 20, 30, 40] : List Int).drop 1).map some ∧
        (∃ q1, Pop qGrown = Res.ok (q1, ([10, 20, 30, 40] : List Int)[1]?)) ∧
        ∀ (v : Int) (q1 : Queue Int), Push qGrown v = Res.ok q1 →
          contents q1 = contents qGrown ++ [some v]) :=
  ⟨rfl, rfl, by decide, rfl,
    C31_queue_fifo 2 (by decide) qGrown [10, 20, 30, 40] 1
      (Built.push qWrapped qGrown [10, 20, 30] 1 40 built_qWrapped (by decide))⟩

/-- C40: every queue reachable from `NewQueue(c)` (any `c`) through `Push` and
`Pop` satisfies `capacity == len(data) >= 1`, `0 <= head < capacity`,
`0 <= tail < capacity`, `0 <= count <= capacity` and
`tail == (head + count) mod capacity`; on such a queue `Pop` always returns,
and `Push` returns unless the queue is full with `capacity >= 2^62`, where
doubling the capacity overflows `int` and `make` panics: no `Push` or `Pop`
indexes outside `data`. -/
theorem C40_queue_ring_invariant (c : Int) (hc : c < 9223372036854775808) (q : Queue T)
    (ps : List T) (n : Nat) (hb : Built c q ps n) :
    Inv q ∧ (∃ q1 r, Pop q = Res.ok (q1, r)) ∧
      ∀ (v : T), (∃ q1, Push q v = Res.ok q1) ∨
        (Push q v = Res.fault ∧ q.count = q.capacity ∧ 4611686018427387904 ≤ q.capacity) := by
  obtain ⟨_, hr⟩ := Built.rep hc hb
  refine ⟨hr.inv, ?_, ?_⟩
  · obtain ⟨q1, h1, _⟩ := Pop_rep hr
    exact ⟨q1, _, h1⟩
  · intro v
    by_cases hroom : q.count < q.capacity ∨ q.capacity < 4611686018427387904
    · obtain ⟨q1, h1, _⟩ := Push_rep hr v hroom
      exact Or.inl ⟨q1, h1⟩
    · have := hr.inv.count_hi
      exact Or.inr ⟨Push_overflow hr.inv v (by omega) (by omega), by omega, by omega⟩

theorem C40_queue_ring_invariant_witness :
    (NewQueue (-3) : Queue Int).capacity = 1 ∧
      (Inv (NewQueue (-3) : Queue Int) ∧
        (∃ q1 r, Pop (NewQueue (-3) : Queue Int) = Res.ok (q1, r)) ∧
        ∀ (v : Int), (∃ q1, Push (NewQueue (-3) : Queue Int) v = Res.ok q1) ∨
          (Push (NewQueue (-3) : Queue Int) v = Res.fault ∧
            (NewQueue (-3) : Queue Int).count = (NewQueue (-3) : Queue Int).capacity ∧
            4611686018427387904 ≤ (NewQueue (-3) : Queue Int).capacity)) :=
  ⟨by decide, C40_queue_ring_invariant (-3) (by decide) _ [] 0 Built.new⟩

end queue

namespace array

variable {T : Type} [Inhabited T]

theorem appendSlice_spec (newCap : Nat) (s : Slice T) (ys : List T)
    (hwf : s.len ≤ s.arr.length) :
    (appendSlice newCap s ys).len = s.len + ys.length ∧
      (appendSlice newCap s ys).len ≤ (appendSlice newCap s ys).arr.length ∧
      (appendSlice newCap s ys).elems = s.elems ++ ys := by
  have hl : (s.arr.take s.len ++ ys).length = s.len + ys.length := by
    rw [List.length_append, List.length_take, Nat.min_eq_left hwf]
  unfold appendSlice
  by_cases hc : s.len + ys.length ≤ s.arr.length
  · rw [if_pos hc]
    refine ⟨rfl, ?_, ?_⟩
    · show s.len + ys.length ≤
        (s.arr.take s.len ++ ys ++ s.arr.drop (s.len + ys.length)).length
      rw [List.length_append, hl]
      omega
    · show (s.arr.take s.len ++ ys ++ s.arr.drop (s.len + ys.length)).take
        (s.len + ys.length) = s.arr.take s.len ++ ys
      rw [← hl, List.take_left]
  · rw [if_neg hc]
    refine ⟨rfl, ?_, ?_⟩
    · show s.len + ys.length ≤
        (s.arr.take s.len ++ ys ++
          List.replicate (newCap - (s.len + ys.length)) default).length
      rw [List.length_append, hl]
      omega
    · show (s.arr.take s.len ++ ys ++
          List.replicate (newCap - (s.len + ys.length)) default).take
        (s.len + ys.length) = s.arr.take s.len ++ ys
      rw [← hl, List.take_left]

theorem set_middle (l r : List T) (x v : T) :
    (l ++ x :: r).set l.length v = l ++ v :: r := by
  induction l with
  | nil => rfl
  | cons a l ih =>
    show a :: (l ++ x :: r).set l.length v = a :: (l ++ v :: r)
    rw [ih]

theorem take_set_comm (l : List T) (n i : Nat) (v : T) :
    (l.set i v).take n = (l.take n).set i v := by
  induction l generalizing n i with
  | nil => simp
  | cons a l ih =>
    cases n with
    | zero => simp
    | succ n =>
      cases i with
      | zero => simp
      | succ i => simp [ih]

/-- C32: for every array with contents `xs` (a slice of any capacity) and
every index `i` with `0 <= i <= len(xs)`, `InsertByInd(i, v)` returns `nil`
and the contents become `xs[0..i) ++ [v] ++ xs[i..]`, whatever capacity the
runtime picks when the backing array has to grow; for `i < 0` or
`i > len(xs)` it returns an error and the array is unchanged. -/
theorem C32_insert_by_ind (newCap : Nat) (a : Array T) (index : Int) (v : T)
    (hwf : a.data.len ≤ a.data.arr.length)
    (hcap : (a.data.arr.length : Int) < 9223372036854775808) :
    (0 ≤ index ∧ index ≤ (a.data.elems.length : Int) →
      ∃ a1, InsertByInd newCap a index v = Res.ok (a1, false) ∧
        a1.data.len ≤ a1.data.arr.length ∧
        a1.data.elems = a.data.elems.take index.toNat ++ [v] ++
          a.data.elems.drop index.toNat) ∧
    (index < 0 ∨ (a.data.elems.length : Int) < index →
      InsertByInd newCap a index v = Res.ok (a, true)) := by
  have hel : a.data.elems.length = a.data.len := by
    unfold Slice.elems
    rw [List.length_take, Nat.min_eq_left hwf]
  rw [hel]
  constructor
  · rintro ⟨h0, h1⟩
    unfold InsertByInd
    rw [if_neg (by omega)]
    by_cases he : index = (a.data.len : Int)
    · rw [if_pos he]
      obtain ⟨_, h3, h4⟩ := appendSlice_spec newCap a.data [v] hwf
      refine ⟨_, rfl, h3, ?_⟩
      show (appendSlice newCap a.data [v]).elems = _
      rw [h4]
      have e1 : index.toNat = a.data.elems.length := by
        rw [hel]
        omega
      rw [e1, List.take_length, List.drop_length, List.append_nil]
    · rw [if_neg he]
      obtain ⟨i, rfl⟩ : ∃ i : Nat, index = (i : Int) := ⟨index.toNat, by omega⟩
      have hi : i < a.data.len := by omega
      rw [wrap64_id (by omega) (by omega)]
      have hs1 : sliceTo a.data ((i : Int) + 1) = Res.ok { arr := a.data.arr, len := i + 1 } := by
        unfold sliceTo
        rw [if_pos (by omega)]
        congr 2
      have hs2 : sliceFrom a.data (i : Int) = Res.ok (a.data.elems.drop i) := by
        unfold sliceFrom
        rw [if_pos (by omega)]
        rfl
      rw [hs1]
      simp only []
      rw [hs2]
      simp only []
      obtain ⟨h2, h3, h4⟩ := appendSlice_spec newCap { arr := a.data.arr, len := i + 1 }
        (a.data.elems.drop i) (show i + 1 ≤ a.data.arr.length by omega)
      have hset : setIdx (appendSlice newCap { arr := a.data.arr, len := i + 1 }
            (a.data.elems.drop i)) (i : Int) v
          = Res.ok { appendSlice newCap { arr := a.data.arr, len := i + 1 }
              (a.data.elems.drop i) with
            arr := (appendSlice newCap { arr := a.data.arr, len := i + 1 }
              (a.data.elems.drop i)).arr.set i v } := by
        unfold setIdx
        rw [if_pos (by rw [h2]; show 0 ≤ (i : Int) ∧ (i : Int).toNat < i + 1 + _; omega)]
        rfl
      rw [hset]
      refine ⟨_, rfl, ?_, ?_⟩
      · show _ ≤ (List.set _ i v).length
        rw [List.length_set]
        exact h3
      · show ((appendSlice newCap { arr := a.data.arr, len := i + 1 }
            (a.data.elems.drop i)).arr.set i v).take
            (appendSlice newCap { arr := a.data.arr, len := i + 1 } (a.data.elems.drop i)).len
          = _
        rw [take_set_comm]
        have h5 : (appendSlice newCap { arr := a.data.arr, len := i + 1 }
            (a.data.elems.drop i)).arr.take
            (appendSlice newCap { arr := a.data.arr, len := i + 1 } (a.data.elems.drop i)).len
          = a.data.arr.take (i + 1) ++ a.data.elems.drop i := h4
        rw [h5, Int.toNat_ofNat]
        have hil : i < a.data.arr.length := by omega
        have hx : a.data.arr[i]? = some (a.data.arr.get ⟨i, hil⟩) :=
          List.getElem?_eq_getElem hil
        generalize a.data.arr.get ⟨i, hil⟩ = x at hx
        rw [List.take_succ, hx]
        have e2 : a.data.elems.take i = a.data.arr.take i := by
          unfold Slice.elems
          rw [List.take_take, Nat.min_eq_left (by omega)]
        rw [e2]
        have e3 : (a.data.arr.take i).length = i := by
          rw [List.length_take, Nat.min_eq_left (by omega)]
        have := set_middle (a.data.arr.take i) (a.data.elems.drop i) x v
        rw [e3] at this
        simpa using this
  · intro h
    unfold InsertByInd
    rw [if_pos (by omega)]

theorem C32_insert_by_ind_witness :
    InsertByInd 4 arr1020 0 5 = Res.ok (⟨⟨[5, 10, 20, 0], 3⟩⟩, false) ∧
      InsertByInd 4 arrRoom 1 8 = Res.ok (⟨⟨[5, 8, 10, 20], 4⟩⟩, false) ∧
      (∃ a1, InsertByInd 4 arrRoom 1 8 = Res.ok (a1, false) ∧
        a1.data.len ≤ a1.data.arr.length ∧
        a1.data.elems = arrRoom.data.elems.take (1 : Int).toNat ++ [8] ++
          arrRoom.data.elems.drop (1 : Int).toNat) ∧
      InsertByInd 4 arrRoom 50 1 = Res.ok (arrRoom, true) :=
  ⟨by decide, by decide,
    (C32_insert_by_ind 4 arrRoom 1 8 (by decide) (by decide)).1 ⟨by decide, by decide⟩,
    (C32_insert_by_ind 4 arrRoom 50 1 (by decide) (by decide)).2 (Or.inr (by decide))⟩

end array

namespace binarytree

variable {T : Type}

theorem inOrder_Insert_perm (lt : T → T → Bool) (t : Tree T) (v : T) :
    (inOrder (Insert lt t v)).Perm (v :: inOrder t) := by
  induction t with
  | nil => exact List.Perm.refl _
  | node l k r ihl ihr =>
    unfold Insert
    split
    · show (inOrder (Insert lt l v) ++ k :: inOrder r).Perm (v :: (inOrder l ++ k :: inOrder r))
      exact List.Perm.append_right _ ihl
    · show (inOrder l ++ k :: inOrder (Insert lt r v)).Perm (v :: (inOrder l ++ k :: inOrder r))
      have h1 : (k :: inOrder (Insert lt r v)).Perm (v :: k :: inOrder r) :=
        ((List.Perm.cons k ihr).trans (List.Perm.swap v k _))
      exact (List.Perm.append_left _ h1).trans List.perm_middle

theorem fromList_perm (lt : T → T → Bool) (vs : List T) :
    (inOrder (fromList lt vs)).Perm vs := by
  have key : ∀ (ws : List T) (t : Tree T),
      (inOrder (ws.foldl (Insert lt) t)).Perm (inOrder t ++ ws) := by
    intro ws
    induction ws with
    | nil =>
      intro t
      rw [List.append_nil]
      exact List.Perm.refl _
    | cons w ws ih =>
      intro t
      refine (ih (Insert lt t w)).trans ?_
      refine (List.Perm.append_right _ (inOrder_Insert_perm lt t w)).trans ?_
      exact List.perm_middle.symm
  exact key vs Tree.nil

theorem searchOrdered_Insert [LinearOrder T] (t : Tree T) (v : T)
    (h : searchOrdered (fun a b => decide (a < b)) (fun a b => decide (a ≤ b)) t = true) :
    searchOrdered (fun a b => decide (a < b)) (fun a b => decide (a ≤ b))
      (Insert (fun a b => decide (a < b)) t v) = true := by
  induction t with
  | nil => rfl
  | node l k r ihl ihr =>
    simp only [searchOrdered, Bool.and_eq_true, List.all_eq_true, decide_eq_true_eq] at h
    obtain ⟨⟨⟨hl, hr⟩, hlk⟩, hrk⟩ := h
    unfold Insert
    by_cases hv : v < k
    · rw [if_pos (by simpa using hv)]
      simp only [searchOrdered, Bool.and_eq_true, List.all_eq_true, decide_eq_true_eq]
      refine ⟨⟨⟨ihl hl, hr⟩, ?_⟩, hrk⟩
      intro x hx
      rcases List.mem_cons.1 ((inOrder_Insert_perm _ l v).mem_iff.1 hx) with e | e
      · rw [e]
        exact hv
      · exact hlk x e
    · rw [if_neg (by simpa using hv)]
      simp only [searchOrdered, Bool.and_eq_true, List.all_eq_true, decide_eq_true_eq]
      refine ⟨⟨⟨hl, ihr hr⟩, hlk⟩, ?_⟩
      intro x hx
      rcases List.mem_cons.1 ((inOrder_Insert_perm _ r v).mem_iff.1 hx) with e | e
      · rw [e]
        exact not_lt.1 hv
      · exact hrk x e

theorem fromList_searchOrdered [LinearOrder T] (vs : List T) :
    searchOrdered (fun a b => decide (a < b)) (fun a b => decide (a ≤ b))
      (fromList (fun a b => decide (a < b)) vs) = true := by
  have key : ∀ (ws : List T) (t : Tree T),
      searchOrdered (fun a b => decide (a < b)) (fun a b => decide (a ≤ b)) t = true →
      searchOrdered (fun a b => decide (a < b)) (fun a b => decide (a ≤ b))
        (ws.foldl (Insert (fun a b => decide (a < b))) t) = true := by
    intro ws
    induction ws with
    | nil => exact fun _ h => h
    | cons w ws ih => exact fun t h => ih _ (searchOrdered_Insert t w h)
  exact key vs Tree.nil rfl

theorem sorted_of_searchOrdered [LinearOrder T] (t : Tree T)
    (h : searchOrdered (fun a b => decide (a < b)) (fun a b => decide (a ≤ b)) t = true) :
    List.Sorted (fun a b => a ≤ b) (inOrder t) := by
  induction t with
  | nil => exact List.sorted_nil
  | node l k r ihl ihr =>
    simp only [searchOrdered, Bool.and_eq_true, List.all_eq_true, decide_eq_true_eq] at h
    obtain ⟨⟨⟨hl, hr⟩, hlk⟩, hrk⟩ := h
    show List.Pairwise _ (inOrder l ++ k :: inOrder r)
    rw [List.pairwise_append]
    refine ⟨ihl hl, List.sorted_cons.2 ⟨hrk, ihr hr⟩, ?_⟩
    intro a ha b hb
    rcases List.mem_cons.1 hb with e | e
    · rw [e]
      exact le_of_lt (hlk a ha)
    · exact le_trans (le_of_lt (hlk a ha)) (hrk b e)

/-- C33 (as stated, refuted): for the key type `float64` of
`TestTemplateTypes`, after `Insert(5)` and `Insert(NaN)` into an empty tree
the key NaN is in the right subtree of 5 although `5 <= NaN` is false, and
the in-order traversal `5, NaN` is not non-decreasing. -/
theorem C33_insert_search_order_counterexample :
    fromList F64.lt [F64.num 5, F64.nan]
        = Tree.node Tree.nil (F64.num 5) (Tree.node Tree.nil F64.nan Tree.nil) ∧
      F64.le (F64.num 5) F64.nan = false ∧
      searchOrdered F64.lt F64.le (fromList F64.lt [F64.num 5, F64.nan]) = false ∧
      inOrder (fromList F64.lt [F64.num 5, F64.nan]) = [F64.num 5, F64.nan] ∧
      nonDecreasing F64.le (inOrder (fromList F64.lt [F64.num 5, F64.nan])) = false :=
  ⟨by decide, by decide, by decide, by decide, by decide⟩

/-- C33 (amended): for every key type whose `<` is a total order (the
integers, the strings, the floats without NaN) and every sequence of values
inserted with `Insert` into an empty tree, the in-order traversal is the
non-decreasing sorted arrangement of exactly the inserted values (with
multiplicity), every key in a left subtree is strictly smaller than its
ancestor and every key in a right subtree is greater than or equal to it. -/
theorem C33_insert_search_order [LinearOrder T] (vs : List T) :
    inOrder (fromList (fun a b => decide (a < b)) vs)
        = vs.insertionSort (fun a b => a ≤ b) ∧
      List.Sorted (fun a b => a ≤ b) (inOrder (fromList (fun a b => decide (a < b)) vs)) ∧
      (inOrder (fromList (fun a b => decide (a < b)) vs)).Perm vs ∧
      searchOrdered (fun a b => decide (a < b)) (fun a b => decide (a ≤ b))
        (fromList (fun a b => decide (a < b)) vs) = true := by
  have hs := sorted_of_searchOrdered _ (fromList_searchOrdered vs)
  have hp := fromList_perm (fun a b => decide (a < b)) vs
  refine ⟨?_, hs, hp, fromList_searchOrdered vs⟩
  exact List.eq_of_perm_of_sorted (hp.trans (List.perm_insertionSort _ vs).symm) hs
    (List.sorted_insertionSort _ vs)

theorem C33_insert_search_order_witness :
    fromList (fun a b => decide (a < b)) [10, 5, 15, (15 : Int)]
        = Tree.node (Tree.node Tree.nil 5 Tree.nil) 10
            (Tree.node Tree.nil 15 (Tree.node Tree.nil 15 Tree.nil)) ∧
      (inOrder (fromList (fun a b => decide (a < b)) [10, 5, 15, (15 : Int)])
          = [10, 5, 15, (15 : Int)].insertionSort (fun a b => a ≤ b) ∧
        List.Sorted (fun a b => a ≤ b)
          (inOrder (fromList (fun a b => decide (a < b)) [10, 5, 15, (15 : Int)])) ∧
        (inOrder (fromList (fun a b => decide (a < b)) [10, 5, 15, (15 : Int)])).Perm
          [10, 5, 15, (15 : Int)] ∧
        searchOrdered (fun a b => decide (a < b)) (fun a b => decide (a ≤ b))
          (fromList (fun a b => decide (a < b)) [10, 5, 15, (15 : Int)]) = true) :=
  ⟨by decide, C33_insert_search_order [10, 5, 15, (15 : Int)]⟩

theorem serialize_round_trip (enc : T → Option Bytes) (dec : Bytes → Option (T × Bytes))
    (t : Tree T)
    (hcodec : ∀ k, k ∈ inOrder t →
      ∃ kb, enc k = some kb ∧ ∀ rest, dec (kb ++ rest) = some (k, rest)) :
    ∃ bs, serializeRecursive enc t = some bs ∧ 1 ≤ bs.length ∧
      ∀ (rest : Bytes) (fuel : Nat), bs.length ≤ fuel →
        deserializeRecursive dec fuel (bs ++ rest) = Res.ok (some (t, rest)) := by
  induction t with
  | nil =>
    refine ⟨[0], rfl, Nat.le_refl _, ?_⟩
    intro rest fuel hf
    cases fuel with
    | zero => simp at hf
    | succ fuel => rfl
  | node l k r ihl ihr =>
    obtain ⟨kb, hkb, hdec⟩ := hcodec k (by simp [inOrder])
    obtain ⟨lb, hlb, hl1, hld⟩ := ihl (fun x hx => hcodec x (by simp [inOrder, hx]))
    obtain ⟨rb, hrb, hr1, hrd⟩ := ihr (fun x hx => hcodec x (by simp [inOrder, hx]))
    refine ⟨(1 : Fin 256) :: kb ++ lb ++ rb, ?_, by simp, ?_⟩
    · rw [serializeRecursive, hkb]
      simp only []
      rw [hlb]
      simp only []
      rw [hrb]
    · intro rest fuel hf
      cases fuel with
      | zero => simp at hf
      | succ fuel =>
        have hlen : kb.length + lb.length + rb.length ≤ fuel := by
          simp only [List.length_append, List.length_cons] at hf
          omega
        have e : ((1 : Fin 256) :: kb ++ lb ++ rb) ++ rest
            = (1 : Fin 256) :: (kb ++ (lb ++ (rb ++ rest))) := by
          simp
        rw [e, deserializeRecursive, if_neg (by decide), if_pos rfl, hdec]
        simp only []
        rw [hld _ fuel (by omega)]
        simp only []
        rw [hrd _ fuel (by omega)]

/-- C34: for every tree `t` whose keys `binary.Write` writes and
`binary.Read` reads back (fixed-width keys), `serializeRecursive` returns no
error, and `deserializeRecursive` applied to the bytes written (pre-order,
marker byte 1 and the key for a node, marker byte 0 for a missing child),
whatever follows them, returns no error and the tree `t` itself, leaving
exactly what follows the written bytes. -/
theorem C34_tree_binary_round_trip (enc : T → Option Bytes)
    (dec : Bytes → Option (T × Bytes)) (t : Tree T)
    (hcodec : ∀ k, k ∈ inOrder t →
      ∃ kb, enc k = some kb ∧ ∀ rest, dec (kb ++ rest) = some (k, rest)) :
    ∃ bs, serializeRecursive enc t = some bs ∧
      ∀ (rest : Bytes) (fuel : Nat), bs.length ≤ fuel →
        deserializeRecursive dec fuel (bs ++ rest) = Res.ok (some (t, rest)) := by
  obtain ⟨bs, h1, _, h2⟩ := serialize_round_trip enc dec t hcodec
  exact ⟨bs, h1, h2⟩

theorem C34_tree_binary_round_trip_witness :
    serializeRecursive encI32 tree10
        = some [1, 10, 0, 0, 0, 1, 5, 0, 0, 0, 0, 0, 1, 15, 0, 0, 0, 0, 0] ∧
      ∃ bs, serializeRecursive encI32 tree10 = some bs ∧
        ∀ (rest : Bytes) (fuel : Nat), bs.length ≤ fuel →
          deserializeRecursive decI32 fuel (bs ++ rest) = Res.ok (some (tree10, rest)) :=
  ⟨by decide, C34_tree_binary_round_trip encI32 decI32 tree10 (by
    intro k hk
    have hk2 : k = 5 ∨ k = 10 ∨ k = 15 := by
      simpa [tree10, inOrder] using hk
    rcases hk2 with e | e | e <;> subst e <;> exact ⟨_, rfl, fun rest => rfl⟩)⟩

end binarytree
